import Mathlib

/-!
# Star_Go trust subsystem: permission model, authorization middleware,
one-time-code cache and token service

A shallow embedding of the Go sources (`internal/models`, `internal/services`,
`pkg/middleware`, `pkg/cache`, `pkg/utils`) followed by theorems about them.

Conventions of the embedding
* a Go `error` is its message, `Option String` (`none` is `nil`);
* a Go pointer that may be `nil` is an `Option`;
* code that talks to the database threads an explicit database state `σ`
  through every repository call, so that two successive reads may differ.
-/

namespace StarGo

/-! ## internal/models/role.go -/

/-- Permissions is the Go slice type `[]string` holding a role's permission strings. -/
abbrev Permissions := List String

/-- PermAll is the wildcard permission constant. -/
def PermAll : String := "*"

/-- HasPermission of role.go lines 69-76: the range loop returns true at the first
element equal to the requested permission or equal to the wildcard. -/
def Permissions.HasPermission : Permissions → String → Bool
  | [], _ => false
  | perm :: rest, permission =>
    if perm == permission || perm == "*" then true
    else Permissions.HasPermission rest permission

/-- Role model of role.go lines 100-106 (the embedded BaseModel is reduced to its ID). -/
structure Role where
  ID : Nat
  Name : String
  Code : String
  Description : String
  Permissions : Permissions
deriving DecidableEq

/-- Role.HasPermission of role.go lines 114-116. -/
def Role.HasPermission (r : Role) (permission : String) : Bool :=
  Permissions.HasPermission r.Permissions permission

/-! ## internal/models/user.go -/

/-- User model of user.go lines 20-32; `Role` is the nullable preloaded association. -/
structure User where
  ID : Nat
  Username : String
  Password : String
  Email : String
  Phone : String
  Nickname : String
  RoleID : Nat
  Role : Option Role
  Status : Int
deriving DecidableEq

/-- User.HasPermission of user.go lines 74-79: false when no role is attached. -/
def User.HasPermission (u : User) (permission : String) : Bool :=
  match u.Role with
  | some role => role.HasPermission permission
  | none => false

/-! ## internal/repository and internal/services/user_service.go -/

/-- IUserRepository restricted to the method the trust subsystem uses. A call reads the
database state and returns Go's pair `(*User, error)` together with the next state. -/
structure IUserRepository (σ : Type) where
  FindByID : Nat → σ → (Option User × Option String) × σ

/-- UserService.GetUserByID of user_service.go lines 35-37. -/
def UserService.GetUserByID {σ : Type} (userRepo : IUserRepository σ) (id : Nat) (db : σ) :
    (Option User × Option String) × σ :=
  userRepo.FindByID id db

/-- UserService.HasPermission of user_service.go lines 119-131. -/
def UserService.HasPermission {σ : Type} (userRepo : IUserRepository σ) (userID : Nat)
    (permission : String) (db : σ) : (Bool × Option String) × σ :=
  match userRepo.FindByID userID db with
  | ((_, some err), db1) => ((false, some err), db1)
  | ((none, none), db1) => ((false, some "用户不存在"), db1)
  | ((some user, none), db1) => ((user.HasPermission permission, none), db1)

/-! ## pkg/middleware/auth.go -/

/-- Outcome of one gin handler: `next` is `c.Next()`; `abort status code message` is
`c.JSON(status, body)` followed by `c.Abort()`, where the body carries the fields `code`
and `message`; `panic` is a Go run-time panic raised inside the handler. -/
inductive Outcome where
  | next
  | abort (status : Nat) (code : Nat) (message : String)
  | panic
deriving DecidableEq

/-- RoleAuth of auth.go lines 60-109. The argument `userID` is the result of
`c.Get("userID")`. Line 97 prints `user.Role.Code` before the nil test of line 98, so a
nil `user.Role` is dereferenced there. -/
def RoleAuth {σ : Type} (userRepo : IUserRepository σ) (roleCode : String)
    (userID : Option Nat) (db : σ) : Outcome × σ :=
  match userID with
  | none => (Outcome.abort 401 401 "未认证用户", db)
  | some uid =>
    match UserService.GetUserByID userRepo uid db with
    | ((_, some err), db1) => (Outcome.abort 500 500 ("获取用户信息失败: " ++ err), db1)
    | ((none, none), db1) => (Outcome.abort 401 401 "用户不存在", db1)
    | ((some user, none), db1) =>
      match user.Role with
      | none => (Outcome.panic, db1)
      | some role =>
        if user.Role = none || role.Code != roleCode then
          (Outcome.abort 403 403 ("权限不足，需要 " ++ roleCode ++ " 角色"), db1)
        else (Outcome.next, db1)

/-- PermissionAuth of auth.go lines 112-150. -/
def PermissionAuth {σ : Type} (userRepo : IUserRepository σ) (permission : String)
    (userID : Option Nat) (db : σ) : Outcome × σ :=
  match userID with
  | none => (Outcome.abort 401 401 "未认证用户", db)
  | some uid =>
    match UserService.HasPermission userRepo uid permission db with
    | ((_, some err), db1) => (Outcome.abort 500 500 ("检查权限失败: " ++ err), db1)
    | ((false, none), db1) =>
      (Outcome.abort 403 403 ("权限不足，需要 " ++ permission ++ " 权限"), db1)
    | ((true, none), db1) => (Outcome.next, db1)

/-- RoleAndPermissionAuth of auth.go lines 153-221. -/
def RoleAndPermissionAuth {σ : Type} (userRepo : IUserRepository σ) (roleCode : String)
    (permission : String) (userID : Option Nat) (db : σ) : Outcome × σ :=
  match userID with
  | none => (Outcome.abort 401 401 "未认证用户", db)
  | some uid =>
    match UserService.GetUserByID userRepo uid db with
    | ((_, some err), db1) => (Outcome.abort 500 500 ("获取用户信息失败: " ++ err), db1)
    | ((none, none), db1) => (Outcome.abort 401 401 "用户不存在", db1)
    | ((some user, none), db1) =>
      if (match user.Role with
          | none => true
          | some role => role.Code != roleCode) then
        (Outcome.abort 403 403 ("权限不足，需要 " ++ roleCode ++ " 角色"), db1)
      else
        match UserService.HasPermission userRepo uid permission db1 with
        | ((_, some err), db2) => (Outcome.abort 500 500 ("检查权限失败: " ++ err), db2)
        | ((false, none), db2) =>
          (Outcome.abort 403 403 ("权限不足，需要 " ++ permission ++ " 权限"), db2)
        | ((true, none), db2) => (Outcome.next, db2)

/-- RoleOrPermissionAuth of auth.go lines 224-286. -/
def RoleOrPermissionAuth {σ : Type} (userRepo : IUserRepository σ) (roleCode : String)
    (permission : String) (userID : Option Nat) (db : σ) : Outcome × σ :=
  match userID with
  | none => (Outcome.abort 401 401 "未认证用户", db)
  | some uid =>
    match UserService.GetUserByID userRepo uid db with
    | ((_, some err), db1) => (Outcome.abort 500 500 ("获取用户信息失败: " ++ err), db1)
    | ((none, none), db1) => (Outcome.abort 401 401 "用户不存在", db1)
    | ((some user, none), db1) =>
      let hasRole : Bool :=
        match user.Role with
        | none => false
        | some role => role.Code == roleCode
      match UserService.HasPermission userRepo uid permission db1 with
      | ((_, some err), db2) => (Outcome.abort 500 500 ("检查权限失败: " ++ err), db2)
      | ((hasPermission, none), db2) =>
        if !hasRole && !hasPermission then
          (Outcome.abort 403 403
            ("权限不足，需要 " ++ roleCode ++ " 角色或 " ++ permission ++ " 权限"), db2)
        else (Outcome.next, db2)

/-- The range loop of AnyPermissionAuth, auth.go lines 306-316: the flag is true when a
lookup returned `(true, nil)` (the handler then calls `c.Next()` and returns) and false
when the loop ran to its end. A lookup error is skipped by `continue`. -/
def anyPermissionLoop {σ : Type} (userRepo : IUserRepository σ) (uid : Nat) :
    List String → σ → Bool × σ
  | [], db => (false, db)
  | permission :: rest, db =>
    match UserService.HasPermission userRepo uid permission db with
    | ((_, some _), db1) => anyPermissionLoop userRepo uid rest db1
    | ((true, none), db1) => (true, db1)
    | ((false, none), db1) => anyPermissionLoop userRepo uid rest db1

/-- AnyPermissionAuth of auth.go lines 289-328. -/
def AnyPermissionAuth {σ : Type} (userRepo : IUserRepository σ) (permissions : List String)
    (userID : Option Nat) (db : σ) : Outcome × σ :=
  match userID with
  | none => (Outcome.abort 401 401 "未认证用户", db)
  | some uid =>
    match anyPermissionLoop userRepo uid permissions db with
    | (true, db1) => (Outcome.next, db1)
    | (false, db1) =>
      (Outcome.abort 403 403
        ("权限不足，需要以下权限之一: " ++ ", ".intercalate permissions), db1)

/-- The range loop of AllPermissionsAuth, auth.go lines 348-367, with the `c.Next()` of
line 370 as the result of the exhausted loop. -/
def allPermissionsLoop {σ : Type} (userRepo : IUserRepository σ) (uid : Nat) :
    List String → σ → Outcome × σ
  | [], db => (Outcome.next, db)
  | permission :: rest, db =>
    match UserService.HasPermission userRepo uid permission db with
    | ((_, some err), db1) => (Outcome.abort 500 500 ("检查权限失败: " ++ err), db1)
    | ((false, none), db1) => (Outcome.abort 403 403 ("权限不足，需要权限: " ++ permission), db1)
    | ((true, none), db1) => allPermissionsLoop userRepo uid rest db1

/-- AllPermissionsAuth of auth.go lines 331-372. -/
def AllPermissionsAuth {σ : Type} (userRepo : IUserRepository σ) (permissions : List String)
    (userID : Option Nat) (db : σ) : Outcome × σ :=
  match userID with
  | none => (Outcome.abort 401 401 "未认证用户", db)
  | some uid => allPermissionsLoop userRepo uid permissions db

/-- The permission lookups a full scan of `permissions` performs, in order, each from the
database state its predecessor left: the list of results and the final state. -/
def scanLookups {σ : Type} (userRepo : IUserRepository σ) (uid : Nat) :
    List String → σ → List (Bool × Option String) × σ
  | [], db => ([], db)
  | permission :: rest, db =>
    let r := UserService.HasPermission userRepo uid permission db
    let t := scanLookups userRepo uid rest r.2
    (r.1 :: t.1, t.2)

/-! ## pkg/cache/sms_code.go

The Redis server is modelled as a keyspace of string values with optional absolute
deadlines. Time is a natural number of milliseconds; every cache method runs at one
instant `now`. Only the commands the cache issues are modelled: SET with expiry, GET,
INCR and DEL. -/

/-- A stored Redis value. `int n` is a value written as an integer (by `SET key 0` or by
INCR), `str s` one written as text; both read back as strings. -/
inductive RedisValue where
  | int (n : Int)
  | str (s : String)
deriving DecidableEq

/-- One key of the keyspace: its value and its deadline (`none`: the key never expires). -/
structure RedisEntry where
  value : RedisValue
  expireAt : Option Nat
deriving DecidableEq

/-- The Redis keyspace. -/
abbrev Redis := String → Option RedisEntry

/-- The empty keyspace. -/
def Redis.empty : Redis := fun _ => none

/-- The entry of `key` as seen by a command run at `now`: an entry whose deadline has been
reached is gone. -/
def Redis.live (s : Redis) (now : Nat) (key : String) : Option RedisEntry :=
  match s key with
  | none => none
  | some e =>
    match e.expireAt with
    | none => some e
    | some deadline => if deadline ≤ now then none else some e

/-- Decimal digits of a natural number, most significant first. -/
def decimalDigits (n : Nat) : List Char := (Nat.toDigits 10 n)

/-- The text of an integer as Redis returns it. -/
def formatInt (n : Int) : String :=
  match n with
  | Int.ofNat m => String.mk (decimalDigits m)
  | Int.negSucc m => String.mk ('-' :: decimalDigits (m + 1))

/-- Value of a string of decimal digits; `none` when empty or when a character is not a
digit. -/
def parseDigits (cs : List Char) : Option Nat :=
  if cs = [] ∨ ¬ cs.all Char.isDigit then none
  else some (cs.foldl (fun acc c => 10 * acc + (c.toNat - 48)) 0)

/-- Go's `strconv.Atoi` on a 64-bit platform: an optional sign, decimal digits, and a value
in the range of `int`. -/
def atoi (s : String) : Option Int :=
  let signed : Bool × List Char :=
    match s.toList with
    | '-' :: rest => (true, rest)
    | '+' :: rest => (false, rest)
    | cs => (false, cs)
  match parseDigits signed.2 with
  | none => none
  | some m =>
    let v : Int := if signed.1 then - (m : Int) else (m : Int)
    if v < -(2 ^ 63) ∨ 2 ^ 63 ≤ v then none else some v

/-- The text a GET returns for a stored value. -/
def RedisValue.text : RedisValue → String
  | RedisValue.int n => formatInt n
  | RedisValue.str s => s

/-- The integer a stored value denotes for `Get(key).Int()`. -/
def RedisValue.asInt : RedisValue → Option Int
  | RedisValue.int n => some n
  | RedisValue.str s => atoi s

/-- SET key value with an expiration: go-redis sends no expiry when the duration is zero. -/
def Redis.Set (s : Redis) (now : Nat) (key : String) (value : RedisValue)
    (expiration : Nat) : Redis :=
  fun k =>
    if k = key then
      some (RedisEntry.mk value (if expiration = 0 then none else some (now + expiration)))
    else s k

/-- GET key: the text of the live value, `none` for the reply `redis.Nil`. -/
def Redis.Get (s : Redis) (now : Nat) (key : String) : Option String :=
  (s.live now key).map (fun e => e.value.text)

/-- The call `Get(key).Int()`: `Except.error none` is the error `redis.Nil` (the integer
result is then 0), `Except.error (some msg)` is a conversion error of `strconv.Atoi`,
whose message is abbreviated here. -/
def Redis.GetInt (s : Redis) (now : Nat) (key : String) : Except (Option String) Int :=
  match s.live now key with
  | none => Except.error none
  | some e =>
    match e.value.asInt with
    | some n => Except.ok n
    | none => Except.error (some ("strconv.Atoi: parsing " ++ e.value.text))

/-- The integer a stored value denotes for the server command INCR: a text counts only
when it is the canonical decimal form of a 64-bit integer. -/
def RedisValue.incrOperand : RedisValue → Option Int
  | RedisValue.int n => some n
  | RedisValue.str s =>
    match atoi s with
    | some n => if formatInt n = s then some n else none
    | none => none

/-- INCR key: a key that is absent or expired is created with value 1 and no deadline; a
live integer below the 64-bit maximum is incremented and keeps its deadline; otherwise
the command fails and the keyspace is unchanged. -/
def Redis.Incr (s : Redis) (now : Nat) (key : String) : Redis :=
  match s.live now key with
  | none => fun k => if k = key then some (RedisEntry.mk (RedisValue.int 1) none) else s k
  | some e =>
    match e.value.incrOperand with
    | none => s
    | some n =>
      if 2 ^ 63 ≤ n + 1 then s
      else fun k =>
        if k = key then some (RedisEntry.mk (RedisValue.int (n + 1)) e.expireAt) else s k

/-- DEL key. -/
def Redis.Del (s : Redis) (key : String) : Redis :=
  fun k => if k = key then none else s k

/-- RedisCodeCache of sms_code.go lines 17-21 without the client handle: the expiration in
milliseconds and the field `maxAttempts`. -/
structure RedisCodeCache where
  expiration : Nat
  maxAttempts : Int

/-- NewRedisCodeCache of sms_code.go lines 23-29: ten seconds, three attempts. -/
def NewRedisCodeCache : RedisCodeCache :=
  RedisCodeCache.mk 10000 3

/-- The key builder generateSMSKey of sms_code.go lines 93-95. -/
def generateSMSKey (biz phone : String) : String :=
  "sms:" ++ biz ++ ":" ++ phone

/-- The key builder generateAttemptsKey of sms_code.go lines 98-100. -/
def generateAttemptsKey (biz phone : String) : String :=
  "sms:attempts:" ++ biz ++ ":" ++ phone

/-- The error texts Verify creates with `fmt.Errorf`. -/
def errTooManyAttempts : String := "验证次数过多，请重新获取"

/-- Error text of sms_code.go line 64. -/
def errCodeExpired : String := "验证码失效"

/-- Error text of sms_code.go line 71. -/
def errCodeMismatch : String := "验证码不匹配，请重新输入"

/-- The method Set of sms_code.go lines 31-42: both entries are written in one pipeline. -/
def RedisCodeCache.Set (r : RedisCodeCache) (now : Nat) (biz phone code : String)
    (s : Redis) : Option String × Redis :=
  let key := generateSMSKey biz phone
  let attemptsKey := generateAttemptsKey biz phone
  let s1 := Redis.Set s now key (RedisValue.str code) r.expiration
  let s2 := Redis.Set s1 now attemptsKey (RedisValue.int 0) r.expiration
  (none, s2)

/-- The method Verify of sms_code.go lines 44-79. -/
def RedisCodeCache.Verify (r : RedisCodeCache) (now : Nat) (biz phone code : String)
    (s : Redis) : (Bool × Option String) × Redis :=
  let key := generateSMSKey biz phone
  let attemptsKey := generateAttemptsKey biz phone
  match Redis.GetInt s now attemptsKey with
  | Except.error (some err) => ((false, some err), s)
  | got =>
    let attempts : Int :=
      match got with
      | Except.ok n => n
      | Except.error _ => 0
    if attempts > r.maxAttempts then ((false, some errTooManyAttempts), s)
    else
      let s1 := Redis.Incr s now attemptsKey
      match Redis.Get s1 now key with
      | none => ((false, some errCodeExpired), s1)
      | some storeCode =>
        if storeCode != code then ((false, some errCodeMismatch), s1)
        else
          let s2 := Redis.Del (Redis.Del s1 key) attemptsKey
          ((true, none), s2)

/-- The method Remove of sms_code.go lines 81-90. -/
def RedisCodeCache.Remove (_r : RedisCodeCache) (biz phone : String) (s : Redis) :
    Option String × Redis :=
  let key := generateSMSKey biz phone
  let attemptsKey := generateAttemptsKey biz phone
  (none, Redis.Del (Redis.Del s key) attemptsKey)

/-- A run of Verify calls on one key, each given as its instant and the supplied code;
returns the results in order and the final keyspace. -/
def verifyAll (r : RedisCodeCache) (biz phone : String) :
    List (Nat × String) → Redis → List (Bool × Option String) × Redis
  | [], s => ([], s)
  | (now, code) :: rest, s =>
    let v := RedisCodeCache.Verify r now biz phone code s
    let t := verifyAll r biz phone rest v.2
    (v.1 :: t.1, t.2)

/-- The deadline Set gives to both entries when run at `t0`. -/
def setDeadline (r : RedisCodeCache) (t0 : Nat) : Option Nat :=
  if r.expiration = 0 then none else some (t0 + r.expiration)

/-- The pending state of a key: the code and a counter value `k` stored with the deadline
of a Set run at `t0`. -/
def Pending (r : RedisCodeCache) (t0 : Nat) (biz phone code : String) (k : Int)
    (s : Redis) : Prop :=
  s (generateSMSKey biz phone) = some (RedisEntry.mk (RedisValue.str code) (setDeadline r t0)) ∧
  s (generateAttemptsKey biz phone) = some (RedisEntry.mk (RedisValue.int k) (setDeadline r t0))

/-! ## pkg/utils/jwt.go

Instants are integers counting nanoseconds since the Unix epoch. The third-party package
`github.com/golang-jwt/jwt/v5` is not part of the repository; the part of it that
`parseToken` drives is modelled below on decoded tokens: a token string is either
malformed or carries a header algorithm, the claims and the decoded signature bytes. The
keyed hash is a parameter `mac` of the model. The base64 text of the signature segment
is modelled further down, with `DecodeSegment` and `parseTokenSegments`. -/

/-- JWTConfig of config.go lines 53-59; a `time.Duration` is a 64-bit integer. -/
structure JWTConfig where
  Secret : String
  AccessTokenExp : Int
  RefreshTokenExp : Int
  TokenIssuer : String
  RefreshTokenSize : Int
deriving DecidableEq

/-- The registered claims `jwt.RegisteredClaims`; a numeric date is an instant, `none`
when the claim is omitted. -/
structure RegisteredClaims where
  Issuer : String
  Subject : String
  Audience : List String
  ExpiresAt : Option Int
  NotBefore : Option Int
  IssuedAt : Option Int
  ID : String
deriving DecidableEq

/-- JWTClaims of jwt.go lines 13-18. -/
structure JWTClaims where
  UserID : Nat
  Username : String
  Role : String
  Registered : RegisteredClaims
deriving DecidableEq

/-- A presented token string, decoded: three well-formed segments or anything else. -/
inductive TokenString where
  | malformed
  | wellFormed (alg : String) (claims : JWTClaims) (signature : List Nat)
deriving DecidableEq

/-- The keyed hash of the signing methods: algorithm name, key, signing input (header
algorithm and claims), giving the signature bytes. -/
abbrev MAC := String → String → String × JWTClaims → List Nat

/-- The families of signing methods registered by the JWT package. -/
inductive SigningMethod where
  | HMAC (name : String)
  | RSA (name : String)
  | RSAPSS (name : String)
  | ECDSA (name : String)
  | Ed25519
  | None
deriving DecidableEq

/-- The registry lookup `jwt.GetSigningMethod`. -/
def GetSigningMethod (alg : String) : Option SigningMethod :=
  if alg = "HS256" ∨ alg = "HS384" ∨ alg = "HS512" then some (SigningMethod.HMAC alg)
  else if alg = "RS256" ∨ alg = "RS384" ∨ alg = "RS512" then some (SigningMethod.RSA alg)
  else if alg = "PS256" ∨ alg = "PS384" ∨ alg = "PS512" then some (SigningMethod.RSAPSS alg)
  else if alg = "ES256" ∨ alg = "ES384" ∨ alg = "ES512" then some (SigningMethod.ECDSA alg)
  else if alg = "EdDSA" then some SigningMethod.Ed25519
  else if alg = "none" then some SigningMethod.None
  else none

/-- The errors `parseToken` can return: the sentinel classes of the JWT package and the
error created at jwt.go line 106. -/
inductive ParseError where
  | malformed
  | unverifiable (reason : String)
  | signatureInvalid
  | invalidClaims (expired : Bool) (notValidYet : Bool)
  | invalidToken
deriving DecidableEq

/-- Wrap-around of 64-bit signed arithmetic. -/
def wrap64 (x : Int) : Int := (x + 2 ^ 63) % 2 ^ 64 - 2 ^ 63

/-- The constant `time.Minute` in nanoseconds. -/
def Minute : Int := 60000000000

/-- The constructor `jwt.NewNumericDate`: the instant truncated to whole seconds. -/
def NewNumericDate (t : Int) : Int := t / 1000000000 * 1000000000

/-- The claims built at jwt.go lines 25-33 (and 52-60) for a lifetime `exp` taken from the
configuration, with the three readings of `time.Now()` in the order of the source. -/
def buildClaims (cfg : JWTConfig) (exp : Int) (userID : Nat) (now1 now2 now3 : Int) :
    JWTClaims :=
  JWTClaims.mk userID "" ""
    (RegisteredClaims.mk cfg.TokenIssuer "" []
      (some (NewNumericDate (now1 + wrap64 (exp * Minute))))
      (some (NewNumericDate now3))
      (some (NewNumericDate now2))
      "")

/-- Signing of claims with HS256, jwt.go lines 36-39: `NewWithClaims` then `SignedString`. -/
def signHS256 (mac : MAC) (secret : String) (claims : JWTClaims) : TokenString :=
  TokenString.wellFormed "HS256" claims (mac "HS256" secret ("HS256", claims))

/-- GenerateAccessToken of jwt.go lines 21-45; `now1`, `now2`, `now3` are the readings of
`time.Now()` at lines 28, 29 and 30. Signing with a byte-slice key does not fail. -/
def GenerateAccessToken (mac : MAC) (cfg : JWTConfig) (userID : Nat) (now1 now2 now3 : Int) :
    TokenString × Option String :=
  (signHS256 mac cfg.Secret (buildClaims cfg cfg.AccessTokenExp userID now1 now2 now3), none)

/-- GenerateRefreshToken of jwt.go lines 48-72. -/
def GenerateRefreshToken (mac : MAC) (cfg : JWTConfig) (userID : Nat) (now1 now2 now3 : Int) :
    TokenString × Option String :=
  (signHS256 mac cfg.Secret (buildClaims cfg cfg.RefreshTokenExp userID now1 now2 now3), none)

/-- The key function passed to `ParseWithClaims`, jwt.go lines 89-95. -/
def keyFunc (cfg : JWTConfig) (method : SigningMethod) : Except String String :=
  match method with
  | SigningMethod.HMAC _ => Except.ok cfg.Secret
  | _ => Except.error "无效的签名方法"

/-- Verification of a signature by a signing method with the key the key function
returned: an HMAC method recomputes the keyed hash over the signing input. The other
families never accept a key of byte-slice type. -/
def SigningMethod.Verify (mac : MAC) (method : SigningMethod) (key : String)
    (alg : String) (claims : JWTClaims) (signature : List Nat) : Bool :=
  match method with
  | SigningMethod.HMAC name => signature = mac name key (alg, claims)
  | _ => false

/-- The default claims validation of the JWT package at instant `now`: the token is
expired unless `now` is before `exp`, and not valid yet when `now` is before `nbf`; an
omitted claim is not checked. Returns the two failure flags. -/
def validateClaims (now : Int) (c : RegisteredClaims) : Bool × Bool :=
  let expired : Bool :=
    match c.ExpiresAt with
    | some exp => !(now < exp)
    | none => false
  let notValidYet : Bool :=
    match c.NotBefore with
    | some nbf => now < nbf
    | none => false
  (expired, notValidYet)

/-- The parsed token `jwt.Token` as far as `parseToken` reads it. -/
structure Token where
  Method : SigningMethod
  Claims : JWTClaims
  Signature : List Nat
  Valid : Bool
deriving DecidableEq

/-- The library call `jwt.ParseWithClaims` with the key function of jwt.go: segment
decoding, method lookup, key function, signature check, claims validation. The result is
either an error or, without error, the token marked valid. -/
def ParseWithClaims (mac : MAC) (cfg : JWTConfig) (now : Int) (tokenString : TokenString) :
    Except ParseError Token :=
  match tokenString with
  | TokenString.malformed => Except.error ParseError.malformed
  | TokenString.wellFormed alg claims signature =>
    match GetSigningMethod alg with
    | none => Except.error (ParseError.unverifiable "signing method is unavailable")
    | some method =>
      match keyFunc cfg method with
      | Except.error err => Except.error (ParseError.unverifiable err)
      | Except.ok key =>
        if !(SigningMethod.Verify mac method key alg claims signature) then
          Except.error ParseError.signatureInvalid
        else
          match validateClaims now claims.Registered with
          | (false, false) => Except.ok (Token.mk method claims signature true)
          | (expired, notValidYet) => Except.error (ParseError.invalidClaims expired notValidYet)

/-- The function parseToken of jwt.go lines 85-107: an error of the library is returned
with nil claims (lines 97-99), a valid token yields its claims (lines 102-104), anything
else the error of line 106. -/
def parseToken (mac : MAC) (cfg : JWTConfig) (now : Int) (tokenString : TokenString) :
    Except ParseError JWTClaims :=
  match ParseWithClaims mac cfg now tokenString with
  | Except.error err => Except.error err
  | Except.ok token =>
    if token.Valid then Except.ok token.Claims else Except.error ParseError.invalidToken

/-- ParseAccessToken of jwt.go lines 75-77. -/
def ParseAccessToken (mac : MAC) (cfg : JWTConfig) (now : Int) (tokenString : TokenString) :
    Except ParseError JWTClaims :=
  parseToken mac cfg now tokenString

/-- ParseRefreshToken of jwt.go lines 80-82. -/
def ParseRefreshToken (mac : MAC) (cfg : JWTConfig) (now : Int) (tokenString : TokenString) :
    Except ParseError JWTClaims :=
  parseToken mac cfg now tokenString

/-! ## internal/services/auth_service.go -/

/-- The constant `models.StatusActive` of base_model.go line 12. -/
def StatusActive : Int := 1

/-- User.IsActive of user.go lines 61-63. -/
def User.IsActive (u : User) : Bool := u.Status == 1

/-- Result of a Go call that either returns its values or panics. -/
inductive GoCall (α : Type) where
  | returned (value : α)
  | panicked

/-- The method RefreshToken of auth_service.go lines 113-138. The token is parsed at
instant `now`; `now1`, `now2`, `now3` are the clock readings of the GenerateAccessToken
call. The empty string returned beside an error is the malformed token string. A
repository reply `(nil, nil)` makes `user.IsActive()` dereference a nil pointer. -/
def AuthService.RefreshToken {σ : Type} (mac : MAC) (cfg : JWTConfig)
    (userRepo : IUserRepository σ) (now now1 now2 now3 : Int) (refreshToken : TokenString)
    (db : σ) : GoCall (TokenString × Option String) × σ :=
  match ParseRefreshToken mac cfg now refreshToken with
  | Except.error _ => (GoCall.returned (TokenString.malformed, some "无效的刷新令牌"), db)
  | Except.ok claims =>
    match userRepo.FindByID claims.UserID db with
    | ((_, some _), db1) => (GoCall.returned (TokenString.malformed, some "用户不存在"), db1)
    | ((none, none), db1) => (GoCall.panicked, db1)
    | ((some user, none), db1) =>
      if !user.IsActive then
        (GoCall.returned (TokenString.malformed, some "用户已被禁用"), db1)
      else
        match GenerateAccessToken mac cfg user.ID now1 now2 now3 with
        | (_, some err) => (GoCall.returned (TokenString.malformed, some err), db1)
        | (accessToken, none) => (GoCall.returned (accessToken, none), db1)

/-! ## pkg/middleware/auth.go: JWTAuth -/

/-- The keys of the gin context that JWTAuth sets: `c.Get` of a key not yet set gives
`none`. -/
structure Context where
  userID : Option Nat
  username : Option String
deriving DecidableEq

/-- Cut of a character list at its first space: the part before it and the part after
it, `none` when there is no space. -/
def splitAtSpace : List Char → Option (List Char × List Char)
  | [] => none
  | c :: cs =>
    if c = ' ' then some ([], cs)
    else
      match splitAtSpace cs with
      | none => none
      | some (a, b) => some (c :: a, b)

/-- The call `strings.SplitN(s, " ", 2)`: the string itself when it has no space,
otherwise the text before the first space and the whole remainder after it. -/
def SplitN2 (s : String) : List String :=
  match splitAtSpace s.data with
  | none => [s]
  | some (a, b) => [String.mk a, String.mk b]

/-- Text of the 401 answer of auth.go line 33. -/
def msgBadAuthFormat : String := "认证格式错误，应为 \x27Bearer \x7btoken\x7d\x27"

/-- JWTAuth of auth.go lines 15-57. `authHeader` is `c.GetHeader("Authorization")`, the
empty string when the header is absent; `decode` is the segment decoding of the JWT
package and `errorText` the `Error` method of its errors, both taken as parameters;
`now` is the instant of the parse. -/
def JWTAuth (mac : MAC) (cfg : JWTConfig) (decode : String → TokenString)
    (errorText : ParseError → String) (now : Int) (authHeader : String) (c : Context) :
    Outcome × Context :=
  if authHeader = "" then (Outcome.abort 401 401 "未提供认证令牌", c)
  else
    match SplitN2 authHeader with
    | [scheme, token] =>
      if scheme != "Bearer" then (Outcome.abort 401 401 msgBadAuthFormat, c)
      else
        match ParseAccessToken mac cfg now (decode token) with
        | Except.error err =>
          (Outcome.abort 401 401 ("无效的认证令牌: " ++ errorText err), c)
        | Except.ok claims =>
          (Outcome.next, Context.mk (some claims.UserID) (some claims.Username))
    | _ => (Outcome.abort 401 401 msgBadAuthFormat, c)

/-! ## pkg/cache/sms_code.go: the counter as Verify reads it -/

/-- The attempt count Verify works with after lines 49-52: the stored integer, 0 when the
counter is absent (`redis.Nil`), and `none` when the stored text is not an integer, in
which case Verify returns the conversion error. -/
def attemptsRead (s : Redis) (now : Nat) (biz phone : String) : Option Int :=
  match Redis.GetInt s now (generateAttemptsKey biz phone) with
  | Except.ok n => some n
  | Except.error none => some 0
  | Except.error (some _) => none

/-! ## pkg/utils/response.go -/

/-- A value of a `gin.H` map as the SMS controller builds it. -/
inductive FieldValue where
  | bool (b : Bool)
  | str (s : String)
deriving DecidableEq

/-- The `data` argument of a response: nil, a `gin.H` map, or an error value. -/
inductive ResponseData where
  | null
  | fields (kv : List (String × FieldValue))
  | error (msg : String)
deriving DecidableEq

/-- The answer written by `c.JSON`: the HTTP status and the fields of `Response`,
response.go lines 41-45. -/
structure Response where
  status : Nat
  Code : Int
  Message : String
  Data : ResponseData
deriving DecidableEq

/-- Response code SUCCESS. -/
def SUCCESS : Int := 200

/-- Response code ERROR. -/
def ERROR : Int := 500

/-- Response code INVALID_PARAMS. -/
def INVALID_PARAMS : Int := 400

/-- Response code UNAUTHORIZED. -/
def UNAUTHORIZED : Int := 401

/-- Response code FORBIDDEN. -/
def FORBIDDEN : Int := 403

/-- Response code NOT_FOUND. -/
def NOT_FOUND : Int := 404

/-- GetMsg of response.go lines 31-38 over the map MsgFlags of lines 21-28. -/
def GetMsg (code : Int) : String :=
  if code = SUCCESS then "成功"
  else if code = ERROR then "服务器内部错误"
  else if code = INVALID_PARAMS then "请求参数错误"
  else if code = UNAUTHORIZED then "未授权访问"
  else if code = FORBIDDEN then "禁止访问"
  else if code = NOT_FOUND then "资源不存在"
  else "服务器内部错误"

/-- The status mapping getHttpStatusByCode of response.go lines 84-99. -/
def getHttpStatusByCode (code : Int) : Nat :=
  if code = INVALID_PARAMS then 400
  else if code = UNAUTHORIZED then 401
  else if code = FORBIDDEN then 403
  else if code = NOT_FOUND then 404
  else if code = ERROR then 500
  else 200

/-- Success of response.go lines 48-54. -/
def Success (data : ResponseData) : Response :=
  Response.mk 200 SUCCESS (GetMsg SUCCESS) data

/-- Fail of response.go lines 66-72. -/
def Fail (code : Int) (data : ResponseData) : Response :=
  Response.mk (getHttpStatusByCode code) code (GetMsg code) data

/-- FailWithMessage of response.go lines 75-81. -/
def FailWithMessage (code : Int) (message : String) (data : ResponseData) : Response :=
  Response.mk (getHttpStatusByCode code) code message data

/-! ## internal/services/sms.service.go -/

/-- Business type constant BizLogin. -/
def BizLogin : String := "login"

/-- Business type constant BizRegister. -/
def BizRegister : String := "register"

/-- Business type constant BizResetPwd. -/
def BizResetPwd : String := "reset_pwd"

/-- Business type constant BizChangePhone. -/
def BizChangePhone : String := "change_phone"

/-- The interface SMSService of sms.service.go lines 18-21 over a service state `σ`. -/
structure SMSService (σ : Type) where
  Send : String → String → σ → Option String × σ
  Verify : String → String → String → σ → (Bool × Option String) × σ

/-- Zero padding of a digit string on the left up to a width. -/
def padZeros (width : Nat) (ds : List Char) : List Char :=
  List.replicate (width - ds.length) '0' ++ ds

/-- The formatting `fmt.Sprintf("%06d", num)`: at least six characters, padded with zeros
after the sign. -/
def sprintf06d (num : Int) : String :=
  match num with
  | Int.ofNat m => String.mk (padZeros 6 (decimalDigits m))
  | Int.negSucc m => String.mk ('-' :: padZeros 5 (decimalDigits (m + 1)))

/-- The function generateCode of sms.service.go lines 60-64; `num` is the draw
`rand.IntN(1000000)`. -/
def generateCode (num : Int) : String := sprintf06d num

/-- The method Send of sms.service.go lines 36-53 on the Redis code cache, at instant
`now` and with the random draw `num`. -/
def smsService.Send (cache : RedisCodeCache) (now : Nat) (num : Int) (biz phone : String)
    (s : Redis) : Option String × Redis :=
  let code := generateCode num
  match RedisCodeCache.Set cache now biz phone code s with
  | (some err, s1) => (some err, s1)
  | (none, s1) => (none, s1)

/-- The method Verify of sms.service.go lines 55-57. -/
def smsService.Verify (cache : RedisCodeCache) (now : Nat) (biz phone code : String)
    (s : Redis) : (Bool × Option String) × Redis :=
  RedisCodeCache.Verify cache now biz phone code s

/-- NewSMSService of sms.service.go lines 30-34: the service over NewRedisCodeCache, for
requests handled at instant `now` with the random draw `num`. -/
def NewSMSService (now : Nat) (num : Int) : SMSService Redis :=
  SMSService.mk (smsService.Send NewRedisCodeCache now num)
    (smsService.Verify NewRedisCodeCache now)

/-! ## internal/controllers/sms_controller.go -/

/-- SendCodeRequest of sms_controller.go lines 20-23. -/
structure SendCodeRequest where
  Biz : String
  Phone : String
deriving DecidableEq

/-- VerifyCodeRequest of sms_controller.go lines 32-36. -/
structure VerifyCodeRequest where
  Biz : String
  Phone : String
  Code : String
deriving DecidableEq

/-- The function isValidBizType of sms_controller.go lines 102-110: the lookup in a map
that holds `true` under the four business types and nothing else. -/
def isValidBizType (biz : String) : Bool :=
  if biz = BizLogin then true
  else if biz = BizRegister then true
  else if biz = BizChangePhone then true
  else if biz = BizResetPwd then true
  else false

/-- SendCode of sms_controller.go lines 44-67; `bind` is the result of
`ShouldBindBodyWithJSON`. -/
def SMSController.SendCode {σ : Type} (smsService : SMSService σ)
    (bind : Except String SendCodeRequest) (st : σ) : Response × σ :=
  match bind with
  | Except.error err => (FailWithMessage INVALID_PARAMS err ResponseData.null, st)
  | Except.ok req =>
    if !isValidBizType req.Biz then
      (FailWithMessage UNAUTHORIZED "非需要使用的业务" ResponseData.null, st)
    else
      match smsService.Send req.Biz req.Phone st with
      | (some err, st1) => (Fail ERROR (ResponseData.error ("验证码发送失败:" ++ err)), st1)
      | (none, st1) =>
        (Success (ResponseData.fields
          [("success", FieldValue.bool true), ("message", FieldValue.str "验证码发送成功")]), st1)

/-- VerifyCode of sms_controller.go lines 69-99. -/
def SMSController.VerifyCode {σ : Type} (smsService : SMSService σ)
    (bind : Except String VerifyCodeRequest) (st : σ) : Response × σ :=
  match bind with
  | Except.error err => (FailWithMessage INVALID_PARAMS err ResponseData.null, st)
  | Except.ok req =>
    if !isValidBizType req.Biz then
      (Fail INVALID_PARAMS (ResponseData.fields [("biz", FieldValue.str req.Biz)]), st)
    else
      match smsService.Verify req.Biz req.Phone req.Code st with
      | ((_, some err), st1) =>
        (FailWithMessage INVALID_PARAMS err
          (ResponseData.fields [("code", FieldValue.str "手机号不存在")]), st1)
      | ((false, none), st1) =>
        (Fail INVALID_PARAMS (ResponseData.fields
          [("Fail", FieldValue.bool true), ("Message", FieldValue.str "验证码错误")]), st1)
      | ((true, none), st1) =>
        (Success (ResponseData.fields
          [("success", FieldValue.bool true), ("Message", FieldValue.str "验证码验证成功")]), st1)

/-! ## internal/models/role.go: mutation of the permission list -/

/-- The range loop of AddPermission, role.go lines 81-85: true when an element equal to the
permission is met and the method returns early. -/
def Permissions.addLoopFinds : Permissions → String → Bool
  | [], _ => false
  | perm :: rest, permission =>
    if perm == permission then true else Permissions.addLoopFinds rest permission

/-- AddPermission of role.go lines 79-87. -/
def Permissions.AddPermission (p : Permissions) (permission : String) : Permissions :=
  if Permissions.addLoopFinds p permission then p else p ++ [permission]

/-- RemovePermission of role.go lines 90-97: at the first index `i` holding the permission
the list becomes `p[:i]` followed by `p[i+1:]` and the method returns. -/
def Permissions.RemovePermission : Permissions → String → Permissions
  | [], _ => []
  | perm :: rest, permission =>
    if perm == permission then rest
    else perm :: Permissions.RemovePermission rest permission

/-- The number a string of decimal digits denotes, read from the most significant digit. -/
def digitsValue (cs : List Char) : Nat :=
  cs.foldl (fun acc c => 10 * acc + (c.toNat - 48)) 0

/-! ## internal/models/user.go: password -/

/-- SetPassword of user.go lines 40-52. `hasher` stands for one call of
`bcrypt.GenerateFromPassword` with the default cost: the digest or the error it
returns. -/
def User.SetPassword (hasher : String → Except String String) (u : User)
    (password : String) : Option String × User :=
  if password = "" then (some "密码不能为空", u)
  else
    match hasher password with
    | Except.error err => (some err, u)
    | Except.ok hashedPassword =>
      (none, User.mk u.ID u.Username hashedPassword u.Email u.Phone u.Nickname u.RoleID
        u.Role u.Status)

/-- CheckPassword of user.go lines 55-58. `compare digest password` is true when
`bcrypt.CompareHashAndPassword` returns nil. -/
def User.CheckPassword (compare : String → String → Bool) (u : User) (password : String) :
    Bool :=
  compare u.Password password

/-! ## internal/repository: the full interface, and internal/services/auth_service.go -/

/-- The interface IUserRepository of user_repository.go lines 12-20 with the methods the
authentication service calls. `Create` returns the record as the call leaves it, with
the generated id filled in. -/
structure IUserRepositoryAll (σ : Type) where
  Create : User → σ → (User × Option String) × σ
  Update : User → σ → Option String × σ
  FindByID : Nat → σ → (Option User × Option String) × σ
  FindByUsername : String → σ → (Option User × Option String) × σ
  FindByEmail : String → σ → (Option User × Option String) × σ

/-- The error `gorm.ErrRecordNotFound`. -/
def ErrRecordNotFound : String := "record not found"

/-- The method Register of auth_service.go lines 35-68. The errors of the two lookups are
discarded at lines 37 and 43. -/
def AuthService.Register {σ : Type} (hasher : String → Except String String)
    (userRepo : IUserRepositoryAll σ) (username password email nickname : String) (db : σ) :
    (Option User × Option String) × σ :=
  let r1 := userRepo.FindByUsername username db
  match r1.1.1 with
  | some _ => ((none, some "用户名已存在"), r1.2)
  | none =>
    let r2 := userRepo.FindByEmail email r1.2
    match r2.1.1 with
    | some _ => ((none, some "邮箱已存在"), r2.2)
    | none =>
      let user := User.mk 0 username "" email "" nickname 2 none StatusActive
      match User.SetPassword hasher user password with
      | (some err, _) => ((none, some err), r2.2)
      | (none, user1) =>
        match userRepo.Create user1 r2.2 with
        | ((_, some err), db3) => ((none, some err), db3)
        | ((user2, none), db3) => ((some user2, none), db3)

/-- The values Login returns: access token, refresh token, user, error. -/
structure LoginResult where
  accessToken : TokenString
  refreshToken : TokenString
  user : Option User
  err : Option String

/-- The failure return of Login: two empty strings, nil and the error. -/
def LoginResult.failure (err : String) : LoginResult :=
  LoginResult.mk TokenString.malformed TokenString.malformed none (some err)

/-- The method Login of auth_service.go lines 71-110. `clockA` and `clockR` are the clock
readings of the two token generators. The last-login time set at line 92 is not a field
of the modelled user record. A repository reply `(nil, nil)` makes `user.IsActive()`
dereference a nil pointer. -/
def AuthService.Login {σ : Type} (mac : MAC) (cfg : JWTConfig)
    (compare : String → String → Bool) (userRepo : IUserRepositoryAll σ)
    (clockA clockR : Int × Int × Int) (username password : String) (db : σ) :
    GoCall LoginResult × σ :=
  match userRepo.FindByUsername username db with
  | ((_, some err), db1) =>
    if err = ErrRecordNotFound then (GoCall.returned (LoginResult.failure "用户不存在"), db1)
    else (GoCall.returned (LoginResult.failure err), db1)
  | ((none, none), db1) => (GoCall.panicked, db1)
  | ((some user, none), db1) =>
    if !user.IsActive then (GoCall.returned (LoginResult.failure "用户已被禁用"), db1)
    else if !User.CheckPassword compare user password then
      (GoCall.returned (LoginResult.failure "密码错误"), db1)
    else
      match userRepo.Update user db1 with
      | (some err, db2) => (GoCall.returned (LoginResult.failure err), db2)
      | (none, db2) =>
        match GenerateAccessToken mac cfg user.ID clockA.1 clockA.2.1 clockA.2.2 with
        | (_, some err) => (GoCall.returned (LoginResult.failure err), db2)
        | (accessToken, none) =>
          match GenerateRefreshToken mac cfg user.ID clockR.1 clockR.2.1 clockR.2.2 with
          | (_, some err) => (GoCall.returned (LoginResult.failure err), db2)
          | (refreshToken, none) =>
            (GoCall.returned (LoginResult.mk accessToken refreshToken (some user) none), db2)

/-! ## internal/controllers/auth_controller.go -/

/-- LoginRequest of auth_controller.go lines 32-35. -/
structure LoginRequest where
  Username : String
  Password : String
deriving DecidableEq

/-- The answer of the login handler: a failure written by FailWithMessage, or the success
answer with the two tokens and the fields of the user and its role. -/
inductive LoginAnswer where
  | failure (response : Response)
  | success (accessToken refreshToken : TokenString) (id : Nat)
      (username nickname email : String) (roleID : Nat) (roleName roleCode : String)

/-- The handler Login of auth_controller.go lines 69-97 over the Login method of the
service; `bind` is the result of `ShouldBindJSON`. The success answer reads
`user.Role.ID`, which panics when the role is nil. -/
def AuthController.Login {σ : Type}
    (login : String → String → σ → GoCall LoginResult × σ)
    (bind : Except String LoginRequest) (st : σ) : GoCall LoginAnswer × σ :=
  match bind with
  | Except.error err =>
    (GoCall.returned (LoginAnswer.failure
      (FailWithMessage INVALID_PARAMS err ResponseData.null)), st)
  | Except.ok req =>
    match login req.Username req.Password st with
    | (GoCall.panicked, st1) => (GoCall.panicked, st1)
    | (GoCall.returned res, st1) =>
      match res.err with
      | some err =>
        (GoCall.returned (LoginAnswer.failure
          (FailWithMessage ERROR err ResponseData.null)), st1)
      | none =>
        match res.user with
        | none => (GoCall.panicked, st1)
        | some user =>
          match user.Role with
          | none => (GoCall.panicked, st1)
          | some role =>
            (GoCall.returned (LoginAnswer.success res.accessToken res.refreshToken user.ID
              user.Username user.Nickname user.Email role.ID role.Name role.Code), st1)

/-! ## pkg/database/migration.go and the relational store -/

/-- The two tables of the relational store. -/
structure Database where
  roles : List Role
  users : List User
deriving DecidableEq

/-- The four roles built at migration.go lines 59-97, before the store gives them ids. -/
def defaultRoles : List Role :=
  [Role.mk 0 "超级管理员" "superuser" "系统最高管理员，拥有所有权限" ["*"],
   Role.mk 0 "管理员" "admin" "系统管理员，拥有所有权限" ["*"],
   Role.mk 0 "普通用户" "user" "普通用户，拥有基本权限"
     ["user:view", "user:edit", "content:view", "content:create", "content:edit"],
   Role.mk 0 "访客" "guest" "访客，仅拥有查看权限" ["user:view", "content:view"]]

/-- The batch insert `DB.Create(&roles)` into a role table: the rows receive consecutive
auto-increment ids in the order of the slice, starting after the rows already there. -/
def createRoles (existing : List Role) : List Role → List Role
  | [] => existing
  | r :: rest =>
    createRoles (existing ++ [Role.mk (existing.length + 1) r.Name r.Code r.Description
      r.Permissions]) rest

/-- The seeding routine initRoles of migration.go lines 44-110: when the role table is
empty the four default roles are created in the order superuser, admin, user, guest. -/
def initRoles (d : Database) : Option String × Database :=
  if d.roles.length = 0 then (none, Database.mk (createRoles d.roles defaultRoles) d.users)
  else (none, d)

/-- The association loading `Preload("Role")`: the role whose id is the user's RoleID, nil
when there is none. -/
def Database.preload (d : Database) (u : User) : User :=
  User.mk u.ID u.Username u.Password u.Email u.Phone u.Nickname u.RoleID
    (d.roles.find? (fun r => r.ID = u.RoleID)) u.Status

/-- The lookup `First` with a condition on the user table, with the role preloaded. -/
def Database.first (d : Database) (cond : User → Bool) : Option User × Option String :=
  match d.users.find? cond with
  | some u => (some (d.preload u), none)
  | none => (none, some ErrRecordNotFound)

/-- UserRepository of user_repository.go lines 34-77 on the two tables: `Create` gives
the new row the next auto-increment id and is refused by the unique indexes on username
and email, `Update` saves the row with the same id. -/
def UserRepository : IUserRepositoryAll Database :=
  IUserRepositoryAll.mk
    (fun user d =>
      if d.users.any (fun u => u.Username = user.Username || u.Email = user.Email) then
        ((user, some "Error 1062: Duplicate entry"), d)
      else
        let saved := User.mk (d.users.length + 1) user.Username user.Password user.Email
          user.Phone user.Nickname user.RoleID user.Role user.Status
        ((saved, none), Database.mk d.roles (d.users ++ [saved])))
    (fun user d =>
      (none, Database.mk d.roles (d.users.map (fun u => if u.ID = user.ID then user else u))))
    (fun id d => (d.first (fun u => u.ID = id), d))
    (fun username d => (d.first (fun u => u.Username = username), d))
    (fun email d => (d.first (fun u => u.Email = email), d))

/-- The repository as seen through FindByID alone, for the middleware. -/
def IUserRepositoryAll.byID {σ : Type} (repo : IUserRepositoryAll σ) : IUserRepository σ :=
  IUserRepository.mk repo.FindByID

/-- A repository whose calls may fail: the state carries a script of faults, one entry per
call; an entry `some err` makes that call fail with `err` without touching the tables. -/
def faultyRepository : IUserRepositoryAll (List (Option String) × Database) :=
  IUserRepositoryAll.mk
    (fun user st =>
      match st.1 with
      | some err :: rest => ((user, some err), (rest, st.2))
      | _ => let r := UserRepository.Create user st.2
             (r.1, (st.1.tail, r.2)))
    (fun user st =>
      match st.1 with
      | some err :: rest => (some err, (rest, st.2))
      | _ => let r := UserRepository.Update user st.2
             (r.1, (st.1.tail, r.2)))
    (fun id st =>
      match st.1 with
      | some err :: rest => ((none, some err), (rest, st.2))
      | _ => let r := UserRepository.FindByID id st.2
             (r.1, (st.1.tail, r.2)))
    (fun username st =>
      match st.1 with
      | some err :: rest => ((none, some err), (rest, st.2))
      | _ => let r := UserRepository.FindByUsername username st.2
             (r.1, (st.1.tail, r.2)))
    (fun email st =>
      match st.1 with
      | some err :: rest => ((none, some err), (rest, st.2))
      | _ => let r := UserRepository.FindByEmail email st.2
             (r.1, (st.1.tail, r.2)))

/-! ## pkg/cache/sms_code.go: Verify with failing commands -/

/-- The errors with which the four Redis round trips of one Verify call fail, `none` for
a round trip that succeeds: the counter read, the increment, the code read and the
delete pipeline. -/
structure RedisFaults where
  getAttempts : Option String
  incr : Option String
  getCode : Option String
  exec : Option String

/-- No round trip fails. -/
def RedisFaults.noFault : RedisFaults := RedisFaults.mk none none none none

/-- The method Verify of sms_code.go lines 44-79 when round trips may fail. A failed
command leaves the keyspace as it is. The result of the increment at line 58 is not
looked at; a failed pipeline returns `true` with the error (line 78). -/
def RedisCodeCache.VerifyIO (r : RedisCodeCache) (faults : RedisFaults) (now : Nat)
    (biz phone code : String) (s : Redis) : (Bool × Option String) × Redis :=
  let key := generateSMSKey biz phone
  let attemptsKey := generateAttemptsKey biz phone
  match faults.getAttempts with
  | some err => ((false, some err), s)
  | Option.none =>
    match Redis.GetInt s now attemptsKey with
    | Except.error (some err) => ((false, some err), s)
    | got =>
      let attempts : Int :=
        match got with
        | Except.ok n => n
        | Except.error _ => 0
      if attempts > r.maxAttempts then ((false, some errTooManyAttempts), s)
      else
        let s1 :=
          match faults.incr with
          | some _ => s
          | Option.none => Redis.Incr s now attemptsKey
        match faults.getCode with
        | some err => ((false, some err), s1)
        | Option.none =>
          match Redis.Get s1 now key with
          | Option.none => ((false, some errCodeExpired), s1)
          | some storeCode =>
            if storeCode != code then ((false, some errCodeMismatch), s1)
            else
              match faults.exec with
              | some err => ((true, some err), s1)
              | Option.none => ((true, Option.none), Redis.Del (Redis.Del s1 key) attemptsKey)

/-! ## pkg/middleware/rate_limit.go

Instants and durations are integers in one unit; every call reads the clock once. -/

/-- RateLimiter of rate_limit.go lines 13-18 without the mutex: the map from client IP to
the recorded request instants, the limit and the window. -/
structure RateLimiter where
  ips : String → Option (List Int)
  limit : Int
  window : Int

/-- NewRateLimiter of rate_limit.go lines 21-27. -/
def NewRateLimiter (limit window : Int) : RateLimiter :=
  RateLimiter.mk (fun _ => none) limit window

/-- The inner loop of lines 37-41 and 60-64: the recorded instants that are at most one
window old at `now`. -/
def RateLimiter.validRequests (rl : RateLimiter) (now : Int) (requests : List Int) :
    List Int :=
  requests.filter (fun requestTime => decide (now - requestTime ≤ rl.window))

/-- The method cleanupOldRequests of rate_limit.go lines 30-49, run at `now`. -/
def RateLimiter.cleanupOldRequests (rl : RateLimiter) (now : Int) : RateLimiter :=
  RateLimiter.mk
    (fun ip =>
      match rl.ips ip with
      | none => none
      | some requests =>
        if (rl.validRequests now requests).length > 0 then
          some (rl.validRequests now requests)
        else none)
    rl.limit rl.window

/-- The method isAllowed of rate_limit.go lines 52-75, run at `now`: a missing map entry
reads as the nil slice. -/
def RateLimiter.isAllowed (rl : RateLimiter) (now : Int) (ip : String) : Bool × RateLimiter :=
  let validRequests := rl.validRequests now ((rl.ips ip).getD [])
  if (validRequests.length : Int) ≥ rl.limit then
    (false, RateLimiter.mk (fun k => if k = ip then some validRequests else rl.ips k)
      rl.limit rl.window)
  else
    (true, RateLimiter.mk
      (fun k => if k = ip then some (validRequests ++ [now]) else rl.ips k)
      rl.limit rl.window)

/-- One call on a limiter, with the instant it reads from the clock. -/
inductive LimiterCall where
  | isAllowed (now : Int) (ip : String)
  | cleanupOldRequests (now : Int)

/-- The instant of a call. -/
def LimiterCall.time : LimiterCall → Int
  | LimiterCall.isAllowed now _ => now
  | LimiterCall.cleanupOldRequests now => now

/-- A limiter together with, for every client IP, the instants of the isAllowed calls that
returned true so far, in order. -/
structure LimiterTrace where
  limiter : RateLimiter
  allowed : String → List Int

/-- The effect of one call on the limiter and on the record of allowed calls. -/
def LimiterTrace.step (t : LimiterTrace) : LimiterCall → LimiterTrace
  | LimiterCall.isAllowed now ip =>
    LimiterTrace.mk (t.limiter.isAllowed now ip).2
      (if (t.limiter.isAllowed now ip).1 then
        (fun k => if k = ip then t.allowed k ++ [now] else t.allowed k)
      else t.allowed)
  | LimiterCall.cleanupOldRequests now =>
    LimiterTrace.mk (t.limiter.cleanupOldRequests now) t.allowed

/-- A new limiter after a sequence of calls. -/
def runLimiter (limit window : Int) (calls : List LimiterCall) : LimiterTrace :=
  calls.foldl LimiterTrace.step (LimiterTrace.mk (NewRateLimiter limit window) (fun _ => []))

/-- The list recorded for an IP, the nil slice when the map has no entry. -/
def RateLimiter.recorded (rl : RateLimiter) (ip : String) : List Int :=
  (rl.ips ip).getD []

/-- The number of allowed calls of an IP whose instants lie in the closed interval from
`a` to `a + window`. -/
def allowedWithin (t : LimiterTrace) (ip : String) (a window : Int) : Nat :=
  ((t.allowed ip).filter (fun τ => decide (a ≤ τ ∧ τ ≤ a + window))).length

/-- The invariant of a limiter trace whose last call was made at `T`: for every IP the
recorded list is the list of allowed instants without some that are older than one
window at `T`, no allowed instant is after `T`, every closed interval of one window
holds at most `limit` allowed instants, and at most `limit` instants are recorded. -/
def LimiterInv (limit window T : Int) (t : LimiterTrace) : Prop :=
  t.limiter.limit = limit ∧ t.limiter.window = window ∧
  ∀ ip,
    (∃ p : Int → Bool, t.limiter.recorded ip = (t.allowed ip).filter p ∧
      ∀ τ, p τ = false → τ + window < T) ∧
    (∀ τ ∈ t.allowed ip, τ ≤ T) ∧
    (∀ a, (allowedWithin t ip a window : Int) ≤ limit) ∧
    ((t.limiter.recorded ip).length : Int) ≤ limit

/-! ## pkg/utils/jwt.go: the signature segment of a token string

The third segment of a token string is the signature in unpadded URL-safe base64. The
JWT package decodes it with `base64.RawURLEncoding` of the Go standard library and does
not ask for strict decoding; neither package is part of the repository, and the part of
them that `parseToken` drives is modelled below. The header and claims segments stay
decoded as in `TokenString`. -/

/-- The 6-bit value of a character of the URL-safe base64 alphabet, `none` for every other
character. -/
def base64URLValue (c : Char) : Option Nat :=
  if 65 ≤ c.toNat ∧ c.toNat ≤ 90 then some (c.toNat - 65)
  else if 97 ≤ c.toNat ∧ c.toNat ≤ 122 then some (c.toNat - 71)
  else if 48 ≤ c.toNat ∧ c.toNat ≤ 57 then some (c.toNat + 4)
  else if c = '-' then some 62
  else if c = '_' then some 63
  else none

/-- The character of a 6-bit value in the URL-safe base64 alphabet. -/
def base64URLChar (v : Nat) : Char :=
  if v < 26 then Char.ofNat (v + 65)
  else if v < 52 then Char.ofNat (v + 71)
  else if v < 62 then Char.ofNat (v - 4)
  else if v = 62 then '-'
  else '_'

/-- Encoding of bytes into 6-bit values: three bytes give four values; a last group of
two bytes gives three values and a last group of one byte two values, the unused low
bits being zero. -/
def encodeQuanta : List Nat → List Nat
  | a :: b :: c :: rest =>
    (a / 4) :: (a % 4 * 16 + b / 16) :: (b % 16 * 4 + c / 64) :: (c % 64) :: encodeQuanta rest
  | [a, b] => [a / 4, a % 4 * 16 + b / 16, b % 16 * 4]
  | [a] => [a / 4, a % 4 * 16]
  | [] => []

/-- Decoding of 6-bit values into bytes: four values give three bytes; a last group of
three values gives two bytes and a last group of two values one byte, the unused low
bits of the last value being ignored; a last group of one value is an error. -/
def decodeQuanta : List Nat → Option (List Nat)
  | a :: b :: c :: d :: rest =>
    (decodeQuanta rest).map
      (fun bytes => (a * 4 + b / 16) :: (b % 16 * 16 + c / 4) :: (c % 4 * 64 + d) :: bytes)
  | [a, b, c] => some [a * 4 + b / 16, b % 16 * 16 + c / 4]
  | [a, b] => some [a * 4 + b / 16]
  | [_] => none
  | [] => some []

/-- The 6-bit values of the characters of a segment as the decoder reads them: line feed
and carriage return are skipped, a character outside the alphabet is an error. -/
def segmentValues : List Char → Option (List Nat)
  | [] => some []
  | c :: rest =>
    if c = '\n' ∨ c = '\r' then segmentValues rest
    else
      match base64URLValue c with
      | none => none
      | some v => (segmentValues rest).map (fun vs => v :: vs)

/-- The call `Parser.DecodeSegment` of the JWT package for a parser without options:
`base64.RawURLEncoding.DecodeString`. -/
def DecodeSegment (seg : String) : Option (List Nat) :=
  (segmentValues seg.data).bind decodeQuanta

/-- The call `Token.EncodeSegment` of the JWT package:
`base64.RawURLEncoding.EncodeToString`. -/
def EncodeSegment (bytes : List Nat) : String :=
  String.mk ((encodeQuanta bytes).map base64URLChar)

/-- A presented token string with three segments whose header and claims segments are
decoded and whose signature segment is still text. -/
structure SegmentedToken where
  alg : String
  claims : JWTClaims
  signatureSegment : String
deriving DecidableEq

/-- The token string `SignedString` returns at jwt.go lines 36-39, with its signature
segment as text. -/
def signedStringHS256 (mac : MAC) (secret : String) (claims : JWTClaims) : SegmentedToken :=
  SegmentedToken.mk "HS256" claims (EncodeSegment (mac "HS256" secret ("HS256", claims)))

/-- The library call `jwt.ParseWithClaims` on a token string with its signature segment
as text: after the method lookup the signature segment is decoded, and an undecodable
segment makes the token malformed; the rest is `ParseWithClaims` on the decoded token.
Earlier releases of the package run the key function before the decoding; the two
orders differ only in which error a token with both faults gets. -/
def ParseWithClaimsSegments (mac : MAC) (cfg : JWTConfig) (now : Int) (t : SegmentedToken) :
    Except ParseError Token :=
  match GetSigningMethod t.alg with
  | none => Except.error (ParseError.unverifiable "signing method is unavailable")
  | some _ =>
    match DecodeSegment t.signatureSegment with
    | none => Except.error ParseError.malformed
    | some signature =>
      ParseWithClaims mac cfg now (TokenString.wellFormed t.alg t.claims signature)

/-- The function parseToken of jwt.go lines 85-107 on a token string with its signature
segment as text. -/
def parseTokenSegments (mac : MAC) (cfg : JWTConfig) (now : Int) (t : SegmentedToken) :
    Except ParseError JWTClaims :=
  match ParseWithClaimsSegments mac cfg now t with
  | Except.error err => Except.error err
  | Except.ok token =>
    if token.Valid then Except.ok token.Claims else Except.error ParseError.invalidToken

/-- Whether the decoder reads the character `c` like the last character `c0` of a segment
that encodes `n` bytes: both are characters of the alphabet and their values agree
outside the unused low bits of the last character, two bits when `n % 3 = 2` and four
bits when `n % 3 = 1`. -/
def agreeOutsideTrailingBits (n : Nat) (c c0 : Char) : Bool :=
  match base64URLValue c, base64URLValue c0 with
  | some w, some w0 => (n % 3 == 2 && w / 4 == w0 / 4) || (n % 3 == 1 && w / 16 == w0 / 16)
  | _, _ => false

/-! ## Concrete inputs used in the examples -/

/-- A repository over a fixed table of users whose state counts the FindByID calls made;
a missing row gives the error of gorm's `First`. -/
def tableRepo (table : Nat → Option User) : IUserRepository Nat :=
  IUserRepository.mk (fun id calls =>
    match table id with
    | some u => ((some u, none), calls + 1)
    | none => ((none, some "record not found"), calls + 1))

/-- A repository that replays a list of replies, one per FindByID call, for runs in which
the database changes or fails between two reads. -/
def scriptedRepo : IUserRepository (List (Option User × Option String)) :=
  IUserRepository.mk (fun _ replies =>
    match replies with
    | [] => ((none, some "sql: database is closed"), [])
    | r :: rest => (r, rest))

/-- A user record with the given id, role code and permission list. -/
def userWithRole (id : Nat) (code : String) (perms : Permissions) : User :=
  User.mk id "alice" "" "alice@example.com" "" "" 3 (some (Role.mk 3 code code "" perms)) 1

/-- A user record whose role association is nil. -/
def userWithoutRole (id : Nat) : User :=
  User.mk id "bob" "" "bob@example.com" "" "" 0 none 1

/-- A table holding user 1 with role code `user` and the single permission `a`. -/
def tableA : Nat → Option User := fun id =>
  if id = 1 then some (userWithRole 1 "user" ["a"]) else none

/-- A table holding user 2 without a role (its RoleID refers to no role row). -/
def tableNoRole : Nat → Option User := fun id =>
  if id = 2 then some (userWithoutRole 2) else none

/-- A table holding user 1 with role code `admin` and the wildcard permission. -/
def tableAdmin : Nat → Option User := fun id =>
  if id = 1 then some (userWithRole 1 "admin" ["*"]) else none

/-- Two successive database replies: the user is read, then the connection fails. -/
def repliesReadThenFail : List (Option User × Option String) :=
  [(some (userWithRole 1 "admin" ["*"]), none), (none, some "driver: bad connection")]

/-- A stand-in keyed hash for closed examples; no statement below depends on its values. -/
def exampleMAC : MAC := fun alg key input =>
  (alg ++ key ++ input.2.Registered.Issuer).toList.map Char.toNat ++ [input.2.UserID]

/-- An example configuration: 30 minutes of access lifetime, 7 days of refresh lifetime. -/
def exampleJWTConfig : JWTConfig := JWTConfig.mk "secret" 30 10080 "star-go" 32

/-- An example instant: 1700000000 seconds after the epoch. -/
def exampleInstant : Int := 1700000000000000000

/-- A configuration whose refresh lifetime equals its access lifetime. -/
def equalLifetimesConfig : JWTConfig := JWTConfig.mk "secret" 30 30 "star-go" 32

/-- A stand-in segment decoding for closed examples: the text `good` is the token issued
for user 7 at the example instant, every other text is malformed. -/
def exampleDecode (s : String) : TokenString :=
  if s = "good" then
    (GenerateAccessToken exampleMAC exampleJWTConfig 7 exampleInstant exampleInstant
      exampleInstant).1
  else TokenString.malformed

/-- A stand-in for the error texts of the JWT package in closed examples. -/
def exampleErrorText : ParseError → String
  | ParseError.malformed => "token is malformed"
  | ParseError.unverifiable reason => "token is unverifiable: " ++ reason
  | ParseError.signatureInvalid => "token signature is invalid"
  | ParseError.invalidClaims _ _ => "token has invalid claims"
  | ParseError.invalidToken => "无效的令牌"

/-- A keyspace in which the key of biz `login` and phone `13800000000` holds the code
`123456` and a counter of 4, both written at instant 0 with ten seconds to live. -/
def lockedStore : Redis :=
  Redis.Set
    (Redis.Set Redis.empty 0 (generateSMSKey "login" "13800000000")
      (RedisValue.str "123456") 10000)
    0 (generateAttemptsKey "login" "13800000000") (RedisValue.int 4) 10000

/-- A service that only counts the calls made to it, Send and Verify alike. -/
def countingSMSService : SMSService Nat :=
  SMSService.mk (fun _ _ calls => (none, calls + 1)) (fun _ _ _ calls => ((true, none), calls + 1))

/-- A stand-in password hasher for closed examples. -/
def exampleHasher (password : String) : Except String String :=
  if password.length > 72 then Except.error "bcrypt: password length exceeds 72 bytes"
  else Except.ok ("$2a$10$" ++ password)

/-- The comparison that goes with the stand-in hasher. -/
def exampleCompare (digest password : String) : Bool :=
  digest = "$2a$10$" ++ password

/-- The store after seeding the roles into empty tables. -/
def seededDatabase : Database := (initRoles (Database.mk [] [])).2

/-- The seeded store with one user `alice`, password `secret1`, role id 3. -/
def databaseWithAlice : Database :=
  Database.mk seededDatabase.roles
    [User.mk 1 "alice" "$2a$10$secret1" "alice@example.com" "" "Alice" 3 none 1]

/-- Two requests from different clients, 100 time units apart. -/
def twoClientCalls : List LimiterCall :=
  [LimiterCall.isAllowed 0 "10.0.0.1", LimiterCall.isAllowed 100 "10.0.0.2"]

/-- Three requests of one client at the instants 0, 1 and 2. -/
def threeQuickCalls : List LimiterCall :=
  [LimiterCall.isAllowed 0 "10.0.0.1", LimiterCall.isAllowed 1 "10.0.0.1",
   LimiterCall.isAllowed 2 "10.0.0.1"]

/-- A stand-in keyed hash with 32 bytes of output, the size of HMAC-SHA256, for closed
examples. -/
def exampleMAC32 : MAC := fun alg key input =>
  ((exampleMAC alg key input).map (fun b => b % 256) ++ List.replicate 32 0).take 32

/-- The claims of the token issued for user 7 at the example instant. -/
def exampleClaims : JWTClaims :=
  buildClaims exampleJWTConfig exampleJWTConfig.AccessTokenExp 7 exampleInstant
    exampleInstant exampleInstant

/-! # Theorems -/

/-! ## Theorems: permission model -/

/-- HasPermission is membership of the permission or of the wildcard. -/
theorem Permissions.hasPermission_eq_true_iff (s : Permissions) (perm : String) :
    Permissions.HasPermission s perm = true ↔ (perm ∈ s ∨ "*" ∈ s) := by
  induction s with
  | nil => simp [Permissions.HasPermission]
  | cons x xs ih =>
    simp only [Permissions.HasPermission, List.mem_cons]
    by_cases h1 : x = perm
    · simp [h1]
    · by_cases h2 : x = "*"
      · simp [h2]
      · have h1b : ¬ perm = x := fun h => h1 h.symm
        have h2b : ¬ "*" = x := fun h => h2 h.symm
        simp [h1, h2, h1b, h2b, ih]

/-- C2: HasPermission holds exactly when the permission occurs verbatim in the list or
the wildcard occurs in it; the wildcard list grants every string and the empty list
grants nothing. -/
theorem hasPermission_iff_mem_or_wildcard :
    (∀ (s : Permissions) (perm : String),
      Permissions.HasPermission s perm = true ↔ (perm ∈ s ∨ "*" ∈ s)) ∧
    (∀ perm : String, Permissions.HasPermission ["*"] perm = true) ∧
    (∀ perm : String, Permissions.HasPermission [] perm = false) := by
  refine ⟨Permissions.hasPermission_eq_true_iff, ?_, ?_⟩
  · intro perm
    simp [Permissions.HasPermission]
  · intro perm
    simp [Permissions.HasPermission]

/-! ## Theorems: authorization middleware -/

/-- While every lookup of a prefix returns `(true, nil)`, the loop of AllPermissionsAuth
passes over the prefix and continues from the state the lookups left. -/
theorem allPermissionsLoop_append {σ : Type} (userRepo : IUserRepository σ) (uid : Nat)
    (pre rest : List String) (db : σ)
    (hpre : ∀ r ∈ (scanLookups userRepo uid pre db).1, r = (true, none)) :
    allPermissionsLoop userRepo uid (pre ++ rest) db =
      allPermissionsLoop userRepo uid rest (scanLookups userRepo uid pre db).2 := by
  induction pre generalizing db with
  | nil => simp [scanLookups]
  | cons p ps ih =>
    simp only [scanLookups, List.mem_cons, forall_eq_or_imp] at hpre
    obtain ⟨hp, hps⟩ := hpre
    rcases h : UserService.HasPermission userRepo uid p db with ⟨⟨b, e⟩, db1⟩
    rw [h] at hp hps
    simp only [Prod.mk.injEq] at hp
    obtain ⟨hb, he⟩ := hp
    subst hb he
    simp only [List.cons_append, allPermissionsLoop, scanLookups, h]
    exact ih db1 hps

/-- The loop of AllPermissionsAuth reaches `c.Next()` exactly when every lookup of the
scan returns `(true, nil)`. -/
theorem allPermissionsLoop_next_iff {σ : Type} (userRepo : IUserRepository σ) (uid : Nat)
    (perms : List String) (db : σ) :
    (allPermissionsLoop userRepo uid perms db).1 = Outcome.next ↔
      ∀ r ∈ (scanLookups userRepo uid perms db).1, r = (true, none) := by
  induction perms generalizing db with
  | nil => simp [allPermissionsLoop, scanLookups]
  | cons p ps ih =>
    rcases h : UserService.HasPermission userRepo uid p db with ⟨⟨b, e⟩, db1⟩
    cases e with
    | some err => simp [allPermissionsLoop, scanLookups, h]
    | none =>
      cases b with
      | false => simp [allPermissionsLoop, scanLookups, h]
      | true => simp [allPermissionsLoop, scanLookups, h, ih db1]

/-- C3: AllPermissionsAuth lets the request through exactly when every lookup of the scan
returns `(true, nil)`; the first lookup that returns an error ends the scan with a 500
and the first that returns false ends it with a 403, in both cases in the database state
that lookup left, so later permissions are not consulted. -/
theorem allPermissionsAuth_scan {σ : Type} (userRepo : IUserRepository σ) (uid : Nat)
    (perms : List String) (db : σ) :
    ((AllPermissionsAuth userRepo perms (some uid) db).1 = Outcome.next ↔
      ∀ r ∈ (scanLookups userRepo uid perms db).1, r = (true, none)) ∧
    (∀ (pre post : List String) (p : String), perms = pre ++ p :: post →
      (∀ r ∈ (scanLookups userRepo uid pre db).1, r = (true, none)) →
      ∀ (b : Bool) (e : Option String) (db1 : σ),
        UserService.HasPermission userRepo uid p (scanLookups userRepo uid pre db).2
          = ((b, e), db1) →
        (∀ err, e = some err →
          AllPermissionsAuth userRepo perms (some uid) db
            = (Outcome.abort 500 500 ("检查权限失败: " ++ err), db1)) ∧
        (e = none → b = false →
          AllPermissionsAuth userRepo perms (some uid) db
            = (Outcome.abort 403 403 ("权限不足，需要权限: " ++ p), db1))) := by
  refine ⟨?_, ?_⟩
  · simpa [AllPermissionsAuth] using allPermissionsLoop_next_iff userRepo uid perms db
  · intro pre post p hperms hpre b e db1 hlook
    subst hperms
    have happ := allPermissionsLoop_append userRepo uid pre (p :: post) db hpre
    refine ⟨?_, ?_⟩
    · intro err he
      subst he
      simp [AllPermissionsAuth, happ, allPermissionsLoop, hlook]
    · intro he hb
      subst he hb
      simp [AllPermissionsAuth, happ, allPermissionsLoop, hlook]

/-- Witness for C3: user 1 holds `a` but not `b`; AllPermissionsAuth("a","b") denies with
403 after two lookups, and with a third permission listed still only two lookups are
made. -/
theorem allPermissionsAuth_scan_witness :
    AllPermissionsAuth (tableRepo tableA) ["a", "b"] (some 1) 0
      = (Outcome.abort 403 403 ("权限不足，需要权限: " ++ "b"), 2) ∧
    AllPermissionsAuth (tableRepo tableA) ["a", "b", "c"] (some 1) 0
      = (Outcome.abort 403 403 ("权限不足，需要权限: " ++ "b"), 2) :=
  ⟨((allPermissionsAuth_scan (tableRepo tableA) 1 ["a", "b"] 0).2 ["a"] [] "b" rfl
      (by decide) false none 2 (by decide)).2 rfl rfl,
   ((allPermissionsAuth_scan (tableRepo tableA) 1 ["a", "b", "c"] 0).2 ["a"] ["c"] "b" rfl
      (by decide) false none 2 (by decide)).2 rfl rfl⟩

/-- While no lookup of a prefix returns `(true, nil)`, the loop of AnyPermissionAuth
passes over the prefix, errors included, and continues from the state the lookups left. -/
theorem anyPermissionLoop_append {σ : Type} (userRepo : IUserRepository σ) (uid : Nat)
    (pre rest : List String) (db : σ)
    (hpre : ∀ r ∈ (scanLookups userRepo uid pre db).1, r ≠ (true, none)) :
    anyPermissionLoop userRepo uid (pre ++ rest) db =
      anyPermissionLoop userRepo uid rest (scanLookups userRepo uid pre db).2 := by
  induction pre generalizing db with
  | nil => simp [scanLookups]
  | cons p ps ih =>
    simp only [scanLookups, List.mem_cons, forall_eq_or_imp] at hpre
    obtain ⟨hp, hps⟩ := hpre
    rcases h : UserService.HasPermission userRepo uid p db with ⟨⟨b, e⟩, db1⟩
    rw [h] at hp hps
    cases e with
    | some err =>
      simp only [List.cons_append, anyPermissionLoop, scanLookups, h]
      exact ih db1 hps
    | none =>
      cases b with
      | true => exact absurd rfl hp
      | false =>
        simp only [List.cons_append, anyPermissionLoop, scanLookups, h]
        exact ih db1 hps

/-- The loop of AnyPermissionAuth ends with `c.Next()` exactly when some lookup of the
scan returns `(true, nil)`. -/
theorem anyPermissionLoop_true_iff {σ : Type} (userRepo : IUserRepository σ) (uid : Nat)
    (perms : List String) (db : σ) :
    (anyPermissionLoop userRepo uid perms db).1 = true ↔
      ∃ r ∈ (scanLookups userRepo uid perms db).1, r = (true, none) := by
  induction perms generalizing db with
  | nil => simp [anyPermissionLoop, scanLookups]
  | cons p ps ih =>
    rcases h : UserService.HasPermission userRepo uid p db with ⟨⟨b, e⟩, db1⟩
    cases e with
    | some err => simp [anyPermissionLoop, scanLookups, h, ih db1]
    | none =>
      cases b with
      | false => simp [anyPermissionLoop, scanLookups, h, ih db1]
      | true => simp [anyPermissionLoop, scanLookups, h]

/-- C4: AnyPermissionAuth lets the request through exactly when some lookup of the scan
returns `(true, nil)`; lookups before it that return an error or false are passed over
alike; when no lookup qualifies, the empty list included, the request is denied with
403 and never with 500. -/
theorem anyPermissionAuth_scan {σ : Type} (userRepo : IUserRepository σ) (uid : Nat)
    (perms : List String) (db : σ) :
    ((AnyPermissionAuth userRepo perms (some uid) db).1 = Outcome.next ↔
      ∃ r ∈ (scanLookups userRepo uid perms db).1, r = (true, none)) ∧
    (∀ (pre post : List String) (p : String) (db1 : σ), perms = pre ++ p :: post →
      (∀ r ∈ (scanLookups userRepo uid pre db).1, r ≠ (true, none)) →
      UserService.HasPermission userRepo uid p (scanLookups userRepo uid pre db).2
        = ((true, none), db1) →
      AnyPermissionAuth userRepo perms (some uid) db = (Outcome.next, db1)) ∧
    ((∀ r ∈ (scanLookups userRepo uid perms db).1, r ≠ (true, none)) →
      AnyPermissionAuth userRepo perms (some uid) db
        = (Outcome.abort 403 403 ("权限不足，需要以下权限之一: " ++ ", ".intercalate perms),
            (scanLookups userRepo uid perms db).2)) ∧
    AnyPermissionAuth userRepo [] (some uid) db
      = (Outcome.abort 403 403 ("权限不足，需要以下权限之一: " ++ ", ".intercalate []), db) := by
  refine ⟨?_, ?_, ?_, ?_⟩
  · rw [← anyPermissionLoop_true_iff]
    simp only [AnyPermissionAuth]
    rcases h : anyPermissionLoop userRepo uid perms db with ⟨b, db1⟩
    cases b <;> simp
  · intro pre post p db1 hperms hpre hlook
    subst hperms
    have happ := anyPermissionLoop_append userRepo uid pre (p :: post) db hpre
    simp [AnyPermissionAuth, happ, anyPermissionLoop, hlook]
  · intro hall
    have happ := anyPermissionLoop_append userRepo uid perms [] db hall
    simp only [List.append_nil] at happ
    simp [AnyPermissionAuth, happ, anyPermissionLoop]
  · simp [AnyPermissionAuth, anyPermissionLoop]

/-- Witness for C4: user 1 holds `a` but not `b`; AnyPermissionAuth("a","b") and
AnyPermissionAuth("b","a") both let the request through. -/
theorem anyPermissionAuth_scan_witness :
    AnyPermissionAuth (tableRepo tableA) ["a", "b"] (some 1) 0 = (Outcome.next, 1) ∧
    AnyPermissionAuth (tableRepo tableA) ["b", "a"] (some 1) 0 = (Outcome.next, 2) :=
  ⟨(anyPermissionAuth_scan (tableRepo tableA) 1 ["a", "b"] 0).2.1 [] ["b"] "a" 1 rfl
      (by decide) (by decide),
   (anyPermissionAuth_scan (tableRepo tableA) 1 ["b", "a"] 0).2.1 ["b"] [] "a" 2 rfl
      (by decide) (by decide)⟩

/-- Counterexample for C5: user 1 has the role code `admin`; the read of the user succeeds
and the read made by the permission lookup fails. RoleOrPermissionAuth("admin", perm)
then denies with 500 although the role code equals the required one. -/
theorem roleOrPermissionAuth_lookup_error_denies :
    (UserService.GetUserByID scriptedRepo 1 repliesReadThenFail).1
      = (some (userWithRole 1 "admin" ["*"]), none) ∧
    (userWithRole 1 "admin" ["*"]).Role.map (fun r => r.Code) = some "admin" ∧
    RoleOrPermissionAuth scriptedRepo "admin" "user:view" (some 1) repliesReadThenFail
      = (Outcome.abort 500 500 ("检查权限失败: " ++ "driver: bad connection"), []) ∧
    (RoleOrPermissionAuth scriptedRepo "admin" "user:view" (some 1) repliesReadThenFail).1
      ≠ Outcome.next := by
  decide

/-- C5 (amended): for an authenticated user that the first read finds, RoleOrPermissionAuth
denies with 500 when the permission lookup returns an error, whatever the role; when the
lookup returns no error it lets the request through exactly when the role code equals
the required one or the lookup is true, and denies with 403 exactly when both are unmet. -/
theorem roleOrPermissionAuth_found {σ : Type} (userRepo : IUserRepository σ)
    (roleCode permission : String) (uid : Nat) (db db1 db2 : σ) (user : User)
    (b : Bool) (e : Option String)
    (hfind : UserService.GetUserByID userRepo uid db = ((some user, none), db1))
    (hlook : UserService.HasPermission userRepo uid permission db1 = ((b, e), db2)) :
    (∀ err, e = some err →
      RoleOrPermissionAuth userRepo roleCode permission (some uid) db
        = (Outcome.abort 500 500 ("检查权限失败: " ++ err), db2)) ∧
    (e = none →
      ((RoleOrPermissionAuth userRepo roleCode permission (some uid) db).1 = Outcome.next ↔
        ((∃ role, user.Role = some role ∧ role.Code = roleCode) ∨ b = true)) ∧
      (RoleOrPermissionAuth userRepo roleCode permission (some uid) db
          = (Outcome.abort 403 403
              ("权限不足，需要 " ++ roleCode ++ " 角色或 " ++ permission ++ " 权限"), db2) ↔
        (¬ (∃ role, user.Role = some role ∧ role.Code = roleCode) ∧ b = false)) ∧
      (RoleOrPermissionAuth userRepo roleCode permission (some uid) db).2 = db2) := by
  refine ⟨?_, ?_⟩
  · intro err he
    subst he
    simp [RoleOrPermissionAuth, hfind, hlook]
  · intro he
    subst he
    rcases hrole : user.Role with _ | role
    · cases b <;> simp [RoleOrPermissionAuth, hfind, hlook, hrole]
    · by_cases hc : role.Code = roleCode
      · cases b <;> simp [RoleOrPermissionAuth, hfind, hlook, hrole, hc]
      · cases b <;> simp [RoleOrPermissionAuth, hfind, hlook, hrole, hc]

/-- Witness for C5 (amended): user 1 with role code `user` and permission `a` passes
RoleOrPermissionAuth("admin", "a") through the permission. -/
theorem roleOrPermissionAuth_found_witness :
    (RoleOrPermissionAuth (tableRepo tableA) "admin" "a" (some 1) 0).1 = Outcome.next :=
  (((roleOrPermissionAuth_found (tableRepo tableA) "admin" "a" 1 0 1 2
      (userWithRole 1 "user" ["a"]) true none (by decide) (by decide)).2 rfl).1).2
    (Or.inr rfl)

/-- C6: for an authenticated user that the first read finds, RoleAndPermissionAuth lets
the request through exactly when the role code equals the required one and the
permission lookup returns `(true, nil)`; with a different or missing role it denies with
the missing-role message in the state the first read left, so the lookup is not made;
with the role matching and the lookup false it denies with the missing-permission
message. -/
theorem roleAndPermissionAuth_found {σ : Type} (userRepo : IUserRepository σ)
    (roleCode permission : String) (uid : Nat) (db db1 db2 : σ) (user : User)
    (b : Bool) (e : Option String)
    (hfind : UserService.GetUserByID userRepo uid db = ((some user, none), db1))
    (hlook : UserService.HasPermission userRepo uid permission db1 = ((b, e), db2)) :
    ((RoleAndPermissionAuth userRepo roleCode permission (some uid) db).1 = Outcome.next ↔
      ((∃ role, user.Role = some role ∧ role.Code = roleCode) ∧ b = true ∧ e = none)) ∧
    (¬ (∃ role, user.Role = some role ∧ role.Code = roleCode) →
      RoleAndPermissionAuth userRepo roleCode permission (some uid) db
        = (Outcome.abort 403 403 ("权限不足，需要 " ++ roleCode ++ " 角色"), db1)) ∧
    ((∃ role, user.Role = some role ∧ role.Code = roleCode) → b = false → e = none →
      RoleAndPermissionAuth userRepo roleCode permission (some uid) db
        = (Outcome.abort 403 403 ("权限不足，需要 " ++ permission ++ " 权限"), db2)) := by
  rcases hrole : user.Role with _ | role
  · simp [RoleAndPermissionAuth, hfind, hrole]
  · by_cases hc : role.Code = roleCode
    · cases e with
      | some err => simp [RoleAndPermissionAuth, hfind, hlook, hrole, hc]
      | none => cases b <;> simp [RoleAndPermissionAuth, hfind, hlook, hrole, hc]
    · simp [RoleAndPermissionAuth, hfind, hrole, hc]

/-- Witness for C6: user 1 has role code `user` and permission `a`. With the required role
`admin` the request is denied after one read; with the required role `user` and the
missing permission `b` it is denied after the lookup. -/
theorem roleAndPermissionAuth_found_witness :
    RoleAndPermissionAuth (tableRepo tableA) "admin" "a" (some 1) 0
      = (Outcome.abort 403 403 ("权限不足，需要 " ++ "admin" ++ " 角色"), 1) ∧
    RoleAndPermissionAuth (tableRepo tableA) "user" "b" (some 1) 0
      = (Outcome.abort 403 403 ("权限不足，需要 " ++ "b" ++ " 权限"), 2) :=
  ⟨(roleAndPermissionAuth_found (tableRepo tableA) "admin" "a" 1 0 1 2
      (userWithRole 1 "user" ["a"]) true none (by decide) (by decide)).2.1 (by decide),
   (roleAndPermissionAuth_found (tableRepo tableA) "user" "b" 1 0 1 2
      (userWithRole 1 "user" ["a"]) false none (by decide) (by decide)).2.2
      ⟨Role.mk 3 "user" "user" "" ["a"], rfl, rfl⟩ rfl rfl⟩

/-- C7 (defect): for user 2, found without a role, RoleAuth("admin") panics at the print of
line 97 instead of denying with 403, while RoleAndPermissionAuth, which has the same
test without the print, denies the same user with 403. -/
theorem roleAuth_nil_role_panics :
    (UserService.GetUserByID (tableRepo tableNoRole) 2 0).1
      = (some (userWithoutRole 2), none) ∧
    (userWithoutRole 2).Role = none ∧
    RoleAuth (tableRepo tableNoRole) "admin" (some 2) 0 = (Outcome.panic, 1) ∧
    RoleAndPermissionAuth (tableRepo tableNoRole) "admin" "user:view" (some 2) 0
      = (Outcome.abort 403 403 ("权限不足，需要 " ++ "admin" ++ " 角色"), 1) := by
  decide

/-- C8: PermissionAuth lets an authenticated user through exactly when the read finds the
user, the user has a role, and the permission list of the role contains the permission
verbatim or the wildcard; a found user without a role is denied with 403, a user whose
list contains the wildcard passes for every permission, and a failed read is denied
with 500. -/
theorem permissionAuth_spec {σ : Type} (userRepo : IUserRepository σ) (permission : String)
    (uid : Nat) (db : σ) :
    ((PermissionAuth userRepo permission (some uid) db).1 = Outcome.next ↔
      ∃ user role, (userRepo.FindByID uid db).1 = (some user, none) ∧
        user.Role = some role ∧ (permission ∈ role.Permissions ∨ "*" ∈ role.Permissions)) ∧
    (∀ user, (userRepo.FindByID uid db).1 = (some user, none) → user.Role = none →
      PermissionAuth userRepo permission (some uid) db
        = (Outcome.abort 403 403 ("权限不足，需要 " ++ permission ++ " 权限"),
            (userRepo.FindByID uid db).2)) ∧
    (∀ user role, (userRepo.FindByID uid db).1 = (some user, none) →
      user.Role = some role → "*" ∈ role.Permissions →
      (PermissionAuth userRepo permission (some uid) db).1 = Outcome.next) ∧
    (∀ u err, (userRepo.FindByID uid db).1 = (u, some err) →
      PermissionAuth userRepo permission (some uid) db
        = (Outcome.abort 500 500 ("检查权限失败: " ++ err), (userRepo.FindByID uid db).2)) := by
  have hmem := Permissions.hasPermission_eq_true_iff
  rcases hfind : userRepo.FindByID uid db with ⟨⟨u, e⟩, db1⟩
  cases e with
  | some err => simp [PermissionAuth, UserService.HasPermission, hfind]
  | none =>
    cases u with
    | none => simp [PermissionAuth, UserService.HasPermission, hfind]
    | some user =>
      rcases hrole : user.Role with _ | role
      · simp [PermissionAuth, UserService.HasPermission, hfind, User.HasPermission, hrole]
        intro u r hu hr
        subst hu
        rw [hrole] at hr
        exact Option.noConfusion hr
      · have h := hmem role.Permissions permission
        cases hp : Permissions.HasPermission role.Permissions permission with
        | true =>
          have h2 := h.mp hp
          simp [PermissionAuth, UserService.HasPermission, hfind, User.HasPermission, hrole,
            Role.HasPermission, hp, h2]
        | false =>
          have h2 : ¬ (permission ∈ role.Permissions ∨ "*" ∈ role.Permissions) := by
            intro hc
            rw [h.mpr hc] at hp
            exact Bool.noConfusion hp
          have h3 : ¬ "*" ∈ role.Permissions := fun hc => h2 (Or.inr hc)
          have h4 : ¬ permission ∈ role.Permissions := fun hc => h2 (Or.inl hc)
          simp [PermissionAuth, UserService.HasPermission, hfind, User.HasPermission, hrole,
            Role.HasPermission, hp, h3, h4]
          intro u r hu hr
          subst hu
          rw [hrole] at hr
          cases hr
          exact h3

/-- Witness for C8: the administrator of the example table, whose list is the wildcard
alone, passes PermissionAuth for a permission never added; the user without a role is
denied with 403; an unknown user is denied with 500. -/
theorem permissionAuth_spec_witness :
    (PermissionAuth (tableRepo tableAdmin) "never:added" (some 1) 0).1 = Outcome.next ∧
    PermissionAuth (tableRepo tableNoRole) "user:view" (some 2) 0
      = (Outcome.abort 403 403 ("权限不足，需要 " ++ "user:view" ++ " 权限"), 1) ∧
    PermissionAuth (tableRepo tableNoRole) "user:view" (some 9) 0
      = (Outcome.abort 500 500 ("检查权限失败: " ++ "record not found"), 1) :=
  ⟨(permissionAuth_spec (tableRepo tableAdmin) "never:added" 1 0).2.2.1
      (userWithRole 1 "admin" ["*"]) (Role.mk 3 "admin" "admin" "" ["*"]) rfl rfl (by decide),
   (permissionAuth_spec (tableRepo tableNoRole) "user:view" 2 0).2.1
      (userWithoutRole 2) rfl rfl,
   (permissionAuth_spec (tableRepo tableNoRole) "user:view" 9 0).2.2.2
      none "record not found" rfl⟩

/-! ## Theorems: one-time-code cache -/

/-- The code key and the counter key of one (biz, phone) pair differ. -/
theorem generateSMSKey_ne_generateAttemptsKey (biz phone : String) :
    generateSMSKey biz phone ≠ generateAttemptsKey biz phone := by
  intro h
  have hl := congrArg String.length h
  simp only [generateSMSKey, generateAttemptsKey, String.length_append] at hl
  have h1 : "sms:".length = 4 := by decide
  have h2 : "sms:attempts:".length = 13 := by decide
  omega

/-- Set leaves the key pending with counter 0. -/
theorem set_pending (r : RedisCodeCache) (t0 : Nat) (biz phone code : String) (s : Redis) :
    Pending r t0 biz phone code 0 (RedisCodeCache.Set r t0 biz phone code s).2 := by
  have hne := generateSMSKey_ne_generateAttemptsKey biz phone
  simp [Pending, RedisCodeCache.Set, Redis.Set, setDeadline, hne]

/-- An entry stored with the deadline of a Set at `t0` is live at every instant before
that deadline. -/
theorem live_of_not_expired (r : RedisCodeCache) (t0 now : Nat) (s : Redis) (key : String)
    (v : RedisValue) (hs : s key = some (RedisEntry.mk v (setDeadline r t0)))
    (hnow : r.expiration = 0 ∨ now < t0 + r.expiration) :
    Redis.live s now key = some (RedisEntry.mk v (setDeadline r t0)) := by
  unfold Redis.live
  rw [hs]
  unfold setDeadline
  rcases hnow with h | h
  · simp [h]
  · by_cases h0 : r.expiration = 0
    · simp [h0]
    · have : ¬ (t0 + r.expiration ≤ now) := by omega
      simp [h0, this]

/-- A Verify with a wrong code on a pending key whose counter is at most the maximum is
compared with the stored code: it fails with the mismatch error and moves the counter
up by one. -/
theorem verify_wrong_code (r : RedisCodeCache) (t0 now : Nat) (biz phone code c : String)
    (k : Int) (s : Redis) (hp : Pending r t0 biz phone code k s)
    (hk : k ≤ r.maxAttempts) (hk63 : k + 1 < 2 ^ 63)
    (hnow : r.expiration = 0 ∨ now < t0 + r.expiration) (hc : c ≠ code) :
    (RedisCodeCache.Verify r now biz phone c s).1 = (false, some errCodeMismatch) ∧
    Pending r t0 biz phone code (k + 1) (RedisCodeCache.Verify r now biz phone c s).2 := by
  obtain ⟨hcode, hatt⟩ := hp
  have hne := generateSMSKey_ne_generateAttemptsKey biz phone
  have hl1 := live_of_not_expired r t0 now s _ _ hatt hnow
  have hk' : ¬ (k > r.maxAttempts) := by omega
  have hk2 : ¬ ((9223372036854775808 : Int) ≤ k + 1) := by
    norm_num at hk63
    omega
  have hs1 : Redis.Incr s now (generateAttemptsKey biz phone) =
      fun key => if key = generateAttemptsKey biz phone then
        some (RedisEntry.mk (RedisValue.int (k + 1)) (setDeadline r t0)) else s key := by
    simp [Redis.Incr, hl1, RedisValue.incrOperand, hk2]
  have hcode1 : (Redis.Incr s now (generateAttemptsKey biz phone)) (generateSMSKey biz phone)
      = some (RedisEntry.mk (RedisValue.str code) (setDeadline r t0)) := by
    rw [hs1]; simp [hne, hcode]
  have hl2 := live_of_not_expired r t0 now _ _ _ hcode1 hnow
  have hcc : ¬ (code = c) := fun h => hc h.symm
  refine ⟨?_, ?_⟩
  · simp [RedisCodeCache.Verify, Redis.GetInt, hl1, RedisValue.asInt, hk', Redis.Get, hl2,
      RedisValue.text, hcc]
  · simp only [RedisCodeCache.Verify, Redis.GetInt, hl1, RedisValue.asInt, Redis.Get, hl2,
      RedisValue.text, hk', if_false, Option.map_some']
    simp only [bne_iff_ne, ne_eq, hcc, not_false_eq_true, if_true]
    refine ⟨hcode1, ?_⟩
    rw [hs1]; simp

/-- A Verify with the stored code on a pending key whose counter is at most the maximum
succeeds. -/
theorem verify_right_code (r : RedisCodeCache) (t0 now : Nat) (biz phone code : String)
    (k : Int) (s : Redis) (hp : Pending r t0 biz phone code k s)
    (hk : k ≤ r.maxAttempts) (hk63 : k + 1 < 2 ^ 63)
    (hnow : r.expiration = 0 ∨ now < t0 + r.expiration) :
    (RedisCodeCache.Verify r now biz phone code s).1 = (true, none) := by
  obtain ⟨hcode, hatt⟩ := hp
  have hne := generateSMSKey_ne_generateAttemptsKey biz phone
  have hl1 := live_of_not_expired r t0 now s _ _ hatt hnow
  have hk' : ¬ (k > r.maxAttempts) := by omega
  have hk2 : ¬ ((9223372036854775808 : Int) ≤ k + 1) := by
    norm_num at hk63
    omega
  have hs1 : Redis.Incr s now (generateAttemptsKey biz phone) =
      fun key => if key = generateAttemptsKey biz phone then
        some (RedisEntry.mk (RedisValue.int (k + 1)) (setDeadline r t0)) else s key := by
    simp [Redis.Incr, hl1, RedisValue.incrOperand, hk2]
  have hcode1 : (Redis.Incr s now (generateAttemptsKey biz phone)) (generateSMSKey biz phone)
      = some (RedisEntry.mk (RedisValue.str code) (setDeadline r t0)) := by
    rw [hs1]; simp [hne, hcode]
  have hl2 := live_of_not_expired r t0 now _ _ _ hcode1 hnow
  simp [RedisCodeCache.Verify, Redis.GetInt, hl1, RedisValue.asInt, hk', Redis.Get, hl2,
    RedisValue.text]

/-- A Verify on a pending key whose counter is above the maximum fails with the
too-many-attempts error and leaves the keyspace as it was. -/
theorem verify_locked (r : RedisCodeCache) (t0 now : Nat) (biz phone code c : String)
    (k : Int) (s : Redis) (hp : Pending r t0 biz phone code k s)
    (hk : r.maxAttempts < k)
    (hnow : r.expiration = 0 ∨ now < t0 + r.expiration) :
    RedisCodeCache.Verify r now biz phone c s = ((false, some errTooManyAttempts), s) := by
  obtain ⟨hcode, hatt⟩ := hp
  have hl1 := live_of_not_expired r t0 now s _ _ hatt hnow
  have hk' : k > r.maxAttempts := hk
  simp [RedisCodeCache.Verify, Redis.GetInt, hl1, RedisValue.asInt, hk']
/-- A run of Verify calls with wrong codes on a pending key: as long as the counter read by
a call is at most the maximum, every call is compared and fails with the mismatch
error, and the counter ends at its initial value plus the number of calls. -/
theorem verifyAll_wrong_codes (r : RedisCodeCache) (t0 : Nat) (biz phone code : String)
    (calls : List (Nat × String)) (k : Int) (s : Redis)
    (hp : Pending r t0 biz phone code k s)
    (hk : k + calls.length ≤ r.maxAttempts + 1) (h63 : r.maxAttempts + 1 < 2 ^ 63)
    (htime : ∀ c ∈ calls, r.expiration = 0 ∨ c.1 < t0 + r.expiration)
    (hwrong : ∀ c ∈ calls, c.2 ≠ code) :
    (verifyAll r biz phone calls s).1
      = List.replicate calls.length (false, some errCodeMismatch) ∧
    Pending r t0 biz phone code (k + calls.length) (verifyAll r biz phone calls s).2 := by
  induction calls generalizing k s with
  | nil => simpa [verifyAll] using hp
  | cons c rest ih =>
    obtain ⟨now, x⟩ := c
    simp only [List.length_cons, Nat.cast_add, Nat.cast_one] at hk
    have hk1 : k ≤ r.maxAttempts := by omega
    have hk2 : k + 1 < 2 ^ 63 := by omega
    have hstep := verify_wrong_code r t0 now biz phone code x k s hp hk1 hk2
      (htime (now, x) (List.mem_cons_self _ _)) (hwrong (now, x) (List.mem_cons_self _ _))
    have hrest := ih (k + 1) (RedisCodeCache.Verify r now biz phone x s).2 hstep.2
      (by omega) (fun c hc => htime c (List.mem_cons_of_mem _ hc))
      (fun c hc => hwrong c (List.mem_cons_of_mem _ hc))
    refine ⟨?_, ?_⟩
    · simp only [verifyAll, List.length_cons, List.replicate_succ, hstep.1, hrest.1]
    · simp only [verifyAll, List.length_cons, Nat.cast_add, Nat.cast_one]
      have he : k + (↑rest.length + 1) = k + 1 + ↑rest.length := by ring
      rw [he]
      exact hrest.2

/-- A run of Verify calls on a pending key whose counter is above the maximum: every call
fails with the too-many-attempts error and the keyspace stays as it was. -/
theorem verifyAll_locked (r : RedisCodeCache) (t0 : Nat) (biz phone code : String)
    (calls : List (Nat × String)) (k : Int) (s : Redis)
    (hp : Pending r t0 biz phone code k s) (hk : r.maxAttempts < k)
    (htime : ∀ c ∈ calls, r.expiration = 0 ∨ c.1 < t0 + r.expiration) :
    verifyAll r biz phone calls s
      = (List.replicate calls.length (false, some errTooManyAttempts), s) := by
  induction calls with
  | nil => rfl
  | cons c rest ih =>
    obtain ⟨now, x⟩ := c
    have hstep := verify_locked r t0 now biz phone code x k s hp hk
      (htime (now, x) (List.mem_cons_self _ _))
    have hrest := ih (fun c hc => htime c (List.mem_cons_of_mem _ hc))
    simp only [verifyAll, hstep, hrest, List.length_cons, List.replicate_succ]

/-- Counterexample for C1: with the configured maximum 3, biz `login` and phone
`13800000000`, three wrong codes after Set each fail with the mismatch error, and the
fourth call, made with the stored code, returns true without error: it does not fail
with the too-many-attempts error. -/
theorem fourth_verify_with_stored_code_succeeds :
    (verifyAll NewRedisCodeCache "login" "13800000000"
        [(1, "000000"), (2, "111111"), (3, "222222")]
        (RedisCodeCache.Set NewRedisCodeCache 0 "login" "13800000000" "123456"
          Redis.empty).2).1
      = List.replicate 3 (false, some errCodeMismatch) ∧
    (RedisCodeCache.Verify NewRedisCodeCache 4 "login" "13800000000" "123456"
      (verifyAll NewRedisCodeCache "login" "13800000000"
        [(1, "000000"), (2, "111111"), (3, "222222")]
        (RedisCodeCache.Set NewRedisCodeCache 0 "login" "13800000000" "123456"
          Redis.empty).2).2).1
      = (true, none) ∧
    ((true, none) : Bool × Option String) ≠ (false, some errTooManyAttempts) := by
  decide

/-- C1 (amended): after Set and as many wrong Verify calls as the configured maximum `m`,
made before expiry, each of them failing with the mismatch error, call `m + 1` is still
compared with the stored code: it succeeds with the stored code and fails with the
mismatch error with another code; after `m + 1` wrong codes every further call before
expiry, whatever code it supplies, fails with the too-many-attempts error and leaves the
keyspace as it is, so that at most `m + 1` supplied codes are compared with one stored
code. -/
theorem verify_attempt_cap (r : RedisCodeCache) (t0 : Nat) (biz phone code : String)
    (calls : List (Nat × String)) (s0 : Redis)
    (hlen : (calls.length : Int) = r.maxAttempts) (h63 : r.maxAttempts + 1 < 2 ^ 63)
    (htime : ∀ c ∈ calls, r.expiration = 0 ∨ c.1 < t0 + r.expiration)
    (hwrong : ∀ c ∈ calls, c.2 ≠ code) :
    (verifyAll r biz phone calls (RedisCodeCache.Set r t0 biz phone code s0).2).1
      = List.replicate calls.length (false, some errCodeMismatch) ∧
    (∀ t, (r.expiration = 0 ∨ t < t0 + r.expiration) →
      (RedisCodeCache.Verify r t biz phone code
        (verifyAll r biz phone calls (RedisCodeCache.Set r t0 biz phone code s0).2).2).1
        = (true, none)) ∧
    (∀ t x, (r.expiration = 0 ∨ t < t0 + r.expiration) → x ≠ code →
      (RedisCodeCache.Verify r t biz phone x
        (verifyAll r biz phone calls (RedisCodeCache.Set r t0 biz phone code s0).2).2).1
        = (false, some errCodeMismatch) ∧
      ∀ more : List (Nat × String),
        (∀ c ∈ more, r.expiration = 0 ∨ c.1 < t0 + r.expiration) →
        verifyAll r biz phone more
            (RedisCodeCache.Verify r t biz phone x
              (verifyAll r biz phone calls
                (RedisCodeCache.Set r t0 biz phone code s0).2).2).2
          = (List.replicate more.length (false, some errTooManyAttempts),
              (RedisCodeCache.Verify r t biz phone x
                (verifyAll r biz phone calls
                  (RedisCodeCache.Set r t0 biz phone code s0).2).2).2)) := by
  have hrun := verifyAll_wrong_codes r t0 biz phone code calls 0
    (RedisCodeCache.Set r t0 biz phone code s0).2 (set_pending r t0 biz phone code s0)
    (by omega) h63 htime hwrong
  refine ⟨hrun.1, ?_, ?_⟩
  · intro t ht
    exact verify_right_code r t0 t biz phone code (0 + calls.length) _ hrun.2
      (by omega) (by omega) ht
  · intro t x ht hx
    have hstep := verify_wrong_code r t0 t biz phone code x (0 + calls.length) _ hrun.2
      (by omega) (by omega) ht hx
    refine ⟨hstep.1, ?_⟩
    intro more hmore
    exact verifyAll_locked r t0 biz phone code more (0 + calls.length + 1) _ hstep.2
      (by omega) hmore

/-- Witness for C1 (amended): with the configured maximum 3, biz `login` and phone
`13800000000`, three wrong codes after Set fail with the mismatch error, a fourth wrong
code is still compared, and the fifth call, made with the stored code, fails with the
too-many-attempts error. -/
theorem verify_attempt_cap_witness :
    (verifyAll NewRedisCodeCache "login" "13800000000"
        [(1, "000000"), (2, "111111"), (3, "222222")]
        (RedisCodeCache.Set NewRedisCodeCache 0 "login" "13800000000" "123456"
          Redis.empty).2).1
      = List.replicate 3 (false, some errCodeMismatch) ∧
    (RedisCodeCache.Verify NewRedisCodeCache 4 "login" "13800000000" "333333"
        (verifyAll NewRedisCodeCache "login" "13800000000"
          [(1, "000000"), (2, "111111"), (3, "222222")]
          (RedisCodeCache.Set NewRedisCodeCache 0 "login" "13800000000" "123456"
            Redis.empty).2).2).1
      = (false, some errCodeMismatch) ∧
    (verifyAll NewRedisCodeCache "login" "13800000000" [(5, "123456")]
        (RedisCodeCache.Verify NewRedisCodeCache 4 "login" "13800000000" "333333"
          (verifyAll NewRedisCodeCache "login" "13800000000"
            [(1, "000000"), (2, "111111"), (3, "222222")]
            (RedisCodeCache.Set NewRedisCodeCache 0 "login" "13800000000" "123456"
              Redis.empty).2).2).2).1
      = [(false, some errTooManyAttempts)] :=
  ⟨(verify_attempt_cap NewRedisCodeCache 0 "login" "13800000000" "123456"
      [(1, "000000"), (2, "111111"), (3, "222222")] Redis.empty
      (by decide) (by decide) (by decide) (by decide)).1,
   ((verify_attempt_cap NewRedisCodeCache 0 "login" "13800000000" "123456"
      [(1, "000000"), (2, "111111"), (3, "222222")] Redis.empty
      (by decide) (by decide) (by decide) (by decide)).2.2 4 "333333"
      (by decide) (by decide)).1,
   congrArg Prod.fst
    (((verify_attempt_cap NewRedisCodeCache 0 "login" "13800000000" "123456"
      [(1, "000000"), (2, "111111"), (3, "222222")] Redis.empty
      (by decide) (by decide) (by decide) (by decide)).2.2 4 "333333"
      (by decide) (by decide)).2 [(5, "123456")] (by decide))⟩

/-! ## Theorems: token service -/

/-- The default claims validation passes exactly inside the half-open window from the
not-before instant to the expiry instant. -/
theorem validateClaims_window (now nbf exp : Int) (iss sub : String) (aud : List String)
    (iat : Option Int) (id : String) :
    validateClaims now (RegisteredClaims.mk iss sub aud (some exp) (some nbf) iat id)
      = (decide (exp ≤ now), decide (now < nbf)) := by
  by_cases h : now < exp
  · have h2 : ¬ exp ≤ now := by omega
    simp [validateClaims, h, h2]
  · have h2 : exp ≤ now := by omega
    simp [validateClaims, h, h2]

/-- Counterexample for C9: a token issued at the example instant with 30 minutes of
lifetime carries the expiry instant issue time plus 30 minutes; parsed at exactly that
instant, which is neither before not-before nor after expiry, it is rejected as
expired. A token issued half a second later carries the same expiry and is rejected
400 milliseconds after it, 100 milliseconds short of its issue time plus the lifetime. -/
theorem parseAccessToken_at_expiry_rejected :
    (buildClaims exampleJWTConfig exampleJWTConfig.AccessTokenExp 7 exampleInstant
        exampleInstant exampleInstant).Registered.NotBefore = some exampleInstant ∧
    (buildClaims exampleJWTConfig exampleJWTConfig.AccessTokenExp 7 exampleInstant
        exampleInstant exampleInstant).Registered.ExpiresAt
      = some (exampleInstant + 30 * Minute) ∧
    ParseAccessToken exampleMAC exampleJWTConfig (exampleInstant + 30 * Minute)
        (GenerateAccessToken exampleMAC exampleJWTConfig 7 exampleInstant exampleInstant
          exampleInstant).1
      = Except.error (ParseError.invalidClaims true false) ∧
    ParseAccessToken exampleMAC exampleJWTConfig
        (exampleInstant + 500000000 + 30 * Minute - 100000000)
        (GenerateAccessToken exampleMAC exampleJWTConfig 7 (exampleInstant + 500000000)
          (exampleInstant + 500000000) (exampleInstant + 500000000)).1
      = Except.error (ParseError.invalidClaims true false) := by
  refine ⟨by decide, by decide, ?_, ?_⟩
  · rfl
  · rfl

/-- C9 (amended): a token produced by GenerateAccessToken for user `u` at instant `t0` is
accepted by ParseAccessToken at instant `t`, yielding the claims built at issue with
UserID `u`, exactly when `t` is at or after the not-before instant and strictly before
the expiry instant, these being `t0` and `t0` plus the access lifetime truncated to
whole seconds; at every other instant the parse fails with the expired or
not-valid-yet error. -/
theorem parseAccessToken_generateAccessToken (mac : MAC) (cfg : JWTConfig) (u : Nat)
    (t0 t : Int) :
    (buildClaims cfg cfg.AccessTokenExp u t0 t0 t0).UserID = u ∧
    ParseAccessToken mac cfg t (GenerateAccessToken mac cfg u t0 t0 t0).1 =
      (if NewNumericDate t0 ≤ t ∧ t < NewNumericDate (t0 + wrap64 (cfg.AccessTokenExp * Minute))
       then Except.ok (buildClaims cfg cfg.AccessTokenExp u t0 t0 t0)
       else Except.error (ParseError.invalidClaims
         (decide (NewNumericDate (t0 + wrap64 (cfg.AccessTokenExp * Minute)) ≤ t))
         (decide (t < NewNumericDate t0)))) := by
  refine ⟨rfl, ?_⟩
  have hv := validateClaims_window t (NewNumericDate t0)
    (NewNumericDate (t0 + wrap64 (cfg.AccessTokenExp * Minute))) cfg.TokenIssuer "" []
    (some (NewNumericDate t0)) ""
  simp only [ParseAccessToken, parseToken, ParseWithClaims, GenerateAccessToken, signHS256,
    GetSigningMethod, keyFunc, SigningMethod.Verify, buildClaims, hv]
  by_cases h1 : NewNumericDate (t0 + wrap64 (cfg.AccessTokenExp * Minute)) ≤ t
  · have h1b : ¬ t < NewNumericDate (t0 + wrap64 (cfg.AccessTokenExp * Minute)) := by omega
    by_cases h2 : t < NewNumericDate t0
    · simp [h1, h2, h1b]
    · simp [h1, h2, h1b]
  · have h1b : t < NewNumericDate (t0 + wrap64 (cfg.AccessTokenExp * Minute)) := by omega
    by_cases h2 : t < NewNumericDate t0
    · have h2b : ¬ NewNumericDate t0 ≤ t := by omega
      simp [h1, h2, h1b, h2b]
    · have h2b : NewNumericDate t0 ≤ t := by omega
      simp [h1, h2, h1b, h2b]
/-- Replacing one byte of a list by a different byte gives a different list. -/
theorem set_ne_of_ne (l : List Nat) (i b : Nat) (hi : i < l.length) (hb : l[i] ≠ b) :
    l.set i b ≠ l := by
  intro h
  have hi2 : i < (l.set i b).length := by simpa using hi
  have h1 : (l.set i b)[i] = b := by simp
  have h2 : (l.set i b)[i] = l[i] := by simp only [h]
  exact hb (h2.symm.trans h1)

/-- A 6-bit value is read back from its character. -/
theorem base64URLValue_char (v : Nat) (h : v < 64) :
    base64URLValue (base64URLChar v) = some v := by
  interval_cases v <;> decide

/-- A character of the alphabet is the character of its value, which is below 64. -/
theorem base64URLChar_of_value (c : Char) (v : Nat) (h : base64URLValue c = some v) :
    c = base64URLChar v ∧ v < 64 := by
  unfold base64URLValue at h
  split_ifs at h with h1 h2 h3 h4 h5
  · simp only [Option.some.injEq] at h
    subst h
    have e : c.toNat - 65 + 65 = c.toNat := by omega
    have hlt : c.toNat - 65 < 26 := by omega
    refine ⟨?_, by omega⟩
    simp only [base64URLChar, hlt, if_true, e, Char.ofNat_toNat]
  · simp only [Option.some.injEq] at h
    subst h
    have e : c.toNat - 71 + 71 = c.toNat := by omega
    have hlt : ¬ c.toNat - 71 < 26 := by omega
    have hlt2 : c.toNat - 71 < 52 := by omega
    refine ⟨?_, by omega⟩
    simp only [base64URLChar, hlt, hlt2, if_true, if_false, e, Char.ofNat_toNat]
  · simp only [Option.some.injEq] at h
    subst h
    have e : c.toNat + 4 - 4 = c.toNat := by omega
    have hlt : ¬ c.toNat + 4 < 26 := by omega
    have hlt2 : ¬ c.toNat + 4 < 52 := by omega
    have hlt3 : c.toNat + 4 < 62 := by omega
    refine ⟨?_, by omega⟩
    simp only [base64URLChar, hlt, hlt2, hlt3, if_true, if_false, e, Char.ofNat_toNat]
  · simp only [Option.some.injEq] at h
    subst h
    exact ⟨by rw [h4]; decide, by omega⟩
  · simp only [Option.some.injEq] at h
    subst h
    exact ⟨by rw [h5]; decide, by omega⟩

/-- The characters of the alphabet are neither line feed nor carriage return. -/
theorem base64URLChar_not_skipped (v : Nat) (h : v < 64) :
    ¬ (base64URLChar v = '\n' ∨ base64URLChar v = '\r') := by
  have hv := base64URLValue_char v h
  have h1 : base64URLValue '\n' = none := by decide
  have h2 : base64URLValue '\r' = none := by decide
  rintro (e | e)
  · rw [e, h1] at hv
    cases hv
  · rw [e, h2] at hv
    cases hv

/-- The values read from the characters of a list of 6-bit values are these values. -/
theorem segmentValues_map_char (vs : List Nat) (h : ∀ v ∈ vs, v < 64) :
    segmentValues (vs.map base64URLChar) = some vs := by
  induction vs with
  | nil => rfl
  | cons v rest ih =>
    have hv : v < 64 := h v (List.mem_cons_self _ _)
    have hrest := ih (fun w hw => h w (List.mem_cons_of_mem _ hw))
    simp only [List.map_cons, segmentValues, base64URLChar_not_skipped v hv, if_false,
      base64URLValue_char v hv, hrest, Option.map_some']

/-- The values of an encoding of bytes are below 64. -/
theorem encodeQuanta_lt (bytes : List Nat) (h : ∀ b ∈ bytes, b < 256) :
    ∀ v ∈ encodeQuanta bytes, v < 64 := by
  induction bytes using encodeQuanta.induct with
  | case1 a b c rest ih =>
    have ha : a < 256 := h a (by simp)
    have hb : b < 256 := h b (by simp)
    have hc : c < 256 := h c (by simp)
    have hrest := ih (fun w hw => h w (by simp [hw]))
    intro v hv
    simp only [encodeQuanta, List.mem_cons] at hv
    rcases hv with e | e | e | e | e
    · omega
    · omega
    · omega
    · omega
    · exact hrest v e
  | case2 a b =>
    have ha : a < 256 := h a (by simp)
    have hb : b < 256 := h b (by simp)
    intro v hv
    simp only [encodeQuanta, List.mem_cons, List.not_mem_nil, or_false] at hv
    rcases hv with e | e | e
    · omega
    · omega
    · omega
  | case3 a =>
    have ha : a < 256 := h a (by simp)
    intro v hv
    simp only [encodeQuanta, List.mem_cons, List.not_mem_nil, or_false] at hv
    rcases hv with e | e
    · omega
    · omega
  | case4 => intro v hv; simp [encodeQuanta] at hv

/-- Decoding the values of an encoding gives the bytes back. -/
theorem decodeQuanta_encodeQuanta (bytes : List Nat) (h : ∀ b ∈ bytes, b < 256) :
    decodeQuanta (encodeQuanta bytes) = some bytes := by
  induction bytes using encodeQuanta.induct with
  | case1 a b c rest ih =>
    have ha : a < 256 := h a (by simp)
    have hb : b < 256 := h b (by simp)
    have hc : c < 256 := h c (by simp)
    have hrest := ih (fun w hw => h w (by simp [hw]))
    have e1 : a / 4 * 4 + (a % 4 * 16 + b / 16) / 16 = a := by omega
    have e2 : (a % 4 * 16 + b / 16) % 16 * 16 + (b % 16 * 4 + c / 64) / 4 = b := by omega
    have e3 : (b % 16 * 4 + c / 64) % 4 * 64 + c % 64 = c := by omega
    simp only [encodeQuanta, decodeQuanta, hrest, Option.map_some', e1, e2, e3]
  | case2 a b =>
    have ha : a < 256 := h a (by simp)
    have hb : b < 256 := h b (by simp)
    have e1 : a / 4 * 4 + (a % 4 * 16 + b / 16) / 16 = a := by omega
    have e2 : (a % 4 * 16 + b / 16) % 16 * 16 + (b % 16 * 4) / 4 = b := by omega
    simp only [encodeQuanta, decodeQuanta, e1, e2]
  | case3 a =>
    have ha : a < 256 := h a (by simp)
    have e1 : a / 4 * 4 + (a % 4 * 16) / 16 = a := by omega
    simp only [encodeQuanta, decodeQuanta, e1]
  | case4 => rfl

/-- Decoding an encoded segment gives the bytes back. -/
theorem decodeSegment_encodeSegment (bytes : List Nat) (h : ∀ b ∈ bytes, b < 256) :
    DecodeSegment (EncodeSegment bytes) = some bytes := by
  simp only [DecodeSegment, EncodeSegment,
    segmentValues_map_char _ (encodeQuanta_lt bytes h), Option.some_bind,
    decodeQuanta_encodeQuanta bytes h]

/-- The number of values of an encoding. -/
theorem encodeQuanta_length (bytes : List Nat) :
    (encodeQuanta bytes).length = (bytes.length * 4 + 2) / 3 := by
  induction bytes using encodeQuanta.induct with
  | case1 a b c rest ih =>
    simp only [encodeQuanta, List.length_cons, ih]
    omega
  | case2 a b => simp [encodeQuanta]
  | case3 a => simp [encodeQuanta]
  | case4 => rfl

/-- The number of bytes of a decoding; a single last value does not decode. -/
theorem decodeQuanta_length (vs bs : List Nat) (h : decodeQuanta vs = some bs) :
    bs.length = vs.length * 3 / 4 ∧ vs.length % 4 ≠ 1 := by
  induction vs using decodeQuanta.induct generalizing bs with
  | case1 a b c d rest ih =>
    rcases hr : decodeQuanta rest with _ | bs1
    · simp [decodeQuanta, hr] at h
    · simp only [decodeQuanta, hr, Option.map_some', Option.some.injEq] at h
      have h1 := ih bs1 hr
      subst h
      simp only [List.length_cons]
      omega
  | case2 a b c =>
    simp only [decodeQuanta, Option.some.injEq] at h
    subst h
    simp
  | case3 a b =>
    simp only [decodeQuanta, Option.some.injEq] at h
    subst h
    simp
  | case4 a => simp [decodeQuanta] at h
  | case5 =>
    simp only [decodeQuanta, Option.some.injEq] at h
    subst h
    simp

/-- Reading the characters of a list of 6-bit values with one character replaced: a
skipped character removes the value, a character outside the alphabet is an error, and a
character of the alphabet replaces the value by its own. -/
theorem segmentValues_set (vs : List Nat) (h : ∀ v ∈ vs, v < 64) (i : Nat)
    (hi : i < vs.length) (c : Char) :
    segmentValues ((vs.map base64URLChar).set i c) =
      if c = '\n' ∨ c = '\r' then some (vs.eraseIdx i)
      else
        match base64URLValue c with
        | none => none
        | some w => some (vs.set i w) := by
  induction vs generalizing i with
  | nil => simp at hi
  | cons v rest ih =>
    have hv : v < 64 := h v (List.mem_cons_self _ _)
    have hr : ∀ w ∈ rest, w < 64 := fun w hw => h w (List.mem_cons_of_mem _ hw)
    cases i with
    | zero =>
      simp only [List.map_cons, List.set_cons_zero, segmentValues, List.eraseIdx_cons_zero,
        segmentValues_map_char rest hr, Option.map_some']
    | succ j =>
      have hj : j < rest.length := by simpa using hi
      simp only [List.map_cons, List.set_cons_succ, segmentValues,
        base64URLChar_not_skipped v hv, if_false, base64URLValue_char v hv, ih hr j hj,
        List.eraseIdx_cons_succ]
      by_cases hs : c = '\n' ∨ c = '\r'
      · simp only [hs, if_true, Option.map_some']
      · simp only [hs, if_false]
        rcases base64URLValue c with _ | w
        · rfl
        · rfl

/-- Replacing a value that is not the unused tail of a decoding changes the decoded
bytes: every value but the last, and every value when the values come in whole groups
of four. -/
theorem decodeQuanta_set_ne (vs : List Nat) (h : ∀ v ∈ vs, v < 64) (i w : Nat)
    (hi : i < vs.length) (hne : vs[i]? ≠ some w)
    (hpos : i + 1 < vs.length ∨ vs.length % 4 = 0) (bs : List Nat)
    (hd : decodeQuanta vs = some bs) : decodeQuanta (vs.set i w) ≠ some bs := by
  induction vs using decodeQuanta.induct generalizing i bs with
  | case1 a b c d rest ih =>
    have ha : a < 64 := h a (by simp)
    have hb : b < 64 := h b (by simp)
    have hc : c < 64 := h c (by simp)
    have hdd : d < 64 := h d (by simp)
    rcases hr : decodeQuanta rest with _ | bs1
    · simp [decodeQuanta, hr] at hd
    · simp only [decodeQuanta, hr, Option.map_some', Option.some.injEq] at hd
      subst hd
      match i, hi, hne, hpos with
      | 0, _, hne, _ =>
        simp only [List.getElem?_cons_zero, ne_eq, Option.some.injEq] at hne
        simp only [List.set_cons_zero, decodeQuanta, hr, Option.map_some', ne_eq,
          Option.some.injEq, List.cons.injEq, not_and]
        intro e
        omega
      | 1, _, hne, _ =>
        simp only [List.getElem?_cons_succ, List.getElem?_cons_zero, ne_eq,
          Option.some.injEq] at hne
        simp only [List.set_cons_succ, List.set_cons_zero, decodeQuanta, hr, Option.map_some',
          ne_eq, Option.some.injEq, List.cons.injEq, not_and]
        intro e1 e2
        omega
      | 2, _, hne, _ =>
        simp only [List.getElem?_cons_succ, List.getElem?_cons_zero, ne_eq,
          Option.some.injEq] at hne
        simp only [List.set_cons_succ, List.set_cons_zero, decodeQuanta, hr, Option.map_some',
          ne_eq, Option.some.injEq, List.cons.injEq, not_and]
        intro e1 e2 e3
        omega
      | 3, _, hne, _ =>
        simp only [List.getElem?_cons_succ, List.getElem?_cons_zero, ne_eq,
          Option.some.injEq] at hne
        simp only [List.set_cons_succ, List.set_cons_zero, decodeQuanta, hr, Option.map_some',
          ne_eq, Option.some.injEq, List.cons.injEq, not_and]
        intro e1 e2 e3
        omega
      | j + 4, hi, hne, hpos =>
        simp only [List.getElem?_cons_succ] at hne
        simp only [List.length_cons] at hi hpos
        have hrest := ih (fun v hv => h v (by simp [hv])) j (by omega) hne (by omega) bs1 hr
        simp only [List.set_cons_succ, decodeQuanta, ne_eq]
        rcases hr2 : decodeQuanta (rest.set j w) with _ | bs2
        · simp
        · simp only [Option.map_some', Option.some.injEq, List.cons.injEq, true_and]
          intro e
          exact hrest (by rw [hr2, e])
  | case2 a b c =>
    have ha : a < 64 := h a (by simp)
    have hb : b < 64 := h b (by simp)
    have hc : c < 64 := h c (by simp)
    simp only [decodeQuanta, Option.some.injEq] at hd
    subst hd
    match i, hi, hne, hpos with
    | 0, _, hne, _ =>
      simp only [List.getElem?_cons_zero, ne_eq, Option.some.injEq] at hne
      simp only [List.set_cons_zero, decodeQuanta, ne_eq, Option.some.injEq, List.cons.injEq,
        not_and]
      intro e
      omega
    | 1, _, hne, _ =>
      simp only [List.getElem?_cons_succ, List.getElem?_cons_zero, ne_eq,
        Option.some.injEq] at hne
      simp only [List.set_cons_succ, List.set_cons_zero, decodeQuanta, ne_eq,
        Option.some.injEq, List.cons.injEq, not_and]
      intro e1 e2
      omega
    | j + 2, hi, _, hpos =>
      simp only [List.length_cons, List.length_nil] at hi hpos
      omega
  | case3 a b =>
    have ha : a < 64 := h a (by simp)
    have hb : b < 64 := h b (by simp)
    simp only [decodeQuanta, Option.some.injEq] at hd
    subst hd
    match i, hi, hne, hpos with
    | 0, _, hne, _ =>
      simp only [List.getElem?_cons_zero, ne_eq, Option.some.injEq] at hne
      simp only [List.set_cons_zero, decodeQuanta, ne_eq, Option.some.injEq, List.cons.injEq,
        not_and]
      intro e
      omega
    | j + 1, hi, _, hpos =>
      simp only [List.length_cons, List.length_nil] at hi hpos
      omega
  | case4 a => simp [decodeQuanta] at hd
  | case5 => simp at hi

/-- Replacing the last value of a decoding leaves the decoded bytes as they are exactly
when the new value agrees with the old one outside the unused low bits: two bits after
a last group of three values, four bits after a last group of two values, none when the
values come in whole groups of four. -/
theorem decodeQuanta_set_last (vs : List Nat) (i w w0 : Nat)
    (hi : i + 1 = vs.length) (h0 : vs[i]? = some w0) (bs : List Nat)
    (hd : decodeQuanta vs = some bs) :
    decodeQuanta (vs.set i w) = some bs ↔
      (vs.length % 4 = 3 ∧ w / 4 = w0 / 4) ∨ (vs.length % 4 = 2 ∧ w / 16 = w0 / 16) ∨
        (vs.length % 4 = 0 ∧ w = w0) := by
  induction vs using decodeQuanta.induct generalizing i bs with
  | case1 a b c d rest ih =>
    rcases hr : decodeQuanta rest with _ | bs1
    · simp [decodeQuanta, hr] at hd
    · simp only [decodeQuanta, hr, Option.map_some', Option.some.injEq] at hd
      subst hd
      simp only [List.length_cons] at hi
      match i, hi, h0 with
      | 0, hi, _ => omega
      | 1, hi, _ => omega
      | 2, hi, _ => omega
      | 3, hi, h0 =>
        have hl : rest.length = 0 := by omega
        have hnil : rest = [] := List.length_eq_zero.mp hl
        subst hnil
        simp only [List.getElem?_cons_succ, List.getElem?_cons_zero, Option.some.injEq] at h0
        subst h0
        simp only [decodeQuanta, Option.some.injEq] at hr
        subst hr
        simp only [List.set_cons_succ, List.set_cons_zero, decodeQuanta, Option.map_some',
          Option.some.injEq, List.cons.injEq, and_true, true_and, List.length_cons,
          List.length_nil]
        omega
      | j + 4, hi, h0 =>
        simp only [List.getElem?_cons_succ] at h0
        have hrest := ih j (by omega) h0 bs1 hr
        have hm : (rest.length + 1 + 1 + 1 + 1) % 4 = rest.length % 4 := by omega
        simp only [List.set_cons_succ, decodeQuanta, List.length_cons, hm]
        rw [← hrest]
        rcases decodeQuanta (rest.set j w) with _ | bs2
        · simp
        · simp
  | case2 a b c =>
    simp only [decodeQuanta, Option.some.injEq] at hd
    subst hd
    simp only [List.length_cons, List.length_nil] at hi
    have hi2 : i = 2 := by omega
    subst hi2
    simp only [List.getElem?_cons_succ, List.getElem?_cons_zero, Option.some.injEq] at h0
    subst h0
    simp only [List.set_cons_succ, List.set_cons_zero, decodeQuanta, Option.some.injEq,
      List.cons.injEq, and_true, true_and, List.length_cons, List.length_nil]
    omega
  | case3 a b =>
    simp only [decodeQuanta, Option.some.injEq] at hd
    subst hd
    simp only [List.length_cons, List.length_nil] at hi
    have hi2 : i = 1 := by omega
    subst hi2
    simp only [List.getElem?_cons_succ, List.getElem?_cons_zero, Option.some.injEq] at h0
    subst h0
    simp only [List.set_cons_succ, List.set_cons_zero, decodeQuanta, Option.some.injEq,
      List.cons.injEq, and_true, true_and, List.length_cons, List.length_nil]
    omega
  | case4 a => simp [decodeQuanta] at hd
  | case5 => simp at hi

/-- The characters of an encoded segment are the characters of its values. -/
theorem encodeSegment_data (bytes : List Nat) :
    (EncodeSegment bytes).data = (encodeQuanta bytes).map base64URLChar := rfl

/-- Decoding of an encoded segment with one character replaced. -/
theorem decodeSegment_set (bytes : List Nat) (h : ∀ b ∈ bytes, b < 256) (i : Nat) (c : Char)
    (hi : i < (EncodeSegment bytes).data.length) :
    DecodeSegment (String.mk ((EncodeSegment bytes).data.set i c)) =
      if c = '\n' ∨ c = '\r' then decodeQuanta ((encodeQuanta bytes).eraseIdx i)
      else
        match base64URLValue c with
        | none => none
        | some w => decodeQuanta ((encodeQuanta bytes).set i w) := by
  have hi2 : i < (encodeQuanta bytes).length := by
    simpa [encodeSegment_data] using hi
  simp only [DecodeSegment, encodeSegment_data,
    segmentValues_set _ (encodeQuanta_lt bytes h) i hi2 c]
  by_cases hs : c = '\n' ∨ c = '\r'
  · simp only [hs, if_true, Option.some_bind]
  · simp only [hs, if_false]
    rcases base64URLValue c with _ | w
    · rfl
    · rfl

/-- An encoded segment with one character replaced by a different character decodes to
the same bytes exactly when the character is the last of the segment, the number of
bytes is not a multiple of three, and the new character is a character of the alphabet
whose value agrees with the value of the old one outside the unused low bits. -/
theorem decodeSegment_set_iff (bytes : List Nat) (h : ∀ b ∈ bytes, b < 256) (i : Nat)
    (c : Char) (hi : i < (EncodeSegment bytes).data.length)
    (hc : (EncodeSegment bytes).data[i]? ≠ some c) :
    DecodeSegment (String.mk ((EncodeSegment bytes).data.set i c)) = some bytes ↔
      i + 1 = (EncodeSegment bytes).data.length ∧
      ∃ w w0, base64URLValue c = some w ∧
        ((EncodeSegment bytes).data[i]?).bind base64URLValue = some w0 ∧
        ((bytes.length % 3 = 2 ∧ w / 4 = w0 / 4) ∨
          (bytes.length % 3 = 1 ∧ w / 16 = w0 / 16)) := by
  have hlt := encodeQuanta_lt bytes h
  have hdec := decodeQuanta_encodeQuanta bytes h
  have hlen := encodeQuanta_length bytes
  have hdl := decodeQuanta_length _ _ hdec
  have hi2 : i < (encodeQuanta bytes).length := by
    simpa [encodeSegment_data] using hi
  have hdata : (EncodeSegment bytes).data.length = (encodeQuanta bytes).length := by
    simp [encodeSegment_data]
  obtain ⟨v0, hv0⟩ : ∃ v0, (encodeQuanta bytes)[i]? = some v0 :=
    ⟨(encodeQuanta bytes)[i], List.getElem?_eq_getElem hi2⟩
  have hv0lt : v0 < 64 := hlt v0 (List.mem_iff_getElem?.mpr ⟨i, hv0⟩)
  have hget : (EncodeSegment bytes).data[i]? = some (base64URLChar v0) := by
    simp [encodeSegment_data, List.getElem?_map, hv0]
  have hval0 : ((EncodeSegment bytes).data[i]?).bind base64URLValue = some v0 := by
    rw [hget]
    simp [base64URLValue_char v0 hv0lt]
  rw [decodeSegment_set bytes h i c hi, hdata, hval0]
  by_cases hs : c = '\n' ∨ c = '\r'
  · simp only [hs, if_true]
    have hnone : base64URLValue c = none := by
      rcases hs with e | e
      · rw [e]; decide
      · rw [e]; decide
    constructor
    · intro e
      have hl := decodeQuanta_length _ _ e
      rw [List.length_eraseIdx] at hl
      simp only [hi2, if_true] at hl
      omega
    · rintro ⟨_, w, w0, hw, _⟩
      rw [hnone] at hw
      cases hw
  · simp only [hs, if_false]
    rcases hv : base64URLValue c with _ | w
    · simp
    · have hcw := base64URLChar_of_value c w hv
      have hne : (encodeQuanta bytes)[i]? ≠ some w := by
        intro e
        rw [hv0] at e
        simp only [Option.some.injEq] at e
        subst e
        exact hc (by rw [hget, hcw.1])
      simp only [Option.some.injEq, exists_and_left, exists_eq_left']
      by_cases hlast : i + 1 = (encodeQuanta bytes).length
      · rw [decodeQuanta_set_last _ i w v0 hlast hv0 bytes hdec]
        have hwne : w ≠ v0 := by
          intro e
          exact hne (by rw [hv0, e])
        constructor
        · rintro (⟨h1, h2⟩ | ⟨h1, h2⟩ | ⟨h1, h2⟩)
          · exact ⟨hlast, Or.inl ⟨by omega, h2⟩⟩
          · exact ⟨hlast, Or.inr ⟨by omega, h2⟩⟩
          · exact absurd h2 hwne
        · rintro ⟨_, ⟨h1, h2⟩ | ⟨h1, h2⟩⟩
          · exact Or.inl ⟨by omega, h2⟩
          · exact Or.inr (Or.inl ⟨by omega, h2⟩)
      · have hpos : i + 1 < (encodeQuanta bytes).length ∨ (encodeQuanta bytes).length % 4 = 0 :=
          Or.inl (by omega)
        have hno := decodeQuanta_set_ne _ hlt i w hi2 hne hpos bytes hdec
        constructor
        · intro e
          exact absurd e hno
        · rintro ⟨e, _⟩
          exact absurd e hlast

/-- A token whose signature segment decodes is parsed as the decoded token. -/
theorem parseTokenSegments_of_decoded (mac : MAC) (cfg : JWTConfig) (now : Int)
    (alg : String) (claims : JWTClaims) (seg : String) (signature : List Nat)
    (h : DecodeSegment seg = some signature) :
    parseTokenSegments mac cfg now (SegmentedToken.mk alg claims seg)
      = parseToken mac cfg now (TokenString.wellFormed alg claims signature) := by
  rcases hg : GetSigningMethod alg with _ | method
  · simp [parseTokenSegments, ParseWithClaimsSegments, parseToken, ParseWithClaims, hg]
  · simp [parseTokenSegments, ParseWithClaimsSegments, parseToken, hg, h]

/-- A token of a registered method whose signature segment does not decode is
malformed. -/
theorem parseTokenSegments_undecodable (mac : MAC) (cfg : JWTConfig) (now : Int)
    (alg : String) (claims : JWTClaims) (seg : String) (method : SigningMethod)
    (hg : GetSigningMethod alg = some method) (h : DecodeSegment seg = none) :
    parseTokenSegments mac cfg now (SegmentedToken.mk alg claims seg)
      = Except.error ParseError.malformed := by
  simp [parseTokenSegments, ParseWithClaimsSegments, hg, h]

/-- A decoded token of a method outside the HMAC family is unverifiable. -/
theorem parseToken_foreign_method (mac : MAC) (cfg : JWTConfig) (now : Int) (alg : String)
    (claims : JWTClaims) (signature : List Nat)
    (hm : ∀ name, GetSigningMethod alg ≠ some (SigningMethod.HMAC name)) :
    ∃ reason, parseToken mac cfg now (TokenString.wellFormed alg claims signature)
      = Except.error (ParseError.unverifiable reason) := by
  rcases hg : GetSigningMethod alg with _ | method
  · exact ⟨"signing method is unavailable", by simp [parseToken, ParseWithClaims, hg]⟩
  · cases method with
    | HMAC name => exact absurd hg (hm name)
    | _ => exact ⟨"无效的签名方法", by simp [parseToken, ParseWithClaims, hg, keyFunc]⟩

/-- A decoded token of an HMAC method whose signature is not the keyed hash under the
configured secret has an invalid signature. -/
theorem parseToken_signature_mismatch (mac : MAC) (cfg : JWTConfig) (now : Int)
    (alg : String) (claims : JWTClaims) (signature : List Nat)
    (hg : GetSigningMethod alg = some (SigningMethod.HMAC alg))
    (hsig : signature ≠ mac alg cfg.Secret (alg, claims)) :
    parseToken mac cfg now (TokenString.wellFormed alg claims signature)
      = Except.error ParseError.signatureInvalid := by
  simp [parseToken, ParseWithClaims, hg, keyFunc, SigningMethod.Verify, hsig]

/-- A decoded HS256 token that carries the keyed hash under the configured secret is
neither malformed nor of invalid signature: only its claims decide. -/
theorem parseToken_signed_cases (mac : MAC) (cfg : JWTConfig) (now : Int)
    (claims : JWTClaims) :
    parseToken mac cfg now (TokenString.wellFormed "HS256" claims
        (mac "HS256" cfg.Secret ("HS256", claims))) ≠ Except.error ParseError.malformed ∧
    parseToken mac cfg now (TokenString.wellFormed "HS256" claims
        (mac "HS256" cfg.Secret ("HS256", claims)))
      ≠ Except.error ParseError.signatureInvalid := by
  rcases hv : validateClaims now claims.Registered with ⟨e, n⟩
  cases e <;> cases n <;>
    simp [parseToken, ParseWithClaims, GetSigningMethod, keyFunc, SigningMethod.Verify, hv]

/-- An HMAC token whose signature segment does not decode to the keyed hash under the
configured secret is malformed or has an invalid signature. -/
theorem parseTokenSegments_rejects (mac : MAC) (cfg : JWTConfig) (now : Int)
    (alg : String) (claims : JWTClaims) (seg : String)
    (hg : GetSigningMethod alg = some (SigningMethod.HMAC alg))
    (hd : DecodeSegment seg ≠ some (mac alg cfg.Secret (alg, claims))) :
    parseTokenSegments mac cfg now (SegmentedToken.mk alg claims seg)
        = Except.error ParseError.malformed ∨
      parseTokenSegments mac cfg now (SegmentedToken.mk alg claims seg)
        = Except.error ParseError.signatureInvalid := by
  rcases hs : DecodeSegment seg with _ | signature
  · exact Or.inl (parseTokenSegments_undecodable mac cfg now alg claims seg _ hg hs)
  · right
    rw [parseTokenSegments_of_decoded mac cfg now alg claims seg signature hs]
    apply parseToken_signature_mismatch mac cfg now alg claims signature hg
    intro e
    exact hd (by rw [hs, e])

/-- The boolean test of agreement outside the unused low bits, spelled out. -/
theorem agreeOutsideTrailingBits_iff (n : Nat) (c c0 : Char) :
    agreeOutsideTrailingBits n c c0 = true ↔
      ∃ w w0, base64URLValue c = some w ∧ base64URLValue c0 = some w0 ∧
        ((n % 3 = 2 ∧ w / 4 = w0 / 4) ∨ (n % 3 = 1 ∧ w / 16 = w0 / 16)) := by
  unfold agreeOutsideTrailingBits
  rcases base64URLValue c with _ | w
  · simp
  · rcases base64URLValue c0 with _ | w0
    · simp
    · simp

/-- An issued token with one character of its signature segment replaced by a different
character is parsed like the issued token exactly when the character is the last of
the segment and the new character agrees with it outside the unused low bits; in
every other case the altered token is malformed or has an invalid signature. -/
theorem parseTokenSegments_altered (mac : MAC) (cfg : JWTConfig) (now : Int)
    (claims : JWTClaims) (i : Nat) (c c0 : Char)
    (hb : ∀ b ∈ mac "HS256" cfg.Secret ("HS256", claims), b < 256)
    (h0 : (signedStringHS256 mac cfg.Secret claims).signatureSegment.data[i]? = some c0)
    (hc : c ≠ c0) :
    (parseTokenSegments mac cfg now (SegmentedToken.mk "HS256" claims
          (String.mk ((signedStringHS256 mac cfg.Secret claims).signatureSegment.data.set i c)))
        = parseTokenSegments mac cfg now (signedStringHS256 mac cfg.Secret claims) ↔
      i + 1 = (signedStringHS256 mac cfg.Secret claims).signatureSegment.data.length ∧
        agreeOutsideTrailingBits (mac "HS256" cfg.Secret ("HS256", claims)).length c c0
          = true) ∧
    (parseTokenSegments mac cfg now (SegmentedToken.mk "HS256" claims
          (String.mk ((signedStringHS256 mac cfg.Secret claims).signatureSegment.data.set i c)))
        ≠ parseTokenSegments mac cfg now (signedStringHS256 mac cfg.Secret claims) →
      parseTokenSegments mac cfg now (SegmentedToken.mk "HS256" claims
          (String.mk ((signedStringHS256 mac cfg.Secret claims).signatureSegment.data.set i c)))
        = Except.error ParseError.malformed ∨
      parseTokenSegments mac cfg now (SegmentedToken.mk "HS256" claims
          (String.mk ((signedStringHS256 mac cfg.Secret claims).signatureSegment.data.set i c)))
        = Except.error ParseError.signatureInvalid) := by
  have hg : GetSigningMethod "HS256" = some (SigningMethod.HMAC "HS256") := by decide
  have hseg : (signedStringHS256 mac cfg.Secret claims).signatureSegment
      = EncodeSegment (mac "HS256" cfg.Secret ("HS256", claims)) := rfl
  rw [hseg] at h0 ⊢
  have hi : i < (EncodeSegment (mac "HS256" cfg.Secret ("HS256", claims))).data.length := by
    rcases Nat.lt_or_ge i (EncodeSegment (mac "HS256" cfg.Secret ("HS256", claims))).data.length
      with h | h
    · exact h
    · rw [List.getElem?_eq_none h] at h0
      cases h0
  have hne : (EncodeSegment (mac "HS256" cfg.Secret ("HS256", claims))).data[i]? ≠ some c := by
    rw [h0]
    intro e
    simp only [Option.some.injEq] at e
    exact hc e.symm
  have hiff := decodeSegment_set_iff _ hb i c hi hne
  rw [h0, Option.some_bind] at hiff
  have hissued : parseTokenSegments mac cfg now (signedStringHS256 mac cfg.Secret claims)
      = parseToken mac cfg now (TokenString.wellFormed "HS256" claims
          (mac "HS256" cfg.Secret ("HS256", claims))) :=
    parseTokenSegments_of_decoded mac cfg now "HS256" claims _ _
      (decodeSegment_encodeSegment _ hb)
  have hcases := parseToken_signed_cases mac cfg now claims
  rw [hissued, agreeOutsideTrailingBits_iff, ← hiff]
  by_cases hd : DecodeSegment (String.mk
      ((EncodeSegment (mac "HS256" cfg.Secret ("HS256", claims))).data.set i c))
      = some (mac "HS256" cfg.Secret ("HS256", claims))
  · have hp := parseTokenSegments_of_decoded mac cfg now "HS256" claims _ _ hd
    exact ⟨⟨fun _ => hd, fun _ => hp⟩, fun hn => absurd hp hn⟩
  · have hr := parseTokenSegments_rejects mac cfg now "HS256" claims _ hg hd
    refine ⟨⟨?_, fun e => absurd e hd⟩, fun _ => hr⟩
    intro e
    rcases hr with h | h
    · exact absurd (e.symm.trans h) hcases.1
    · exact absurd (e.symm.trans h) hcases.2

/-- Counterexample for C10: the token issued for user 7 with a 32-byte signature has a
signature segment of 43 characters ending in `A`; the token is accepted, and so is the
token whose last signature character is replaced by `B`: the decoder ignores the two
unused low bits of the last character, so both segments decode to the same bytes. -/
theorem parseToken_accepts_altered_signature_segment :
    (signedStringHS256 exampleMAC32 exampleJWTConfig.Secret exampleClaims).signatureSegment
      = "SFMyNTZzZWNyZXRzdGFyLWdvBwAAAAAAAAAAAAAAAAA" ∧
    parseTokenSegments exampleMAC32 exampleJWTConfig exampleInstant
        (signedStringHS256 exampleMAC32 exampleJWTConfig.Secret exampleClaims)
      = Except.ok exampleClaims ∧
    parseTokenSegments exampleMAC32 exampleJWTConfig exampleInstant
        (SegmentedToken.mk "HS256" exampleClaims
          "SFMyNTZzZWNyZXRzdGFyLWdvBwAAAAAAAAAAAAAAAAB")
      = Except.ok exampleClaims ∧
    ("SFMyNTZzZWNyZXRzdGFyLWdvBwAAAAAAAAAAAAAAAAB" : String)
      ≠ "SFMyNTZzZWNyZXRzdGFyLWdvBwAAAAAAAAAAAAAAAAA" ∧
    DecodeSegment "SFMyNTZzZWNyZXRzdGFyLWdvBwAAAAAAAAAAAAAAAAB"
      = DecodeSegment "SFMyNTZzZWNyZXRzdGFyLWdvBwAAAAAAAAAAAAAAAAA" := by
  refine ⟨by decide, ?_, ?_, by decide, by decide⟩
  · rfl
  · rfl

/-- C10 (amended): parseToken returns an error and no claims for every token whose header
algorithm is not an HMAC method, the key function failing for every method of another
family, and for every token of an HMAC method whose signature segment does not decode,
as unpadded URL-safe base64 with the unused low bits of the last character ignored, to
the keyed hash under the configured secret; a token whose segment decodes is parsed as
the decoded token. So a generated token with one decoded signature byte replaced is
rejected, and a generated token with one character of its signature segment replaced
by a different character is rejected unless that character is the last of the segment
and the new character agrees with it outside the unused low bits, in which case the
token is parsed like the generated one. -/
theorem parseToken_rejects_foreign_method_and_bad_signature (mac : MAC) (cfg : JWTConfig)
    (now : Int) :
    (∀ method : SigningMethod, (∀ name, method ≠ SigningMethod.HMAC name) →
      keyFunc cfg method = Except.error "无效的签名方法") ∧
    (∀ (alg : String) (claims : JWTClaims) (signature : List Nat),
      (∀ name, GetSigningMethod alg ≠ some (SigningMethod.HMAC name)) →
      ∃ reason, parseToken mac cfg now (TokenString.wellFormed alg claims signature)
        = Except.error (ParseError.unverifiable reason)) ∧
    (∀ (alg : String) (claims : JWTClaims) (seg : String),
      (∀ name, GetSigningMethod alg ≠ some (SigningMethod.HMAC name)) →
      ∃ err, parseTokenSegments mac cfg now (SegmentedToken.mk alg claims seg)
        = Except.error err) ∧
    (∀ (alg : String) (claims : JWTClaims) (signature : List Nat),
      GetSigningMethod alg = some (SigningMethod.HMAC alg) →
      signature ≠ mac alg cfg.Secret (alg, claims) →
      parseToken mac cfg now (TokenString.wellFormed alg claims signature)
        = Except.error ParseError.signatureInvalid) ∧
    (∀ (alg : String) (claims : JWTClaims) (seg : String),
      GetSigningMethod alg = some (SigningMethod.HMAC alg) →
      DecodeSegment seg ≠ some (mac alg cfg.Secret (alg, claims)) →
      parseTokenSegments mac cfg now (SegmentedToken.mk alg claims seg)
          = Except.error ParseError.malformed ∨
        parseTokenSegments mac cfg now (SegmentedToken.mk alg claims seg)
          = Except.error ParseError.signatureInvalid) ∧
    (∀ (alg : String) (claims : JWTClaims) (seg : String) (signature : List Nat),
      DecodeSegment seg = some signature →
      parseTokenSegments mac cfg now (SegmentedToken.mk alg claims seg)
        = parseToken mac cfg now (TokenString.wellFormed alg claims signature)) ∧
    (∀ (claims : JWTClaims) (i b : Nat)
      (hi : i < (mac "HS256" cfg.Secret ("HS256", claims)).length),
      (mac "HS256" cfg.Secret ("HS256", claims))[i] ≠ b →
      signHS256 mac cfg.Secret claims
        = TokenString.wellFormed "HS256" claims (mac "HS256" cfg.Secret ("HS256", claims)) ∧
      parseToken mac cfg now (TokenString.wellFormed "HS256" claims
          ((mac "HS256" cfg.Secret ("HS256", claims)).set i b))
        = Except.error ParseError.signatureInvalid) ∧
    (∀ (claims : JWTClaims) (i : Nat) (c c0 : Char),
      (∀ b ∈ mac "HS256" cfg.Secret ("HS256", claims), b < 256) →
      (signedStringHS256 mac cfg.Secret claims).signatureSegment.data[i]? = some c0 →
      c ≠ c0 →
      (parseTokenSegments mac cfg now (SegmentedToken.mk "HS256" claims
            (String.mk
              ((signedStringHS256 mac cfg.Secret claims).signatureSegment.data.set i c)))
          = parseTokenSegments mac cfg now (signedStringHS256 mac cfg.Secret claims) ↔
        i + 1 = (signedStringHS256 mac cfg.Secret claims).signatureSegment.data.length ∧
          agreeOutsideTrailingBits (mac "HS256" cfg.Secret ("HS256", claims)).length c c0
            = true) ∧
      (parseTokenSegments mac cfg now (SegmentedToken.mk "HS256" claims
            (String.mk
              ((signedStringHS256 mac cfg.Secret claims).signatureSegment.data.set i c)))
          ≠ parseTokenSegments mac cfg now (signedStringHS256 mac cfg.Secret claims) →
        parseTokenSegments mac cfg now (SegmentedToken.mk "HS256" claims
            (String.mk
              ((signedStringHS256 mac cfg.Secret claims).signatureSegment.data.set i c)))
          = Except.error ParseError.malformed ∨
        parseTokenSegments mac cfg now (SegmentedToken.mk "HS256" claims
            (String.mk
              ((signedStringHS256 mac cfg.Secret claims).signatureSegment.data.set i c)))
          = Except.error ParseError.signatureInvalid)) := by
  refine ⟨?_, ?_, ?_, ?_, ?_, ?_, ?_, ?_⟩
  · intro method hm
    cases method with
    | HMAC name => exact absurd rfl (hm name)
    | _ => rfl
  · intro alg claims signature hm
    exact parseToken_foreign_method mac cfg now alg claims signature hm
  · intro alg claims seg hm
    rcases hg : GetSigningMethod alg with _ | method
    · exact ⟨ParseError.unverifiable "signing method is unavailable",
        by simp [parseTokenSegments, ParseWithClaimsSegments, hg]⟩
    · rcases hs : DecodeSegment seg with _ | signature
      · exact ⟨ParseError.malformed,
          parseTokenSegments_undecodable mac cfg now alg claims seg method hg hs⟩
      · obtain ⟨reason, hr⟩ := parseToken_foreign_method mac cfg now alg claims signature hm
        exact ⟨ParseError.unverifiable reason,
          by rw [parseTokenSegments_of_decoded mac cfg now alg claims seg signature hs, hr]⟩
  · intro alg claims signature hg hsig
    exact parseToken_signature_mismatch mac cfg now alg claims signature hg hsig
  · intro alg claims seg hg hd
    exact parseTokenSegments_rejects mac cfg now alg claims seg hg hd
  · intro alg claims seg signature hs
    exact parseTokenSegments_of_decoded mac cfg now alg claims seg signature hs
  · intro claims i b hi hb
    refine ⟨rfl, ?_⟩
    exact parseToken_signature_mismatch mac cfg now "HS256" claims _ (by decide)
      (set_ne_of_ne _ i b hi hb)
  · intro claims i c c0 hb h0 hc
    exact parseTokenSegments_altered mac cfg now claims i c c0 hb h0 hc

/-- Witness for C10 (amended): a token that declares the algorithm `none`, and one that
declares `RS256`, are rejected whatever their claims and signature; a generated token
whose first signature byte is replaced is rejected for its signature; the generated
token of the example with the first character of its signature segment replaced by `T`
is rejected, and with the last character `A` replaced by `B` it is parsed like the
generated token. -/
theorem parseToken_rejects_foreign_method_and_bad_signature_witness :
    (∃ reason, parseToken exampleMAC exampleJWTConfig exampleInstant
        (TokenString.wellFormed "none"
          (buildClaims exampleJWTConfig 30 7 exampleInstant exampleInstant exampleInstant) [])
        = Except.error (ParseError.unverifiable reason)) ∧
    (∃ err, parseTokenSegments exampleMAC32 exampleJWTConfig exampleInstant
        (SegmentedToken.mk "RS256" exampleClaims
          "SFMyNTZzZWNyZXRzdGFyLWdvBwAAAAAAAAAAAAAAAAA")
        = Except.error err) ∧
    parseToken exampleMAC exampleJWTConfig exampleInstant
        (TokenString.wellFormed "HS256"
          (buildClaims exampleJWTConfig 30 7 exampleInstant exampleInstant exampleInstant)
          ((exampleMAC "HS256" exampleJWTConfig.Secret ("HS256",
            buildClaims exampleJWTConfig 30 7 exampleInstant exampleInstant
              exampleInstant)).set 0 0))
      = Except.error ParseError.signatureInvalid ∧
    (parseTokenSegments exampleMAC32 exampleJWTConfig exampleInstant
          (SegmentedToken.mk "HS256" exampleClaims
            (String.mk ((signedStringHS256 exampleMAC32 exampleJWTConfig.Secret
              exampleClaims).signatureSegment.data.set 0 'T')))
        = Except.error ParseError.malformed ∨
      parseTokenSegments exampleMAC32 exampleJWTConfig exampleInstant
          (SegmentedToken.mk "HS256" exampleClaims
            (String.mk ((signedStringHS256 exampleMAC32 exampleJWTConfig.Secret
              exampleClaims).signatureSegment.data.set 0 'T')))
        = Except.error ParseError.signatureInvalid) ∧
    parseTokenSegments exampleMAC32 exampleJWTConfig exampleInstant
        (SegmentedToken.mk "HS256" exampleClaims
          (String.mk ((signedStringHS256 exampleMAC32 exampleJWTConfig.Secret
            exampleClaims).signatureSegment.data.set 42 'B')))
      = parseTokenSegments exampleMAC32 exampleJWTConfig exampleInstant
          (signedStringHS256 exampleMAC32 exampleJWTConfig.Secret exampleClaims) :=
  ⟨(parseToken_rejects_foreign_method_and_bad_signature exampleMAC exampleJWTConfig
      exampleInstant).2.1 "none" _ []
      (by intro name h; simp [GetSigningMethod] at h),
   (parseToken_rejects_foreign_method_and_bad_signature exampleMAC32 exampleJWTConfig
      exampleInstant).2.2.1 "RS256" _ _
      (by intro name h; simp [GetSigningMethod] at h),
   ((parseToken_rejects_foreign_method_and_bad_signature exampleMAC exampleJWTConfig
      exampleInstant).2.2.2.2.2.2.1
      (buildClaims exampleJWTConfig 30 7 exampleInstant exampleInstant exampleInstant)
      0 0 (by decide) (by decide)).2,
   ((parseToken_rejects_foreign_method_and_bad_signature exampleMAC32 exampleJWTConfig
      exampleInstant).2.2.2.2.2.2.2 exampleClaims 0 'T' 'S' (by decide) (by decide)
      (by decide)).2
      (fun e =>
        absurd
          ((((parseToken_rejects_foreign_method_and_bad_signature exampleMAC32
            exampleJWTConfig exampleInstant).2.2.2.2.2.2.2 exampleClaims 0 'T' 'S'
            (by decide) (by decide) (by decide)).1.mp e).1)
          (by decide)),
   ((parseToken_rejects_foreign_method_and_bad_signature exampleMAC32 exampleJWTConfig
      exampleInstant).2.2.2.2.2.2.2 exampleClaims 42 'B' 'A' (by decide) (by decide)
      (by decide)).1.mpr ⟨by decide, by decide⟩⟩

/-- A token issued by GenerateAccessToken parses inside its window. -/
theorem parseToken_generateAccessToken_ok (mac : MAC) (cfg : JWTConfig) (u : Nat)
    (t0 t : Int) (h1 : NewNumericDate t0 ≤ t)
    (h2 : t < NewNumericDate (t0 + wrap64 (cfg.AccessTokenExp * Minute))) :
    parseToken mac cfg t (GenerateAccessToken mac cfg u t0 t0 t0).1
      = Except.ok (buildClaims cfg cfg.AccessTokenExp u t0 t0 t0) := by
  have hv := validateClaims_window t (NewNumericDate t0)
    (NewNumericDate (t0 + wrap64 (cfg.AccessTokenExp * Minute))) cfg.TokenIssuer "" []
    (some (NewNumericDate t0)) ""
  have h1b : ¬ t < NewNumericDate t0 := by omega
  have h2b : ¬ NewNumericDate (t0 + wrap64 (cfg.AccessTokenExp * Minute)) ≤ t := by omega
  simp [parseToken, ParseWithClaims, GenerateAccessToken, signHS256,
    GetSigningMethod, keyFunc, SigningMethod.Verify, buildClaims, hv, h1b, h2b]

/-- C11: ParseRefreshToken and ParseAccessToken return the same result on every token
string; RefreshToken therefore succeeds for an unexpired token issued by
GenerateAccessToken when the user is found and active; and whenever RefreshToken
succeeds, the one token it returns is the output of GenerateAccessToken for the id of
the user found under the UserID of the presented claims. -/
theorem refreshToken_accepts_access_tokens {σ : Type} (mac : MAC) (cfg : JWTConfig)
    (userRepo : IUserRepository σ) (now now1 now2 now3 : Int) (db : σ) :
    (∀ tokenString : TokenString,
      ParseRefreshToken mac cfg now tokenString = ParseAccessToken mac cfg now tokenString) ∧
    (∀ (u : Nat) (t0 : Int) (user : User) (db1 : σ),
      NewNumericDate t0 ≤ now →
      now < NewNumericDate (t0 + wrap64 (cfg.AccessTokenExp * Minute)) →
      userRepo.FindByID u db = ((some user, none), db1) → user.IsActive = true →
      AuthService.RefreshToken mac cfg userRepo now now1 now2 now3
          (GenerateAccessToken mac cfg u t0 t0 t0).1 db
        = (GoCall.returned ((GenerateAccessToken mac cfg user.ID now1 now2 now3).1, none),
            db1)) ∧
    (∀ (tokenString newToken : TokenString) (db1 : σ),
      AuthService.RefreshToken mac cfg userRepo now now1 now2 now3 tokenString db
        = (GoCall.returned (newToken, none), db1) →
      ∃ claims user, ParseRefreshToken mac cfg now tokenString = Except.ok claims ∧
        userRepo.FindByID claims.UserID db = ((some user, none), db1) ∧
        user.IsActive = true ∧
        newToken = (GenerateAccessToken mac cfg user.ID now1 now2 now3).1 ∧
        (user.ID = claims.UserID →
          newToken = (GenerateAccessToken mac cfg claims.UserID now1 now2 now3).1)) := by
  refine ⟨fun _ => rfl, ?_, ?_⟩
  · intro u t0 user db1 h1 h2 hfind hact
    have hp := parseToken_generateAccessToken_ok mac cfg u t0 now h1 h2
    have hu : (buildClaims cfg cfg.AccessTokenExp u t0 t0 t0).UserID = u := rfl
    simp only [AuthService.RefreshToken, ParseRefreshToken, hp, hu, hfind, hact]
    simp [GenerateAccessToken]
  · intro tokenString newToken db1 h
    simp only [AuthService.RefreshToken] at h
    rcases hp : ParseRefreshToken mac cfg now tokenString with err | claims
    · simp [hp] at h
    · rcases hf : userRepo.FindByID claims.UserID db with ⟨⟨u, e⟩, db2⟩
      cases e with
      | some err => simp [hp, hf] at h
      | none =>
        cases u with
        | none => simp [hp, hf] at h
        | some user =>
          cases hact : user.IsActive with
          | false => simp [hp, hf, hact] at h
          | true =>
            simp [hp, hf, hact, GenerateAccessToken] at h
            obtain ⟨h1, h2⟩ := h
            subst h2
            refine ⟨claims, user, rfl, hf, hact, ?_, ?_⟩
            · simp [GenerateAccessToken, h1]
            · intro hid
              simp [GenerateAccessToken, ← h1, hid]

/-- Witness for C11: user 1 of the example table is active; an access token issued at the
example instant is presented to RefreshToken one minute later and a new access token
for user 1 is returned. -/
theorem refreshToken_accepts_access_tokens_witness :
    AuthService.RefreshToken exampleMAC exampleJWTConfig (tableRepo tableA)
        (exampleInstant + Minute) (exampleInstant + Minute) (exampleInstant + Minute)
        (exampleInstant + Minute)
        (GenerateAccessToken exampleMAC exampleJWTConfig 1 exampleInstant exampleInstant
          exampleInstant).1 0
      = (GoCall.returned
          ((GenerateAccessToken exampleMAC exampleJWTConfig
              (userWithRole 1 "user" ["a"]).ID (exampleInstant + Minute)
              (exampleInstant + Minute) (exampleInstant + Minute)).1, none), 1) :=
  (refreshToken_accepts_access_tokens exampleMAC exampleJWTConfig (tableRepo tableA)
      (exampleInstant + Minute) (exampleInstant + Minute) (exampleInstant + Minute)
      (exampleInstant + Minute) 0).2.1 1 exampleInstant (userWithRole 1 "user" ["a"]) 1
    (by decide) (by decide) (by decide) (by decide)
/-- Truncation to whole seconds keeps a gap of at least one second strict. -/
theorem newNumericDate_lt_of_add_second_le (a b : Int) (h : a + 1000000000 ≤ b) :
    NewNumericDate a < NewNumericDate b := by
  unfold NewNumericDate
  omega

/-- A duration inside the 64-bit range is not changed by 64-bit arithmetic. -/
theorem wrap64_of_range (x : Int) (h1 : -9223372036854775808 ≤ x)
    (h2 : x < 9223372036854775808) : wrap64 x = x := by
  unfold wrap64
  norm_num
  omega

/-- Counterexample for C12: with a configured refresh lifetime equal to the access
lifetime the two expiries coincide, so the refresh expiry is not strictly later; and at
an instant that is not a whole second the issued-at and not-before claims are the
instant truncated to the second, not the instant. -/
theorem refresh_expiry_not_later_for_equal_lifetimes :
    (buildClaims equalLifetimesConfig equalLifetimesConfig.RefreshTokenExp 7 exampleInstant
        exampleInstant exampleInstant).Registered.ExpiresAt
      = (buildClaims equalLifetimesConfig equalLifetimesConfig.AccessTokenExp 7
          exampleInstant exampleInstant exampleInstant).Registered.ExpiresAt ∧
    (GenerateRefreshToken exampleMAC equalLifetimesConfig 7 exampleInstant exampleInstant
        exampleInstant).1
      = (GenerateAccessToken exampleMAC equalLifetimesConfig 7 exampleInstant exampleInstant
          exampleInstant).1 ∧
    (buildClaims exampleJWTConfig exampleJWTConfig.AccessTokenExp 7
        (exampleInstant + 500000000) (exampleInstant + 500000000)
        (exampleInstant + 500000000)).Registered.IssuedAt = some exampleInstant ∧
    (buildClaims exampleJWTConfig exampleJWTConfig.AccessTokenExp 7
        (exampleInstant + 500000000) (exampleInstant + 500000000)
        (exampleInstant + 500000000)).Registered.IssuedAt
      ≠ some (exampleInstant + 500000000) := by
  refine ⟨by decide, by decide, by decide, by decide⟩

/-- C12 (amended): the claims built by GenerateAccessToken and GenerateRefreshToken for user
`u` at one instant `now` have UserID `u`, empty username and role, the configured
issuer, and issued-at and not-before equal to `now` truncated to whole seconds; they
differ only in the expiry, which is `now` plus the access lifetime, respectively the
refresh lifetime, in minutes, truncated to whole seconds; the refresh expiry is strictly
later when the configured refresh lifetime exceeds the access lifetime and both
lifetimes fit the 64-bit duration. -/
theorem generateToken_claims (mac : MAC) (cfg : JWTConfig) (u : Nat) (now : Int) :
    (GenerateAccessToken mac cfg u now now now).1
      = signHS256 mac cfg.Secret
          (JWTClaims.mk u "" "" (RegisteredClaims.mk cfg.TokenIssuer "" []
            (some (NewNumericDate (now + wrap64 (cfg.AccessTokenExp * Minute))))
            (some (NewNumericDate now)) (some (NewNumericDate now)) "")) ∧
    (GenerateRefreshToken mac cfg u now now now).1
      = signHS256 mac cfg.Secret
          (JWTClaims.mk u "" "" (RegisteredClaims.mk cfg.TokenIssuer "" []
            (some (NewNumericDate (now + wrap64 (cfg.RefreshTokenExp * Minute))))
            (some (NewNumericDate now)) (some (NewNumericDate now)) "")) ∧
    (cfg.AccessTokenExp < cfg.RefreshTokenExp →
      -153722867 ≤ cfg.AccessTokenExp → cfg.RefreshTokenExp ≤ 153722867 →
      NewNumericDate (now + wrap64 (cfg.AccessTokenExp * Minute))
        < NewNumericDate (now + wrap64 (cfg.RefreshTokenExp * Minute))) := by
  refine ⟨rfl, rfl, ?_⟩
  intro hlt hlo hhi
  have ha : wrap64 (cfg.AccessTokenExp * Minute) = cfg.AccessTokenExp * Minute := by
    apply wrap64_of_range <;> (unfold Minute; omega)
  have hr : wrap64 (cfg.RefreshTokenExp * Minute) = cfg.RefreshTokenExp * Minute := by
    apply wrap64_of_range <;> (unfold Minute; omega)
  rw [ha, hr]
  apply newNumericDate_lt_of_add_second_le
  unfold Minute
  omega

/-- Witness for C12 (amended): with 30 minutes of access lifetime and 7 days of refresh
lifetime the refresh expiry is strictly later than the access expiry. -/
theorem generateToken_claims_witness :
    NewNumericDate (exampleInstant + wrap64 (exampleJWTConfig.AccessTokenExp * Minute))
      < NewNumericDate (exampleInstant + wrap64 (exampleJWTConfig.RefreshTokenExp * Minute)) :=
  (generateToken_claims exampleMAC exampleJWTConfig 7 exampleInstant).2.2
    (by decide) (by decide) (by decide)

/-- The cut at the first space finds the space that follows a space-free prefix. -/
theorem splitAtSpace_append (a b : List Char) (ha : ' ' ∉ a) :
    splitAtSpace (a ++ ' ' :: b) = some (a, b) := by
  induction a with
  | nil => simp [splitAtSpace]
  | cons x xs ih =>
    simp only [List.mem_cons, not_or] at ha
    have hx : ¬ x = ' ' := fun h => ha.1 h.symm
    simp [splitAtSpace, hx, ih ha.2]

/-- A cut at the first space decomposes the list around that space. -/
theorem splitAtSpace_some (l a b : List Char) (h : splitAtSpace l = some (a, b)) :
    l = a ++ ' ' :: b := by
  induction l generalizing a with
  | nil => simp [splitAtSpace] at h
  | cons x xs ih =>
    by_cases hx : x = ' '
    · simp [splitAtSpace, hx] at h
      obtain ⟨h1, h2⟩ := h
      subst h1 h2 hx
      rfl
    · rcases hs : splitAtSpace xs with _ | ⟨a1, b1⟩
      · simp [splitAtSpace, hx, hs] at h
      · simp [splitAtSpace, hx, hs] at h
        obtain ⟨h1, h2⟩ := h
        subst h1 h2
        simp [ih a1 hs]

/-- SplitN gives the two parts `Bearer` and a remainder exactly for the headers that are
the word `Bearer`, one space and the remainder. -/
theorem splitN2_bearer_iff (h rest : String) :
    SplitN2 h = ["Bearer", rest] ↔ h = "Bearer " ++ rest := by
  constructor
  · intro hs
    unfold SplitN2 at hs
    rcases hc : splitAtSpace h.data with _ | ⟨a, b⟩
    · simp [hc] at hs
    · simp only [hc, List.cons.injEq, and_true] at hs
      obtain ⟨h1, h2⟩ := hs
      have hd := splitAtSpace_some h.data a b hc
      apply String.ext
      rw [hd, String.data_append, ← h2]
      have ha : a = "Bearer".data := by rw [← h1]
      rw [ha]
      rfl
  · intro hh
    subst hh
    have hd : ("Bearer " ++ rest).data = "Bearer".data ++ ' ' :: rest.data := by
      rw [String.data_append]; rfl
    have hsp : splitAtSpace ("Bearer " ++ rest).data = some ("Bearer".data, rest.data) := by
      rw [hd]
      exact splitAtSpace_append _ _ (by decide)
    unfold SplitN2
    rw [hsp]

/-- C13: JWTAuth rejects an empty header as a missing credential; a non-empty header that
is not the word `Bearer`, one space and a remainder as a malformed credential; a
remainder that fails ParseAccessToken as unauthenticated with the text of the parse
error; otherwise it binds `userID` to the UserID of the claims and calls the next
handler. Every rejection is an abort with status 401 that leaves the context as it
was. -/
theorem jwtAuth_classifies (mac : MAC) (cfg : JWTConfig) (decode : String → TokenString)
    (errorText : ParseError → String) (now : Int) (h : String) (c : Context) :
    (h = "" →
      JWTAuth mac cfg decode errorText now h c = (Outcome.abort 401 401 "未提供认证令牌", c)) ∧
    (h ≠ "" → (¬ ∃ rest, SplitN2 h = ["Bearer", rest]) →
      JWTAuth mac cfg decode errorText now h c = (Outcome.abort 401 401 msgBadAuthFormat, c)) ∧
    (∀ rest, SplitN2 h = ["Bearer", rest] ↔ h = "Bearer " ++ rest) ∧
    (∀ rest err, h = "Bearer " ++ rest →
      ParseAccessToken mac cfg now (decode rest) = Except.error err →
      JWTAuth mac cfg decode errorText now h c
        = (Outcome.abort 401 401 ("无效的认证令牌: " ++ errorText err), c)) ∧
    (∀ rest claims, h = "Bearer " ++ rest →
      ParseAccessToken mac cfg now (decode rest) = Except.ok claims →
      JWTAuth mac cfg decode errorText now h c
        = (Outcome.next, Context.mk (some claims.UserID) (some claims.Username))) ∧
    ((JWTAuth mac cfg decode errorText now h c).1 = Outcome.next ∨
      (∃ msg, JWTAuth mac cfg decode errorText now h c = (Outcome.abort 401 401 msg, c))) := by
  have hne : ∀ rest : String, "Bearer " ++ rest ≠ "" := by
    intro rest hh
    have := congrArg String.length hh
    simp only [String.length_append] at this
    have h7 : "Bearer ".length = 7 := by decide
    have h0 : "".length = 0 := by decide
    omega
  refine ⟨?_, ?_, fun rest => splitN2_bearer_iff h rest, ?_, ?_, ?_⟩
  · intro hh
    simp [JWTAuth, hh]
  · intro hh hno
    simp only [JWTAuth, hh, if_false]
    split
    · rename_i scheme token hs
      by_cases hb : scheme = "Bearer"
      · subst hb
        exact absurd ⟨token, hs⟩ hno
      · simp [hb]
    · rfl
  · intro rest err hh hp
    have hs := (splitN2_bearer_iff h rest).mpr hh
    subst hh
    simp [JWTAuth, hne rest, hs, hp]
  · intro rest claims hh hp
    have hs := (splitN2_bearer_iff h rest).mpr hh
    subst hh
    simp [JWTAuth, hne rest, hs, hp]
  · unfold JWTAuth
    split
    · exact Or.inr ⟨_, rfl⟩
    · split
      · split
        · exact Or.inr ⟨_, rfl⟩
        · split
          · exact Or.inr ⟨_, rfl⟩
          · exact Or.inl rfl
      · exact Or.inr ⟨_, rfl⟩

/-- Witness for C13: an absent header, a header with another scheme, a bearer header with
an undecodable token, and a bearer header with the token of user 7. -/
theorem jwtAuth_classifies_witness :
    JWTAuth exampleMAC exampleJWTConfig exampleDecode exampleErrorText exampleInstant ""
        (Context.mk none none)
      = (Outcome.abort 401 401 "未提供认证令牌", Context.mk none none) ∧
    JWTAuth exampleMAC exampleJWTConfig exampleDecode exampleErrorText exampleInstant
        "Basic abc" (Context.mk none none)
      = (Outcome.abort 401 401 msgBadAuthFormat, Context.mk none none) ∧
    JWTAuth exampleMAC exampleJWTConfig exampleDecode exampleErrorText exampleInstant
        "Bearer bad" (Context.mk none none)
      = (Outcome.abort 401 401 ("无效的认证令牌: " ++ exampleErrorText ParseError.malformed),
          Context.mk none none) ∧
    JWTAuth exampleMAC exampleJWTConfig exampleDecode exampleErrorText exampleInstant
        "Bearer good" (Context.mk none none)
      = (Outcome.next, Context.mk (some 7) (some "")) :=
  ⟨(jwtAuth_classifies exampleMAC exampleJWTConfig exampleDecode exampleErrorText
      exampleInstant "" (Context.mk none none)).1 rfl,
   (jwtAuth_classifies exampleMAC exampleJWTConfig exampleDecode exampleErrorText
      exampleInstant "Basic abc" (Context.mk none none)).2.1 (by decide)
      (by
        rintro ⟨rest, hr⟩
        have hs : SplitN2 "Basic abc" = ["Basic", "abc"] := by decide
        rw [hs] at hr
        simp at hr),
   (jwtAuth_classifies exampleMAC exampleJWTConfig exampleDecode exampleErrorText
      exampleInstant "Bearer bad" (Context.mk none none)).2.2.2.1 "bad" ParseError.malformed
      rfl rfl,
   (jwtAuth_classifies exampleMAC exampleJWTConfig exampleDecode exampleErrorText
      exampleInstant "Bearer good" (Context.mk none none)).2.2.2.2.1 "good"
      (buildClaims exampleJWTConfig exampleJWTConfig.AccessTokenExp 7 exampleInstant
        exampleInstant exampleInstant) rfl rfl⟩

/-! ## Theorems: one-time-code cache, single steps -/

/-- INCR leaves every other key as it was. -/
theorem incr_other (s : Redis) (now : Nat) (key k : String) (hk : k ≠ key) :
    (Redis.Incr s now key) k = s k := by
  unfold Redis.Incr
  rcases hl : Redis.live s now key with _ | e
  · simp [hk]
  · rcases ho : e.value.incrOperand with _ | n
    · simp only [ho]
    · by_cases hb : (2 : Int) ^ 63 ≤ n + 1
      · simp only [ho, hb, if_true]
      · simp only [ho, hb, if_false]
        simp [hk]

/-- A GET of another key is not affected by INCR. -/
theorem get_after_incr_other (s : Redis) (now now1 : Nat) (key k : String) (hk : k ≠ key) :
    Redis.Get (Redis.Incr s now key) now1 k = Redis.Get s now1 k := by
  simp [Redis.Get, Redis.live, incr_other s now key k hk]

/-- The conversion error of a counter read is not the too-many-attempts error. -/
theorem getInt_error_ne_tooMany (s : Redis) (now : Nat) (key msg : String)
    (h : Redis.GetInt s now key = Except.error (some msg)) : msg ≠ errTooManyAttempts := by
  unfold Redis.GetInt at h
  split at h
  · simp at h
  · split at h
    · simp at h
    · simp only [Except.error.injEq, Option.some.injEq] at h
      intro hm
      rw [← h] at hm
      have hd := congrArg String.data hm
      rw [String.data_append] at hd
      have h1 : "strconv.Atoi: parsing ".data = 's' :: "trconv.Atoi: parsing ".data := rfl
      have h2 : errTooManyAttempts.data = '验' :: "证次数过多，请重新获取".data := rfl
      rw [h1, h2] at hd
      simp at hd

/-- Verify on a counter read above the maximum fails with the too-many-attempts error and
returns the keyspace it was given. -/
theorem verify_of_read_above (r : RedisCodeCache) (now : Nat) (biz phone code : String)
    (s : Redis) (n : Int) (hread : attemptsRead s now biz phone = some n)
    (hn : r.maxAttempts < n) :
    RedisCodeCache.Verify r now biz phone code s = ((false, some errTooManyAttempts), s) := by
  unfold attemptsRead at hread
  have hn2 : n > r.maxAttempts := hn
  rcases hg : Redis.GetInt s now (generateAttemptsKey biz phone) with e | m
  · cases e with
    | none =>
      simp [hg] at hread
      subst hread
      simp [RedisCodeCache.Verify, hg, hn2]
    | some msg => simp [hg] at hread
  · simp [hg] at hread
    subst hread
    simp [RedisCodeCache.Verify, hg, hn2]

/-- Verify on a counter read at most the maximum increments the counter and then reads
the code from the incremented keyspace: absent code, mismatch, or match with both
entries deleted. -/
theorem verify_of_read_within (r : RedisCodeCache) (now : Nat) (biz phone code : String)
    (s : Redis) (n : Int) (hread : attemptsRead s now biz phone = some n)
    (hn : n ≤ r.maxAttempts) :
    RedisCodeCache.Verify r now biz phone code s =
      (match Redis.Get s now (generateSMSKey biz phone) with
       | none => ((false, some errCodeExpired),
           Redis.Incr s now (generateAttemptsKey biz phone))
       | some storeCode =>
         if storeCode != code then
           ((false, some errCodeMismatch), Redis.Incr s now (generateAttemptsKey biz phone))
         else
           ((true, none),
             Redis.Del (Redis.Del (Redis.Incr s now (generateAttemptsKey biz phone))
               (generateSMSKey biz phone)) (generateAttemptsKey biz phone))) := by
  unfold attemptsRead at hread
  have hn2 : ¬ n > r.maxAttempts := by omega
  have hget := get_after_incr_other s now now (generateAttemptsKey biz phone)
    (generateSMSKey biz phone) (generateSMSKey_ne_generateAttemptsKey biz phone)
  rcases hg : Redis.GetInt s now (generateAttemptsKey biz phone) with e | m
  · cases e with
    | none =>
      simp [hg] at hread
      subst hread
      simp only [RedisCodeCache.Verify, hg, hget]
      simp [hn2]
    | some msg => simp [hg] at hread
  · simp [hg] at hread
    subst hread
    simp only [RedisCodeCache.Verify, hg, hget]
    simp [hn2]

/-- Verify with an unreadable counter returns the conversion error and the keyspace it
was given. -/
theorem verify_of_unreadable (r : RedisCodeCache) (now : Nat) (biz phone code : String)
    (s : Redis) (hread : attemptsRead s now biz phone = none) :
    ∃ msg, msg ≠ errTooManyAttempts ∧
      RedisCodeCache.Verify r now biz phone code s = ((false, some msg), s) := by
  unfold attemptsRead at hread
  rcases hg : Redis.GetInt s now (generateAttemptsKey biz phone) with e | m
  · cases e with
    | none => simp [hg] at hread
    | some msg =>
      exact ⟨msg, getInt_error_ne_tooMany s now _ msg hg, by simp [RedisCodeCache.Verify, hg]⟩
  · simp [hg] at hread
/-- Verify on a key whose code and counter are both absent or expired, under a
non-negative maximum: the code-expired error, and the counter is created with value 1
and no deadline. -/
theorem verify_absent (r : RedisCodeCache) (now : Nat) (biz phone code : String) (s : Redis)
    (hk : Redis.live s now (generateSMSKey biz phone) = none)
    (ha : Redis.live s now (generateAttemptsKey biz phone) = none)
    (hmax : 0 ≤ r.maxAttempts) :
    RedisCodeCache.Verify r now biz phone code s
      = ((false, some errCodeExpired),
          fun k => if k = generateAttemptsKey biz phone then
            some (RedisEntry.mk (RedisValue.int 1) none) else s k) := by
  have hread : attemptsRead s now biz phone = some 0 := by
    simp [attemptsRead, Redis.GetInt, ha]
  have hget : Redis.Get s now (generateSMSKey biz phone) = none := by
    simp [Redis.Get, hk]
  rw [verify_of_read_within r now biz phone code s 0 hread hmax, hget]
  simp [Redis.Incr, ha]

/-- C14: on a key that holds the code `c` and a counter read not above the maximum,
Verify with `c` succeeds, deletes the code entry and the counter entry and leaves every
other key as it was; a following Verify on the same key, at any instant and with any
code, fails with the code-expired error. -/
theorem verify_single_use (r : RedisCodeCache) (now now2 : Nat) (biz phone c x : String)
    (s : Redis) (n : Int)
    (hcode : Redis.Get s now (generateSMSKey biz phone) = some c)
    (hread : attemptsRead s now biz phone = some n) (hn : n ≤ r.maxAttempts)
    (hmax : 0 ≤ r.maxAttempts) :
    (RedisCodeCache.Verify r now biz phone c s).1 = (true, none) ∧
    (RedisCodeCache.Verify r now biz phone c s).2 (generateSMSKey biz phone) = none ∧
    (RedisCodeCache.Verify r now biz phone c s).2 (generateAttemptsKey biz phone) = none ∧
    (∀ k, k ≠ generateSMSKey biz phone → k ≠ generateAttemptsKey biz phone →
      (RedisCodeCache.Verify r now biz phone c s).2 k = s k) ∧
    (RedisCodeCache.Verify r now2 biz phone x
        (RedisCodeCache.Verify r now biz phone c s).2).1 = (false, some errCodeExpired) ∧
    (RedisCodeCache.Verify r now2 biz phone x
        (RedisCodeCache.Verify r now biz phone c s).2).1 ≠ (false, some errCodeMismatch) := by
  have hne := generateSMSKey_ne_generateAttemptsKey biz phone
  have hv := verify_of_read_within r now biz phone c s n hread hn
  rw [hcode] at hv
  simp only [bne_self_eq_false, Bool.false_eq_true, if_false] at hv
  have h1 : (RedisCodeCache.Verify r now biz phone c s).2 (generateSMSKey biz phone) = none := by
    rw [hv]; simp [Redis.Del, hne]
  have h2 : (RedisCodeCache.Verify r now biz phone c s).2 (generateAttemptsKey biz phone)
      = none := by
    rw [hv]; simp [Redis.Del]
  have h3 := verify_absent r now2 biz phone x (RedisCodeCache.Verify r now biz phone c s).2
    (by simp [Redis.live, h1]) (by simp [Redis.live, h2]) hmax
  refine ⟨by rw [hv], h1, h2, ?_, by rw [h3], ?_⟩
  · intro k hk1 hk2
    rw [hv]
    simp [Redis.Del, hk1, hk2, incr_other s now _ k hk2]
  · rw [h3]
    intro hc
    have hm : errCodeExpired ≠ errCodeMismatch := by decide
    simp only [Prod.mk.injEq, Option.some.injEq, true_and] at hc
    exact hm hc

/-- Witness for C14: after Set, a Verify with the stored code succeeds and the next Verify
with the same code fails with the code-expired error. -/
theorem verify_single_use_witness :
    (RedisCodeCache.Verify NewRedisCodeCache 1 "login" "13800000000" "123456"
      (RedisCodeCache.Set NewRedisCodeCache 0 "login" "13800000000" "123456"
        Redis.empty).2).1 = (true, none) ∧
    (RedisCodeCache.Verify NewRedisCodeCache 2 "login" "13800000000" "123456"
      (RedisCodeCache.Verify NewRedisCodeCache 1 "login" "13800000000" "123456"
        (RedisCodeCache.Set NewRedisCodeCache 0 "login" "13800000000" "123456"
          Redis.empty).2).2).1 = (false, some errCodeExpired) :=
  ⟨(verify_single_use NewRedisCodeCache 1 2 "login" "13800000000" "123456" "123456"
      (RedisCodeCache.Set NewRedisCodeCache 0 "login" "13800000000" "123456" Redis.empty).2
      0 (by decide) (by decide) (by decide) (by decide)).1,
   (verify_single_use NewRedisCodeCache 1 2 "login" "13800000000" "123456" "123456"
      (RedisCodeCache.Set NewRedisCodeCache 0 "login" "13800000000" "123456" Redis.empty).2
      0 (by decide) (by decide) (by decide) (by decide)).2.2.2.2.1⟩

/-- Counterexample for C15: on the empty keyspace, five Verify calls in a row on a key
that was never set give the code-expired error four times and then the
too-many-attempts error; the same happens on a key whose code and counter were set and
have expired. -/
theorem verify_on_absent_key_locks_out :
    (verifyAll NewRedisCodeCache "login" "13800000000"
        [(1, "123456"), (2, "123456"), (3, "123456"), (4, "123456"), (5, "123456")]
        Redis.empty).1
      = [(false, some errCodeExpired), (false, some errCodeExpired),
         (false, some errCodeExpired), (false, some errCodeExpired),
         (false, some errTooManyAttempts)] ∧
    (verifyAll NewRedisCodeCache "login" "13800000000"
        [(10000, "123456"), (10001, "123456"), (10002, "123456"), (10003, "123456"),
         (10004, "123456")]
        (RedisCodeCache.Set NewRedisCodeCache 0 "login" "13800000000" "123456"
          Redis.empty).2).1
      = [(false, some errCodeExpired), (false, some errCodeExpired),
         (false, some errCodeExpired), (false, some errCodeExpired),
         (false, some errTooManyAttempts)] := by
  decide

/-- C15 (amended): on a key whose code is absent or expired, a Verify call fails with the
code-expired error, whatever code it supplies, when the counter it reads, an absent
counter reading as 0, is at most maxAttempts, and with the too-many-attempts error when
that counter is above maxAttempts; so the first call on a key whose counter is absent
too fails with the code-expired error under a non-negative maximum. -/
theorem verify_without_code (r : RedisCodeCache) (now : Nat) (biz phone code : String)
    (s : Redis) (n : Int)
    (hcode : Redis.Get s now (generateSMSKey biz phone) = none)
    (hread : attemptsRead s now biz phone = some n) :
    (n ≤ r.maxAttempts →
      (RedisCodeCache.Verify r now biz phone code s).1 = (false, some errCodeExpired)) ∧
    (r.maxAttempts < n →
      (RedisCodeCache.Verify r now biz phone code s).1 = (false, some errTooManyAttempts)) ∧
    (Redis.live s now (generateAttemptsKey biz phone) = none → n = 0) := by
  refine ⟨?_, ?_, ?_⟩
  · intro hn
    rw [verify_of_read_within r now biz phone code s n hread hn, hcode]
  · intro hn
    rw [verify_of_read_above r now biz phone code s n hread hn]
  · intro ha
    simp [attemptsRead, Redis.GetInt, ha] at hread
    exact hread.symm

/-- Witness for C15 (amended): the first Verify on a key of the empty keyspace fails with
the code-expired error. -/
theorem verify_without_code_witness :
    (RedisCodeCache.Verify NewRedisCodeCache 1 "login" "13800000000" "123456"
      Redis.empty).1 = (false, some errCodeExpired) :=
  (verify_without_code NewRedisCodeCache 1 "login" "13800000000" "123456" Redis.empty 0
    (by decide) (by decide)).1 (by decide)

/-- C16 (defect): one Verify on a key of the empty keyspace leaves a counter entry with
value 1 and no deadline although the key has no code entry; after Set and expiry a
Verify leaves the key with a live counter without deadline and no live code. -/
theorem verify_creates_counter_without_code :
    (RedisCodeCache.Verify NewRedisCodeCache 1 "login" "13800000000" "123456"
        Redis.empty).2 (generateSMSKey "login" "13800000000") = none ∧
    (RedisCodeCache.Verify NewRedisCodeCache 1 "login" "13800000000" "123456"
        Redis.empty).2 (generateAttemptsKey "login" "13800000000")
      = some (RedisEntry.mk (RedisValue.int 1) none) ∧
    Redis.live
        (RedisCodeCache.Verify NewRedisCodeCache 10000 "login" "13800000000" "123456"
          (RedisCodeCache.Set NewRedisCodeCache 0 "login" "13800000000" "123456"
            Redis.empty).2).2
        10000 (generateSMSKey "login" "13800000000") = none ∧
    Redis.live
        (RedisCodeCache.Verify NewRedisCodeCache 10000 "login" "13800000000" "123456"
          (RedisCodeCache.Set NewRedisCodeCache 0 "login" "13800000000" "123456"
            Redis.empty).2).2
        10000 (generateAttemptsKey "login" "13800000000")
      = some (RedisEntry.mk (RedisValue.int 1) none) := by
  decide
/-- C17: Verify fails with the too-many-attempts error exactly when the counter it reads,
an absent counter reading as 0, is strictly greater than maxAttempts; it then returns
the keyspace it was given, so that no entry and no deadline has changed. -/
theorem verify_tooMany_iff (r : RedisCodeCache) (now : Nat) (biz phone code : String)
    (s : Redis) :
    ((RedisCodeCache.Verify r now biz phone code s).1 = (false, some errTooManyAttempts) ↔
      ∃ n, attemptsRead s now biz phone = some n ∧ r.maxAttempts < n) ∧
    ((RedisCodeCache.Verify r now biz phone code s).1 = (false, some errTooManyAttempts) →
      (RedisCodeCache.Verify r now biz phone code s).2 = s) := by
  have hE : errCodeExpired ≠ errTooManyAttempts := by decide
  have hM : errCodeMismatch ≠ errTooManyAttempts := by decide
  rcases hread : attemptsRead s now biz phone with _ | n
  · obtain ⟨msg, hmsg, hv⟩ := verify_of_unreadable r now biz phone code s hread
    rw [hv]
    simp [hmsg]
  · by_cases hn : r.maxAttempts < n
    · rw [verify_of_read_above r now biz phone code s n hread hn]
      simp [hn]
    · have hv := verify_of_read_within r now biz phone code s n hread (by omega)
      have hno : (RedisCodeCache.Verify r now biz phone code s).1
          ≠ (false, some errTooManyAttempts) := by
        rw [hv]
        rcases Redis.Get s now (generateSMSKey biz phone) with _ | storeCode
        · simp [hE]
        · by_cases hcmp : storeCode = code
          · simp [hcmp]
          · simp [hcmp, hM]
      refine ⟨⟨fun h => absurd h hno, ?_⟩, fun h => absurd h hno⟩
      rintro ⟨m, hm1, hm2⟩
      simp only [Option.some.injEq] at hm1
      subst hm1
      exact absurd hm2 hn

/-- Witness for C17: on the key whose counter is 4 under the maximum 3, Verify with the
stored code fails with the too-many-attempts error and returns the keyspace unchanged. -/
theorem verify_tooMany_iff_witness :
    (RedisCodeCache.Verify NewRedisCodeCache 5 "login" "13800000000" "123456"
        lockedStore).1 = (false, some errTooManyAttempts) ∧
    (RedisCodeCache.Verify NewRedisCodeCache 5 "login" "13800000000" "123456"
        lockedStore).2 = lockedStore :=
  ⟨(verify_tooMany_iff NewRedisCodeCache 5 "login" "13800000000" "123456" lockedStore).1.mpr
      ⟨4, by decide, by decide⟩,
   (verify_tooMany_iff NewRedisCodeCache 5 "login" "13800000000" "123456" lockedStore).2
      (by decide)⟩

/-- C18: on a key holding the code `c` and the counter `n`, with `n` at most maxAttempts
and below the 64-bit maximum, Verify with a code different from `c` returns false with
the mismatch error; the keyspace it returns is the one produced by the increment, in
which the counter is `n + 1` with its deadline unchanged and every other key, the code
entry with its deadline included, is as before. The increment precedes the read of the
stored code and the comparison: when the read of the code fails, Verify returns the
error of that read, whatever code was supplied, and the counter is already `n + 1`. -/
theorem verify_mismatch_increments (r : RedisCodeCache) (now : Nat)
    (biz phone c x : String) (s : Redis) (n : Int) (e1 : RedisEntry) (d2 : Option Nat)
    (hcode : Redis.live s now (generateSMSKey biz phone) = some e1)
    (hc : e1.value.text = c)
    (hatt : Redis.live s now (generateAttemptsKey biz phone)
      = some (RedisEntry.mk (RedisValue.int n) d2))
    (hn : n ≤ r.maxAttempts) (h63 : n + 1 < 2 ^ 63) (hx : x ≠ c) :
    (RedisCodeCache.Verify r now biz phone x s).1 = (false, some errCodeMismatch) ∧
    (RedisCodeCache.Verify r now biz phone x s).2
      = Redis.Incr s now (generateAttemptsKey biz phone) ∧
    (RedisCodeCache.Verify r now biz phone x s).2 (generateAttemptsKey biz phone)
      = some (RedisEntry.mk (RedisValue.int (n + 1)) d2) ∧
    (RedisCodeCache.Verify r now biz phone x s).2 (generateSMSKey biz phone)
      = s (generateSMSKey biz phone) ∧
    (∀ k, k ≠ generateAttemptsKey biz phone →
      (RedisCodeCache.Verify r now biz phone x s).2 k = s k) ∧
    RedisCodeCache.VerifyIO r RedisFaults.noFault now biz phone x s
      = RedisCodeCache.Verify r now biz phone x s ∧
    (∀ err y : String,
      RedisCodeCache.VerifyIO r (RedisFaults.mk none none (some err) none) now biz phone y s
        = ((false, some err), Redis.Incr s now (generateAttemptsKey biz phone)) ∧
      (RedisCodeCache.VerifyIO r (RedisFaults.mk none none (some err) none) now biz phone y
          s).2 (generateAttemptsKey biz phone)
        = some (RedisEntry.mk (RedisValue.int (n + 1)) d2)) := by
  have hne := generateSMSKey_ne_generateAttemptsKey biz phone
  have hread : attemptsRead s now biz phone = some n := by
    simp [attemptsRead, Redis.GetInt, hatt, RedisValue.asInt]
  have hget : Redis.Get s now (generateSMSKey biz phone) = some c := by
    simp [Redis.Get, hcode, hc]
  have hcx : ¬ c = x := fun h => hx h.symm
  have hv := verify_of_read_within r now biz phone x s n hread hn
  rw [hget] at hv
  simp only [bne_iff_ne, ne_eq, hcx, not_false_eq_true, if_true] at hv
  have h63b : ¬ ((9223372036854775808 : Int) ≤ n + 1) := by
    norm_num at h63
    omega
  have hincr : Redis.Incr s now (generateAttemptsKey biz phone) (generateAttemptsKey biz phone)
      = some (RedisEntry.mk (RedisValue.int (n + 1)) d2) := by
    simp [Redis.Incr, hatt, RedisValue.incrOperand, h63b]
  have hn2 : ¬ (n > r.maxAttempts) := by omega
  have hio : ∀ err y : String,
      RedisCodeCache.VerifyIO r (RedisFaults.mk none none (some err) none) now biz phone y s
        = ((false, some err), Redis.Incr s now (generateAttemptsKey biz phone)) := by
    intro err y
    simp [RedisCodeCache.VerifyIO, Redis.GetInt, hatt, RedisValue.asInt, hn2]
  rw [hv]
  refine ⟨rfl, rfl, hincr, incr_other s now _ _ hne, ?_, ?_, ?_⟩
  · intro k hk
    exact incr_other s now _ k hk
  · rw [← hv]
    simp only [RedisCodeCache.VerifyIO, RedisCodeCache.Verify, RedisFaults.noFault]
  · intro err y
    refine ⟨hio err y, ?_⟩
    rw [hio err y]
    exact hincr

/-- Witness for C18: after Set, a Verify with a wrong code fails with the mismatch error
and the counter is 1 with the deadline Set gave it; a Verify whose read of the code
fails with a timeout returns that error, also for the stored code, and the counter is
1 as well. -/
theorem verify_mismatch_increments_witness :
    (RedisCodeCache.Verify NewRedisCodeCache 1 "login" "13800000000" "000000"
      (RedisCodeCache.Set NewRedisCodeCache 0 "login" "13800000000" "123456"
        Redis.empty).2).1 = (false, some errCodeMismatch) ∧
    (RedisCodeCache.Verify NewRedisCodeCache 1 "login" "13800000000" "000000"
      (RedisCodeCache.Set NewRedisCodeCache 0 "login" "13800000000" "123456"
        Redis.empty).2).2 (generateAttemptsKey "login" "13800000000")
      = some (RedisEntry.mk (RedisValue.int (0 + 1)) (some 10000)) ∧
    (RedisCodeCache.VerifyIO NewRedisCodeCache
        (RedisFaults.mk none none (some "i/o timeout") none) 1 "login" "13800000000"
        "123456"
        (RedisCodeCache.Set NewRedisCodeCache 0 "login" "13800000000" "123456"
          Redis.empty).2).1 = (false, some "i/o timeout") ∧
    (RedisCodeCache.VerifyIO NewRedisCodeCache
        (RedisFaults.mk none none (some "i/o timeout") none) 1 "login" "13800000000"
        "123456"
        (RedisCodeCache.Set NewRedisCodeCache 0 "login" "13800000000" "123456"
          Redis.empty).2).2 (generateAttemptsKey "login" "13800000000")
      = some (RedisEntry.mk (RedisValue.int (0 + 1)) (some 10000)) :=
  ⟨(verify_mismatch_increments NewRedisCodeCache 1 "login" "13800000000" "123456" "000000"
      (RedisCodeCache.Set NewRedisCodeCache 0 "login" "13800000000" "123456" Redis.empty).2
      0 (RedisEntry.mk (RedisValue.str "123456") (some 10000)) (some 10000)
      (by decide) rfl (by decide) (by decide) (by decide) (by decide)).1,
   (verify_mismatch_increments NewRedisCodeCache 1 "login" "13800000000" "123456" "000000"
      (RedisCodeCache.Set NewRedisCodeCache 0 "login" "13800000000" "123456" Redis.empty).2
      0 (RedisEntry.mk (RedisValue.str "123456") (some 10000)) (some 10000)
      (by decide) rfl (by decide) (by decide) (by decide) (by decide)).2.2.1,
   congrArg Prod.fst
    ((verify_mismatch_increments NewRedisCodeCache 1 "login" "13800000000" "123456" "000000"
      (RedisCodeCache.Set NewRedisCodeCache 0 "login" "13800000000" "123456" Redis.empty).2
      0 (RedisEntry.mk (RedisValue.str "123456") (some 10000)) (some 10000)
      (by decide) rfl (by decide) (by decide) (by decide) (by decide)).2.2.2.2.2.2
        "i/o timeout" "123456").1,
   ((verify_mismatch_increments NewRedisCodeCache 1 "login" "13800000000" "123456" "000000"
      (RedisCodeCache.Set NewRedisCodeCache 0 "login" "13800000000" "123456" Redis.empty).2
      0 (RedisEntry.mk (RedisValue.str "123456") (some 10000)) (some 10000)
      (by decide) rfl (by decide) (by decide) (by decide) (by decide)).2.2.2.2.2.2
        "i/o timeout" "123456").2⟩

/-- C19: from every keyspace, Set returns no error and leaves the key with the given code
and the counter 0, both with the deadline of the configured expiration, and every other
key as it was; before that deadline the counter reads 0 and, under a non-negative
maximum, a Verify with the code is compared and succeeds. -/
theorem set_resets_code_and_counter (r : RedisCodeCache) (now : Nat)
    (biz phone code : String) (s : Redis) :
    (RedisCodeCache.Set r now biz phone code s).1 = none ∧
    (RedisCodeCache.Set r now biz phone code s).2 (generateSMSKey biz phone)
      = some (RedisEntry.mk (RedisValue.str code) (setDeadline r now)) ∧
    (RedisCodeCache.Set r now biz phone code s).2 (generateAttemptsKey biz phone)
      = some (RedisEntry.mk (RedisValue.int 0) (setDeadline r now)) ∧
    (∀ k, k ≠ generateSMSKey biz phone → k ≠ generateAttemptsKey biz phone →
      (RedisCodeCache.Set r now biz phone code s).2 k = s k) ∧
    (∀ t, (r.expiration = 0 ∨ t < now + r.expiration) → 0 ≤ r.maxAttempts →
      attemptsRead (RedisCodeCache.Set r now biz phone code s).2 t biz phone = some 0 ∧
      (RedisCodeCache.Verify r t biz phone code
        (RedisCodeCache.Set r now biz phone code s).2).1 = (true, none)) := by
  have hp := set_pending r now biz phone code s
  refine ⟨rfl, hp.1, hp.2, ?_, ?_⟩
  · intro k hk1 hk2
    simp [RedisCodeCache.Set, Redis.Set, hk1, hk2]
  · intro t ht hmax
    have hl := live_of_not_expired r now t _ _ _ hp.2 ht
    have hl2 := live_of_not_expired r now t _ _ _ hp.1 ht
    have hread : attemptsRead (RedisCodeCache.Set r now biz phone code s).2 t biz phone
        = some 0 := by
      simp [attemptsRead, Redis.GetInt, hl, RedisValue.asInt]
    have hget : Redis.Get (RedisCodeCache.Set r now biz phone code s).2 t
        (generateSMSKey biz phone) = some code := by
      simp [Redis.Get, hl2, RedisValue.text]
    refine ⟨hread, ?_⟩
    rw [verify_of_read_within r t biz phone code _ 0 hread hmax, hget]
    simp

/-- Witness for C19: on the key locked out with counter 4, a Set at instant 6 writes the
new code with counter 0, and a Verify with the new code then succeeds. -/
theorem set_resets_code_and_counter_witness :
    (RedisCodeCache.Verify NewRedisCodeCache 5 "login" "13800000000" "123456"
        lockedStore).1 = (false, some errTooManyAttempts) ∧
    attemptsRead (RedisCodeCache.Set NewRedisCodeCache 6 "login" "13800000000" "654321"
        lockedStore).2 7 "login" "13800000000" = some 0 ∧
    (RedisCodeCache.Verify NewRedisCodeCache 7 "login" "13800000000" "654321"
      (RedisCodeCache.Set NewRedisCodeCache 6 "login" "13800000000" "654321"
        lockedStore).2).1 = (true, none) :=
  ⟨by decide,
   ((set_resets_code_and_counter NewRedisCodeCache 6 "login" "13800000000" "654321"
      lockedStore).2.2.2.2 7 (by decide) (by decide)).1,
   ((set_resets_code_and_counter NewRedisCodeCache 6 "login" "13800000000" "654321"
      lockedStore).2.2.2.2 7 (by decide) (by decide)).2⟩

/-! ## Theorems: SMS controller -/

/-- The recognised business types are exactly the four constants. -/
theorem isValidBizType_eq_true_iff (biz : String) :
    isValidBizType biz = true ↔
      (biz = "login" ∨ biz = "register" ∨ biz = "reset_pwd" ∨ biz = "change_phone") := by
  unfold isValidBizType BizLogin BizRegister BizChangePhone BizResetPwd
  by_cases h1 : biz = "login"
  · simp [h1]
  · by_cases h2 : biz = "register"
    · simp [h2]
    · by_cases h3 : biz = "change_phone"
      · simp [h3]
      · by_cases h4 : biz = "reset_pwd"
        · simp [h4]
        · simp [h1, h2, h3, h4]

/-- C20: isValidBizType holds exactly for `login`, `register`, `reset_pwd` and
`change_phone`; for a bound request with any other business type SendCode answers with
the 401 failure and VerifyCode with the 400 failure, and both return the service state
they were given, whatever the service, so neither Send nor Verify is called; a request
that fails to bind is answered with the 400 failure in the same way. -/
theorem invalid_biz_rejected_before_service {σ : Type} (smsService : SMSService σ) (st : σ) :
    (∀ biz : String, isValidBizType biz = true ↔
      (biz = "login" ∨ biz = "register" ∨ biz = "reset_pwd" ∨ biz = "change_phone")) ∧
    (∀ req : SendCodeRequest,
      ¬ (req.Biz = "login" ∨ req.Biz = "register" ∨ req.Biz = "reset_pwd" ∨
          req.Biz = "change_phone") →
      SMSController.SendCode smsService (Except.ok req) st
        = (Response.mk 401 401 "非需要使用的业务" ResponseData.null, st)) ∧
    (∀ req : VerifyCodeRequest,
      ¬ (req.Biz = "login" ∨ req.Biz = "register" ∨ req.Biz = "reset_pwd" ∨
          req.Biz = "change_phone") →
      SMSController.VerifyCode smsService (Except.ok req) st
        = (Response.mk 400 400 "请求参数错误"
            (ResponseData.fields [("biz", FieldValue.str req.Biz)]), st)) ∧
    (∀ err : String,
      SMSController.SendCode smsService (Except.error err) st
        = (Response.mk 400 400 err ResponseData.null, st) ∧
      SMSController.VerifyCode smsService (Except.error err) st
        = (Response.mk 400 400 err ResponseData.null, st)) := by
  refine ⟨isValidBizType_eq_true_iff, ?_, ?_, fun err => ⟨rfl, rfl⟩⟩
  · intro req hreq
    have hv : isValidBizType req.Biz = false := by
      rw [← Bool.not_eq_true]
      exact fun h => hreq ((isValidBizType_eq_true_iff req.Biz).mp h)
    simp [SMSController.SendCode, hv, FailWithMessage, getHttpStatusByCode, UNAUTHORIZED,
      INVALID_PARAMS]
  · intro req hreq
    have hv : isValidBizType req.Biz = false := by
      rw [← Bool.not_eq_true]
      exact fun h => hreq ((isValidBizType_eq_true_iff req.Biz).mp h)
    simp [SMSController.VerifyCode, hv, Fail, getHttpStatusByCode, GetMsg, INVALID_PARAMS,
      SUCCESS, ERROR]

/-- Witness for C20: requests with the business type `delete_account` are answered with a
failure; the counting service records no call and the Redis keyspace of the real
service stays empty. -/
theorem invalid_biz_rejected_before_service_witness :
    SMSController.SendCode countingSMSService
        (Except.ok (SendCodeRequest.mk "delete_account" "13800000000")) 0
      = (Response.mk 401 401 "非需要使用的业务" ResponseData.null, 0) ∧
    SMSController.VerifyCode countingSMSService
        (Except.ok (VerifyCodeRequest.mk "delete_account" "13800000000" "123456")) 0
      = (Response.mk 400 400 "请求参数错误"
          (ResponseData.fields [("biz", FieldValue.str "delete_account")]), 0) ∧
    (SMSController.SendCode (NewSMSService 1 42)
        (Except.ok (SendCodeRequest.mk "delete_account" "13800000000")) Redis.empty).2
      = Redis.empty ∧
    (SMSController.SendCode countingSMSService
        (Except.ok (SendCodeRequest.mk "login" "13800000000")) 0).2 = 1 :=
  ⟨(invalid_biz_rejected_before_service countingSMSService 0).2.1
      (SendCodeRequest.mk "delete_account" "13800000000") (by decide),
   (invalid_biz_rejected_before_service countingSMSService 0).2.2.1
      (VerifyCodeRequest.mk "delete_account" "13800000000" "123456") (by decide),
   congrArg Prod.snd ((invalid_biz_rejected_before_service (NewSMSService 1 42)
      Redis.empty).2.1 (SendCodeRequest.mk "delete_account" "13800000000") (by decide)),
   by decide⟩

/-! ## Theorems: mutation of the permission list -/

/-- The loop of AddPermission finds the permission exactly when it is in the list. -/
theorem Permissions.addLoopFinds_iff (s : Permissions) (p : String) :
    Permissions.addLoopFinds s p = true ↔ p ∈ s := by
  induction s with
  | nil => simp [Permissions.addLoopFinds]
  | cons x xs ih =>
    by_cases h : x = p
    · simp [Permissions.addLoopFinds, h]
    · have h2 : ¬ p = x := fun e => h e.symm
      simp [Permissions.addLoopFinds, h, h2, ih]

/-- AddPermission on a list that holds the permission. -/
theorem Permissions.addPermission_of_mem (s : Permissions) (p : String) (h : p ∈ s) :
    Permissions.AddPermission s p = s := by
  simp [Permissions.AddPermission, (Permissions.addLoopFinds_iff s p).mpr h]

/-- AddPermission on a list that does not hold the permission. -/
theorem Permissions.addPermission_of_not_mem (s : Permissions) (p : String) (h : p ∉ s) :
    Permissions.AddPermission s p = s ++ [p] := by
  have hf : Permissions.addLoopFinds s p = false := by
    rw [← Bool.not_eq_true]
    exact fun e => h ((Permissions.addLoopFinds_iff s p).mp e)
  simp [Permissions.AddPermission, hf]

/-- RemovePermission is the removal of the first occurrence. -/
theorem Permissions.removePermission_eq_erase (s : Permissions) (p : String) :
    Permissions.RemovePermission s p = List.erase s p := by
  induction s with
  | nil => rfl
  | cons x xs ih =>
    by_cases h : x = p
    · simp [Permissions.RemovePermission, h]
    · simp [Permissions.RemovePermission, h, List.erase_cons, ih]

/-- C22: AddPermission leaves a list that already holds the permission unchanged and
otherwise appends the permission at the end; adding twice gives the same list as adding
once. -/
theorem addPermission_spec :
    (∀ (s : Permissions) (p : String), p ∈ s → Permissions.AddPermission s p = s) ∧
    (∀ (s : Permissions) (p : String), p ∉ s → Permissions.AddPermission s p = s ++ [p]) ∧
    (∀ (s : Permissions) (p : String),
      Permissions.AddPermission (Permissions.AddPermission s p) p
        = Permissions.AddPermission s p) := by
  refine ⟨Permissions.addPermission_of_mem, Permissions.addPermission_of_not_mem, ?_⟩
  intro s p
  by_cases h : p ∈ s
  · rw [Permissions.addPermission_of_mem s p h, Permissions.addPermission_of_mem s p h]
  · rw [Permissions.addPermission_of_not_mem s p h]
    exact Permissions.addPermission_of_mem _ p (by simp)

/-- Witness for C22: adding a held permission, adding a new one, adding twice. -/
theorem addPermission_spec_witness :
    Permissions.AddPermission ["user:view", "user:edit"] "user:view"
      = ["user:view", "user:edit"] ∧
    Permissions.AddPermission ["user:view", "user:edit"] "system:log"
      = ["user:view", "user:edit"] ++ ["system:log"] ∧
    Permissions.AddPermission (Permissions.AddPermission ["user:view"] "system:log")
        "system:log"
      = Permissions.AddPermission ["user:view"] "system:log" :=
  ⟨addPermission_spec.1 ["user:view", "user:edit"] "user:view" (by decide),
   addPermission_spec.2.1 ["user:view", "user:edit"] "system:log" (by decide),
   addPermission_spec.2.2 ["user:view"] "system:log"⟩

/-- Counterexample for C23: on a list that holds the permission twice, the first
RemovePermission removes one occurrence and the second removes the other, so applying
it twice does not give the list of applying it once. -/
theorem removePermission_twice_on_duplicates :
    Permissions.RemovePermission ["a", "a"] "a" = ["a"] ∧
    Permissions.RemovePermission (Permissions.RemovePermission ["a", "a"] "a") "a" = [] ∧
    Permissions.RemovePermission (Permissions.RemovePermission ["a", "a"] "a") "a"
      ≠ Permissions.RemovePermission ["a", "a"] "a" := by
  decide

/-- C23 (amended): RemovePermission removes the first occurrence of the permission;
applied to a list in which the permission does not occur it leaves the list unchanged;
applied twice it gives the same list as applied once whenever the permission occurs at
most once, in particular on a list without repeated elements. -/
theorem removePermission_spec :
    (∀ (s : Permissions) (p : String),
      Permissions.RemovePermission s p = List.erase s p) ∧
    (∀ (s : Permissions) (p : String), p ∉ s → Permissions.RemovePermission s p = s) ∧
    (∀ (s : Permissions) (p : String), List.count p s ≤ 1 →
      Permissions.RemovePermission (Permissions.RemovePermission s p) p
        = Permissions.RemovePermission s p) ∧
    (∀ (s : Permissions) (p : String), s.Nodup →
      Permissions.RemovePermission (Permissions.RemovePermission s p) p
        = Permissions.RemovePermission s p) := by
  have hcount : ∀ (s : Permissions) (p : String), List.count p s ≤ 1 →
      Permissions.RemovePermission (Permissions.RemovePermission s p) p
        = Permissions.RemovePermission s p := by
    intro s p hc
    rw [Permissions.removePermission_eq_erase, Permissions.removePermission_eq_erase]
    apply List.erase_of_not_mem
    intro hm
    have h1 : 0 < List.count p (List.erase s p) := List.count_pos_iff.mpr hm
    rw [List.count_erase_self] at h1
    omega
  refine ⟨Permissions.removePermission_eq_erase, ?_, hcount, ?_⟩
  · intro s p h
    rw [Permissions.removePermission_eq_erase]
    exact List.erase_of_not_mem h
  · intro s p hn
    exact hcount s p (List.nodup_iff_count_le_one.mp hn p)

/-- Witness for C23 (amended): removal of an absent permission, and double removal on a
list without repetition. -/
theorem removePermission_spec_witness :
    Permissions.RemovePermission ["user:view", "user:edit"] "system:log"
      = ["user:view", "user:edit"] ∧
    Permissions.RemovePermission
        (Permissions.RemovePermission ["user:view", "user:edit"] "user:view") "user:view"
      = Permissions.RemovePermission ["user:view", "user:edit"] "user:view" :=
  ⟨removePermission_spec.2.1 ["user:view", "user:edit"] "system:log" (by decide),
   removePermission_spec.2.2.1 ["user:view", "user:edit"] "user:view" (by decide)⟩

/-- C28: on a list without repeated elements AddPermission and RemovePermission give
lists without repeated elements; RemovePermission gives the list of the other elements
in their order, in which the permission no longer occurs, so that HasPermission for it
holds afterwards only through the wildcard. -/
theorem nodup_preserved (s : Permissions) (p : String) (hs : s.Nodup) :
    (Permissions.AddPermission s p).Nodup ∧
    (Permissions.RemovePermission s p).Nodup ∧
    p ∉ Permissions.RemovePermission s p ∧
    Permissions.RemovePermission s p = s.filter (fun x => x != p) ∧
    (Permissions.HasPermission (Permissions.RemovePermission s p) p = true ↔
      "*" ∈ Permissions.RemovePermission s p) := by
  have hrem : p ∉ Permissions.RemovePermission s p := by
    rw [Permissions.removePermission_eq_erase]
    intro hm
    exact ((List.Nodup.mem_erase_iff hs).mp hm).1 rfl
  refine ⟨?_, ?_, hrem, ?_, ?_⟩
  · by_cases h : p ∈ s
    · rw [Permissions.addPermission_of_mem s p h]
      exact hs
    · rw [Permissions.addPermission_of_not_mem s p h]
      exact List.Nodup.append hs (List.nodup_singleton p) (by simpa using h)
  · rw [Permissions.removePermission_eq_erase]
    exact List.Nodup.erase p hs
  · rw [Permissions.removePermission_eq_erase]
    exact List.Nodup.erase_eq_filter hs p
  · rw [Permissions.hasPermission_eq_true_iff]
    constructor
    · rintro (h | h)
      · exact absurd h hrem
      · exact h
    · exact Or.inr

/-- Witness for C28: removal from the permission list of the ordinary user role. -/
theorem nodup_preserved_witness :
    Permissions.RemovePermission
        ["user:view", "user:edit", "content:view", "content:create", "content:edit"]
        "content:view"
      = ["user:view", "user:edit", "content:view", "content:create", "content:edit"].filter
          (fun x => x != "content:view") ∧
    (Permissions.AddPermission
        ["user:view", "user:edit", "content:view", "content:create", "content:edit"]
        "content:view").Nodup :=
  ⟨(nodup_preserved
      ["user:view", "user:edit", "content:view", "content:create", "content:edit"]
      "content:view" (by decide)).2.2.2.1,
   (nodup_preserved
      ["user:view", "user:edit", "content:view", "content:create", "content:edit"]
      "content:view" (by decide)).1⟩

/-! ## Theorems: code generation -/

/-- The characters of the ten decimal digits. -/
theorem digitChar_decimal :
    ∀ d, d < 10 → (Nat.digitChar d).isDigit = true ∧ (Nat.digitChar d).toNat - 48 = d := by
  decide

/-- Reading a digit string extended by one digit. -/
theorem digitsValue_append_singleton (l : List Char) (c : Char) :
    digitsValue (l ++ [c]) = 10 * digitsValue l + (c.toNat - 48) := by
  simp [digitsValue, List.foldl_append]

/-- With enough fuel the digit loop of the decimal conversion puts in front of its
accumulator a non-empty string of at most `k` decimal digits that denotes `n`. -/
theorem toDigitsCore_decimal (fuel : Nat) :
    ∀ (n k : Nat) (ds : List Char), n < 10 ^ k → 0 < k → n < fuel →
      ∃ l, Nat.toDigitsCore 10 fuel n ds = l ++ ds ∧ 1 ≤ l.length ∧ l.length ≤ k ∧
        (∀ c ∈ l, c.isDigit = true) ∧ digitsValue l = n := by
  induction fuel with
  | zero => intro n k ds _ _ h; omega
  | succ fuel ih =>
    intro n k ds hn hk hf
    have hd := digitChar_decimal (n % 10) (Nat.mod_lt n (by decide))
    by_cases h0 : n / 10 = 0
    · refine ⟨[Nat.digitChar (n % 10)], ?_, by simp, by simpa using hk, ?_, ?_⟩
      · simp [Nat.toDigitsCore, h0]
      · intro c hc
        simp only [List.mem_singleton] at hc
        rw [hc]
        exact hd.1
      · have hlt : n < 10 := by omega
        simp only [digitsValue, List.foldl_cons, List.foldl_nil, hd.2]
        omega
    · have hk2 : 2 ≤ k := by
        rcases k with _ | _ | k
        · omega
        · simp at hn
          omega
        · omega
      have hn' : n / 10 < 10 ^ (k - 1) := by
        apply Nat.div_lt_of_lt_mul
        have : 10 ^ k = 10 * 10 ^ (k - 1) := by
          rw [← Nat.pow_succ']
          congr 1
          omega
        omega
      obtain ⟨l, hl, hl1, hl2, hl3, hl4⟩ :=
        ih (n / 10) (k - 1) (Nat.digitChar (n % 10) :: ds) hn' (by omega) (by omega)
      refine ⟨l ++ [Nat.digitChar (n % 10)], ?_, by simp, ?_, ?_, ?_⟩
      · simp [Nat.toDigitsCore, h0, hl]
      · simp only [List.length_append, List.length_singleton]
        omega
      · intro c hc
        simp only [List.mem_append, List.mem_singleton] at hc
        rcases hc with hc | hc
        · exact hl3 c hc
        · rw [hc]
          exact hd.1
      · rw [digitsValue_append_singleton, hl4, hd.2]
        omega

/-- Zeros in front of a digit string do not change the number it denotes. -/
theorem digitsValue_replicate_zero_append (z : Nat) (l : List Char) :
    digitsValue (List.replicate z '0' ++ l) = digitsValue l := by
  induction z with
  | zero => simp
  | succ z ih =>
    have h0 : ('0' : Char).toNat - 48 = 0 := by decide
    unfold digitsValue at ih ⊢
    simp only [List.replicate_succ, List.cons_append, List.foldl_cons, h0]
    exact ih

/-- The code text of a draw below one million: six decimal digits that denote the draw. -/
theorem generateCode_data (m : Nat) (hm : m < 1000000) :
    (generateCode (m : Int)).data.length = 6 ∧
    (∀ c ∈ (generateCode (m : Int)).data, c.isDigit = true) ∧
    digitsValue (generateCode (m : Int)).data = m := by
  obtain ⟨l, hl, hl1, hl2, hl3, hl4⟩ :=
    toDigitsCore_decimal (m + 1) m 6 [] (by simpa using hm) (by decide) (by omega)
  simp only [List.append_nil] at hl
  have hgen : generateCode (m : Int) = String.mk (padZeros 6 (decimalDigits m)) := rfl
  have hdata : (generateCode (m : Int)).data = List.replicate (6 - l.length) '0' ++ l := by
    rw [hgen]
    simp [padZeros, decimalDigits, Nat.toDigits, hl]
  rw [hdata]
  refine ⟨?_, ?_, ?_⟩
  · simp only [List.length_append, List.length_replicate]
    omega
  · intro c hc
    simp only [List.mem_append, List.mem_replicate] at hc
    rcases hc with ⟨_, hc⟩ | hc
    · rw [hc]
      decide
    · exact hl3 c hc
  · rw [digitsValue_replicate_zero_append, hl4]

/-- A non-empty string of decimal digits is read by parseDigits as the number it
denotes. -/
theorem parseDigits_of_digits (cs : List Char) (hne : cs ≠ [])
    (hdig : ∀ c ∈ cs, c.isDigit = true) : parseDigits cs = some (digitsValue cs) := by
  have hall : cs.all Char.isDigit = true := by
    rw [List.all_eq_true]
    exact hdig
  unfold parseDigits digitsValue
  rw [if_neg]
  intro h
  rcases h with h | h
  · exact hne h
  · exact h hall

/-- A string that starts with a decimal digit is read by atoi without a sign. -/
theorem atoi_of_digits (s : String) (m : Nat) (hne : s.data ≠ [])
    (hdig : ∀ c ∈ s.data, c.isDigit = true) (hval : digitsValue s.data = m)
    (hm : m < 9223372036854775808) : atoi s = some (m : Int) := by
  rcases hd : s.data with _ | ⟨c, rest⟩
  · exact absurd hd hne
  · have hc : c.isDigit = true := hdig c (by rw [hd]; simp)
    have hc1 : c ≠ '-' := by
      intro h
      rw [h] at hc
      exact absurd hc (by decide)
    have hc2 : c ≠ '+' := by
      intro h
      rw [h] at hc
      exact absurd hc (by decide)
    have hp := parseDigits_of_digits s.data hne hdig
    rw [hval, hd] at hp
    have hsplit : (match s.toList with
        | '-' :: rest => (true, rest)
        | '+' :: rest => (false, rest)
        | cs => (false, cs)) = (false, c :: rest) := by
      have ht : s.toList = c :: rest := hd
      rw [ht]
      split
      · rename_i h
        simp only [List.cons.injEq] at h
        exact absurd h.1 hc1
      · rename_i h
        simp only [List.cons.injEq] at h
        exact absurd h.1 hc2
      · rfl
    unfold atoi
    rw [hsplit]
    simp only [hp]
    have hr : ¬ ((m : Int) < -(2 ^ 63) ∨ (2 : Int) ^ 63 ≤ (m : Int)) := by
      norm_num
      omega
    simp only [Bool.false_eq_true, if_false]
    rw [if_neg hr]

/-- C21: for every draw `n` with `0 <= n < 1000000` the text produced by generateCode has
length 6, consists of decimal digits only and denotes `n` when read as a decimal number;
the draw 42 gives `000042`; distinct draws give distinct codes. -/
theorem generateCode_six_digits :
    (∀ n : Int, 0 ≤ n → n < 1000000 →
      (generateCode n).length = 6 ∧
      (generateCode n).data.all Char.isDigit = true ∧
      parseDigits (generateCode n).data = some n.toNat ∧
      atoi (generateCode n) = some n) ∧
    generateCode 42 = "000042" ∧
    (∀ n1 n2 : Int, 0 ≤ n1 → n1 < 1000000 → 0 ≤ n2 → n2 < 1000000 →
      generateCode n1 = generateCode n2 → n1 = n2) := by
  have main : ∀ n : Int, 0 ≤ n → n < 1000000 →
      (generateCode n).length = 6 ∧
      (generateCode n).data.all Char.isDigit = true ∧
      parseDigits (generateCode n).data = some n.toNat ∧
      atoi (generateCode n) = some n := by
    intro n h0 h1
    obtain ⟨m, rfl⟩ := Int.eq_ofNat_of_zero_le h0
    have hm : m < 1000000 := by omega
    obtain ⟨hlen, hdig, hval⟩ := generateCode_data m hm
    have hne : (generateCode (m : Int)).data ≠ [] := by
      intro h
      rw [h] at hlen
      simp at hlen
    have hp := parseDigits_of_digits _ hne hdig
    rw [hval] at hp
    refine ⟨hlen, ?_, ?_, ?_⟩
    · rw [List.all_eq_true]
      exact hdig
    · rw [hp, Int.toNat_ofNat]
    · exact atoi_of_digits _ m hne hdig hval (by omega)
  refine ⟨main, by decide, ?_⟩
  intro n1 n2 h1 h1' h2 h2' heq
  have e1 := (main n1 h1 h1').2.2.2
  have e2 := (main n2 h2 h2').2.2.2
  rw [heq, e2] at e1
  exact (Option.some.inj e1).symm

/-- Witness for C21: the draws 42 and 999999. -/
theorem generateCode_six_digits_witness :
    (generateCode 42).length = 6 ∧ atoi (generateCode 42) = some 42 ∧
    (generateCode 999999).length = 6 :=
  ⟨(generateCode_six_digits.1 42 (by decide) (by decide)).1,
   (generateCode_six_digits.1 42 (by decide) (by decide)).2.2.2,
   (generateCode_six_digits.1 999999 (by decide) (by decide)).1⟩

/-! ## Theorems: cache keys -/

/-- The characters of a code key. -/
theorem generateSMSKey_data (biz phone : String) :
    (generateSMSKey biz phone).data
      = 's' :: 'm' :: 's' :: ':' :: (biz.data ++ ':' :: phone.data) := by
  simp [generateSMSKey, String.data_append]

/-- The characters of a counter key. -/
theorem generateAttemptsKey_data (biz phone : String) :
    (generateAttemptsKey biz phone).data
      = 's' :: 'm' :: 's' :: ':' :: 'a' :: 't' :: 't' :: 'e' :: 'm' :: 'p' :: 't' :: 's' :: ':'
          :: (biz.data ++ ':' :: phone.data) := by
  simp [generateAttemptsKey, String.data_append]

/-- Two strings with the same characters are equal. -/
theorem string_eq_of_data_eq (a b : String) (h : a.data = b.data) : a = b :=
  String.ext h

/-- C29: for recognised business types the code keys of two pairs coincide only when the
business types and the phones coincide, likewise the counter keys, and no code key
equals a counter key. -/
theorem keys_do_not_collide (biz1 biz2 phone1 phone2 : String)
    (h1 : isValidBizType biz1 = true) (h2 : isValidBizType biz2 = true) :
    (generateSMSKey biz1 phone1 = generateSMSKey biz2 phone2 →
      biz1 = biz2 ∧ phone1 = phone2) ∧
    (generateAttemptsKey biz1 phone1 = generateAttemptsKey biz2 phone2 →
      biz1 = biz2 ∧ phone1 = phone2) ∧
    generateSMSKey biz1 phone1 ≠ generateAttemptsKey biz2 phone2 := by
  rw [isValidBizType_eq_true_iff] at h1 h2
  refine ⟨?_, ?_, ?_⟩
  · intro h
    have hd := congrArg String.data h
    rw [generateSMSKey_data, generateSMSKey_data] at hd
    rcases h1 with rfl | rfl | rfl | rfl <;> rcases h2 with rfl | rfl | rfl | rfl <;>
      first
        | (refine ⟨rfl, string_eq_of_data_eq _ _ ?_⟩
           simpa using hd)
        | (exfalso
           revert hd
           simp)
  · intro h
    have hd := congrArg String.data h
    rw [generateAttemptsKey_data, generateAttemptsKey_data] at hd
    rcases h1 with rfl | rfl | rfl | rfl <;> rcases h2 with rfl | rfl | rfl | rfl <;>
      first
        | (refine ⟨rfl, string_eq_of_data_eq _ _ ?_⟩
           simpa using hd)
        | (exfalso
           revert hd
           simp)
  · intro h
    have hd := congrArg String.data h
    rw [generateSMSKey_data, generateAttemptsKey_data] at hd
    rcases h1 with rfl | rfl | rfl | rfl <;>
      (revert hd
       simp)

/-- Witness for C29: the keys of `login` and `register` for one phone differ, and the code
key of `login` is not the counter key of `login`. -/
theorem keys_do_not_collide_witness :
    (generateSMSKey "login" "13800000000" = generateSMSKey "register" "13800000000" →
      "login" = "register" ∧ "13800000000" = "13800000000") ∧
    generateSMSKey "login" "13800000000" ≠ generateAttemptsKey "login" "13800000000" :=
  ⟨(keys_do_not_collide "login" "register" "13800000000" "13800000000" (by decide)
      (by decide)).1,
   (keys_do_not_collide "login" "login" "13800000000" "13800000000" (by decide)
      (by decide)).2.2⟩

/-! ## Theorems: password, registration and login -/

/-- C26: SetPassword returns an error for the empty plaintext; whenever it returns an error
the user record, its digest included, is unchanged; when it returns no error the digest
is the output of the hasher for the plaintext and the other fields are unchanged. -/
theorem setPassword_spec (hasher : String → Except String String) (u : User) :
    User.SetPassword hasher u "" = (some "密码不能为空", u) ∧
    (∀ password err, (User.SetPassword hasher u password).1 = some err →
      (User.SetPassword hasher u password).2 = u) ∧
    (∀ password, (User.SetPassword hasher u password).1 = none →
      hasher password = Except.ok (User.SetPassword hasher u password).2.Password ∧
      (User.SetPassword hasher u password).2
        = User.mk u.ID u.Username (User.SetPassword hasher u password).2.Password u.Email
            u.Phone u.Nickname u.RoleID u.Role u.Status) := by
  refine ⟨by simp [User.SetPassword], ?_, ?_⟩
  · intro password err h
    unfold User.SetPassword at h ⊢
    by_cases hp : password = ""
    · simp [hp]
    · rcases hh : hasher password with e | d
      · simp [hp, hh]
      · simp [hp, hh] at h
  · intro password h
    unfold User.SetPassword at h ⊢
    by_cases hp : password = ""
    · simp [hp] at h
    · rcases hh : hasher password with e | d
      · simp [hp, hh] at h
      · simp [hp, hh]

/-- Witness for C26: a plaintext the hasher accepts, and one it refuses. -/
theorem setPassword_spec_witness :
    exampleHasher "hunter22"
      = Except.ok (User.SetPassword exampleHasher (userWithoutRole 2) "hunter22").2.Password ∧
    (User.SetPassword exampleHasher (userWithoutRole 2)
        (String.mk (List.replicate 73 'a'))).2 = userWithoutRole 2 :=
  ⟨((setPassword_spec exampleHasher (userWithoutRole 2)).2.2 "hunter22" (by decide)).1,
   (setPassword_spec exampleHasher (userWithoutRole 2)).2.1
      (String.mk (List.replicate 73 'a')) "bcrypt: password length exceeds 72 bytes"
      (by decide)⟩

/-- Counterexample for C24: in the store that holds the user `alice`, Login with an
unknown username returns the error text of a missing user and Login with the username
`alice` and a wrong password returns the error text of a wrong password; the two texts
differ and the handler writes each of them into its answer. -/
theorem login_reveals_unknown_username :
    (AuthService.Login exampleMAC exampleJWTConfig exampleCompare UserRepository
        (exampleInstant, exampleInstant, exampleInstant)
        (exampleInstant, exampleInstant, exampleInstant) "mallory" "guess" databaseWithAlice).1
      = GoCall.returned (LoginResult.failure "用户不存在") ∧
    (AuthService.Login exampleMAC exampleJWTConfig exampleCompare UserRepository
        (exampleInstant, exampleInstant, exampleInstant)
        (exampleInstant, exampleInstant, exampleInstant) "alice" "guess" databaseWithAlice).1
      = GoCall.returned (LoginResult.failure "密码错误") ∧
    (AuthController.Login
        (AuthService.Login exampleMAC exampleJWTConfig exampleCompare UserRepository
          (exampleInstant, exampleInstant, exampleInstant)
          (exampleInstant, exampleInstant, exampleInstant))
        (Except.ok (LoginRequest.mk "mallory" "guess")) databaseWithAlice).1
      = GoCall.returned (LoginAnswer.failure
          (Response.mk 500 500 "用户不存在" ResponseData.null)) ∧
    (AuthController.Login
        (AuthService.Login exampleMAC exampleJWTConfig exampleCompare UserRepository
          (exampleInstant, exampleInstant, exampleInstant)
          (exampleInstant, exampleInstant, exampleInstant))
        (Except.ok (LoginRequest.mk "alice" "guess")) databaseWithAlice).1
      = GoCall.returned (LoginAnswer.failure
          (Response.mk 500 500 "密码错误" ResponseData.null)) ∧
    (Response.mk 500 500 "用户不存在" ResponseData.null)
      ≠ Response.mk 500 500 "密码错误" ResponseData.null := by
  refine ⟨rfl, rfl, rfl, rfl, by decide⟩

/-- C24 (amended): Login returns the error text of a missing user when the lookup by
username reports that no record was found, and the different error text of a wrong
password when the lookup finds an active user whose password does not verify; the
handler writes the text of the error Login returned into its answer. -/
theorem login_error_texts {σ : Type} (mac : MAC) (cfg : JWTConfig)
    (compare : String → String → Bool) (userRepo : IUserRepositoryAll σ)
    (clockA clockR : Int × Int × Int) (username password : String) (db db1 : σ) :
    (∀ u, userRepo.FindByUsername username db = ((u, some ErrRecordNotFound), db1) →
      AuthService.Login mac cfg compare userRepo clockA clockR username password db
        = (GoCall.returned (LoginResult.failure "用户不存在"), db1)) ∧
    (∀ user, userRepo.FindByUsername username db = ((some user, none), db1) →
      user.IsActive = true → User.CheckPassword compare user password = false →
      AuthService.Login mac cfg compare userRepo clockA clockR username password db
        = (GoCall.returned (LoginResult.failure "密码错误"), db1)) ∧
    ("用户不存在" : String) ≠ "密码错误" ∧
    (∀ (res : LoginResult) (err : String), res.err = some err →
      AuthService.Login mac cfg compare userRepo clockA clockR username password db
        = (GoCall.returned res, db1) →
      AuthController.Login
          (AuthService.Login mac cfg compare userRepo clockA clockR)
          (Except.ok (LoginRequest.mk username password)) db
        = (GoCall.returned (LoginAnswer.failure
            (Response.mk 500 500 err ResponseData.null)), db1)) := by
  refine ⟨?_, ?_, by decide, ?_⟩
  · intro u h
    simp [AuthService.Login, h]
  · intro user h hact hpw
    simp [AuthService.Login, h, hact, hpw]
  · intro res err herr h
    simp [AuthController.Login, h, herr, FailWithMessage, getHttpStatusByCode, ERROR,
      INVALID_PARAMS, UNAUTHORIZED, FORBIDDEN, NOT_FOUND]

/-- Witness for C24 (amended): the wrong password of the user `alice`. -/
theorem login_error_texts_witness :
    AuthService.Login exampleMAC exampleJWTConfig exampleCompare UserRepository
        (exampleInstant, exampleInstant, exampleInstant)
        (exampleInstant, exampleInstant, exampleInstant) "alice" "guess" databaseWithAlice
      = (GoCall.returned (LoginResult.failure "密码错误"), databaseWithAlice) :=
  (login_error_texts exampleMAC exampleJWTConfig exampleCompare UserRepository
      (exampleInstant, exampleInstant, exampleInstant)
      (exampleInstant, exampleInstant, exampleInstant) "alice" "guess" databaseWithAlice
      databaseWithAlice).2.1
    (databaseWithAlice.preload
      (User.mk 1 "alice" "$2a$10$secret1" "alice@example.com" "" "Alice" 3 none 1))
    rfl (by decide) (by decide)

/-- Without failing round trips the fault-aware Verify is Verify. -/
theorem verifyIO_noFault (r : RedisCodeCache) (now : Nat) (biz phone code : String)
    (s : Redis) :
    RedisCodeCache.VerifyIO r RedisFaults.noFault now biz phone code s
      = RedisCodeCache.Verify r now biz phone code s := by
  simp only [RedisCodeCache.VerifyIO, RedisCodeCache.Verify, RedisFaults.noFault]

/-- C25 (defect): after Set, a Verify whose increment fails while the other round trips
succeed returns success without error for the stored code, and for a wrong code the
mismatch error with the counter still at 0; and Register, called while the two lookups
fail with a connection error, returns the created user without error. -/
theorem store_errors_not_surfaced :
    (RedisCodeCache.VerifyIO NewRedisCodeCache
        (RedisFaults.mk none (some "OOM command not allowed") none none)
        1 "login" "13800000000" "123456"
        (RedisCodeCache.Set NewRedisCodeCache 0 "login" "13800000000" "123456"
          Redis.empty).2).1 = (true, none) ∧
    (RedisCodeCache.VerifyIO NewRedisCodeCache
        (RedisFaults.mk none (some "OOM command not allowed") none none)
        1 "login" "13800000000" "000000"
        (RedisCodeCache.Set NewRedisCodeCache 0 "login" "13800000000" "123456"
          Redis.empty).2).1 = (false, some errCodeMismatch) ∧
    attemptsRead
        (RedisCodeCache.VerifyIO NewRedisCodeCache
          (RedisFaults.mk none (some "OOM command not allowed") none none)
          1 "login" "13800000000" "000000"
          (RedisCodeCache.Set NewRedisCodeCache 0 "login" "13800000000" "123456"
            Redis.empty).2).2
        2 "login" "13800000000" = some 0 ∧
    (AuthService.Register exampleHasher faultyRepository "bob" "hunter22" "bob@example.com"
        "Bob"
        ([some "driver: bad connection", some "driver: bad connection", none],
          databaseWithAlice)).1
      = (some (User.mk 2 "bob" "$2a$10$hunter22" "bob@example.com" "" "Bob" 2 none 1),
          none) := by
  decide

/-- C27 (defect): the seeding routine gives the roles superuser, admin, user and guest the
ids 1, 2, 3 and 4; Register stores the new user with RoleID 2, the id of the role
`admin`, not 3, the id of the role `user`; the role loaded for the registered user
carries the wildcard permission and RoleAuth("admin") lets that user through. -/
theorem register_assigns_admin_role :
    seededDatabase.roles.map (fun r => (r.ID, r.Code))
      = [(1, "superuser"), (2, "admin"), (3, "user"), (4, "guest")] ∧
    (AuthService.Register exampleHasher UserRepository "bob" "hunter22" "bob@example.com"
        "Bob" seededDatabase).1.1.map (fun u => (u.ID, u.RoleID)) = some (1, 2) ∧
    ((UserRepository.FindByID 1
        (AuthService.Register exampleHasher UserRepository "bob" "hunter22"
          "bob@example.com" "Bob" seededDatabase).2).1.1.bind (fun u => u.Role)).map
        (fun r => (r.Code, r.Permissions)) = some ("admin", ["*"]) ∧
    (RoleAuth UserRepository.byID "admin" (some 1)
        (AuthService.Register exampleHasher UserRepository "bob" "hunter22"
          "bob@example.com" "Bob" seededDatabase).2).1 = Outcome.next ∧
    (PermissionAuth UserRepository.byID "system:config" (some 1)
        (AuthService.Register exampleHasher UserRepository "bob" "hunter22"
          "bob@example.com" "Bob" seededDatabase).2).1 = Outcome.next := by
  decide

/-! ## Theorems: rate limiter -/

/-- A filter whose test implies another on the members of the list keeps no more elements. -/
theorem filter_length_le_of_imp (l : List Int) (f g : Int → Bool)
    (h : ∀ x ∈ l, f x = true → g x = true) :
    (l.filter f).length ≤ (l.filter g).length := by
  induction l with
  | nil => simp
  | cons x xs ih =>
    have ih2 := ih (fun y hy => h y (List.mem_cons_of_mem _ hy))
    have hx := h x (List.mem_cons_self _ _)
    by_cases hf : f x = true
    · have hg := hx hf
      simp only [List.filter_cons, hf, hg, if_true, List.length_cons]
      omega
    · have hf2 : f x = false := by simpa using hf
      by_cases hg : g x = true
      · rw [List.filter_cons_of_neg (by simp [hf2]), List.filter_cons_of_pos hg,
          List.length_cons]
        omega
      · have hg2 : g x = false := by simpa using hg
        rw [List.filter_cons_of_neg (by simp [hf2]), List.filter_cons_of_neg (by simp [hg2])]
        exact ih2

/-- The answer of isAllowed. -/
theorem isAllowed_fst (rl : RateLimiter) (now : Int) (ip : String) :
    (rl.isAllowed now ip).1
      = !decide (((rl.validRequests now (rl.recorded ip)).length : Int) ≥ rl.limit) := by
  unfold RateLimiter.isAllowed RateLimiter.recorded
  by_cases h : ((rl.validRequests now ((rl.ips ip).getD [])).length : Int) ≥ rl.limit
  · simp [h]
  · simp [h]

/-- The lists recorded after isAllowed. -/
theorem isAllowed_recorded (rl : RateLimiter) (now : Int) (ip k : String) :
    (rl.isAllowed now ip).2.recorded k
      = if k = ip then
          (if ((rl.validRequests now (rl.recorded ip)).length : Int) ≥ rl.limit then
            rl.validRequests now (rl.recorded ip)
          else rl.validRequests now (rl.recorded ip) ++ [now])
        else rl.recorded k := by
  unfold RateLimiter.isAllowed RateLimiter.recorded
  by_cases h : ((rl.validRequests now ((rl.ips ip).getD [])).length : Int) ≥ rl.limit
  · by_cases hk : k = ip
    · simp [h, hk]
    · simp [h, hk]
  · by_cases hk : k = ip
    · simp [h, hk]
    · simp [h, hk]

/-- The limit and the window are not changed by isAllowed. -/
theorem isAllowed_config (rl : RateLimiter) (now : Int) (ip : String) :
    (rl.isAllowed now ip).2.limit = rl.limit ∧ (rl.isAllowed now ip).2.window = rl.window := by
  unfold RateLimiter.isAllowed
  by_cases h : ((rl.validRequests now ((rl.ips ip).getD [])).length : Int) ≥ rl.limit
  · simp [h]
  · simp [h]

/-- The lists recorded after cleanupOldRequests. -/
theorem cleanup_recorded (rl : RateLimiter) (now : Int) (k : String) :
    (rl.cleanupOldRequests now).recorded k = rl.validRequests now (rl.recorded k) := by
  unfold RateLimiter.cleanupOldRequests RateLimiter.recorded
  rcases hk : rl.ips k with _ | requests
  · simp only [hk]
    simp [RateLimiter.validRequests]
  · by_cases hv : (rl.validRequests now requests).length > 0
    · simp only [hk, hv, if_true]
      simp
    · have h0 : rl.validRequests now requests = [] := by
        apply List.eq_nil_of_length_eq_zero
        omega
      simp only [hk, h0]
      simp [h0]

/-- The invariant holds for a new limiter with a non-negative limit. -/
theorem limiterInv_new (limit window T : Int) (hL : 0 ≤ limit) :
    LimiterInv limit window T (LimiterTrace.mk (NewRateLimiter limit window) (fun _ => [])) := by
  refine ⟨rfl, rfl, fun ip => ⟨⟨fun _ => true, ?_, ?_⟩, ?_, ?_, ?_⟩⟩
  · simp [RateLimiter.recorded, NewRateLimiter]
  · intro τ h
    simp at h
  · intro τ h
    simp at h
  · intro a
    simpa [allowedWithin] using hL
  · simpa [RateLimiter.recorded, NewRateLimiter] using hL
/-- The invariant is kept by cleanupOldRequests run at or after the last call. -/
theorem limiterInv_cleanup (limit window T now : Int) (t : LimiterTrace)
    (hinv : LimiterInv limit window T t) (hT : T ≤ now) :
    LimiterInv limit window now (t.step (LimiterCall.cleanupOldRequests now)) := by
  obtain ⟨hlim, hwin, hall⟩ := hinv
  refine ⟨hlim, hwin, fun ip => ?_⟩
  obtain ⟨⟨p, hp1, hp2⟩, hb, hc, hd⟩ := hall ip
  have hrec : (t.step (LimiterCall.cleanupOldRequests now)).limiter.recorded ip
      = (t.allowed ip).filter (fun τ => decide (now - τ ≤ window) && p τ) := by
    show (t.limiter.cleanupOldRequests now).recorded ip = _
    rw [cleanup_recorded, RateLimiter.validRequests, hp1, List.filter_filter, hwin]
  refine ⟨⟨_, hrec, ?_⟩, ?_, hc, ?_⟩
  · intro τ hτ
    by_cases hpτ : p τ = true
    · simp only [hpτ, Bool.and_true, decide_eq_false_iff_not] at hτ
      omega
    · have := hp2 τ (by simpa using hpτ)
      omega
  · intro τ hτ
    exact le_trans (hb τ hτ) hT
  · rw [hrec]
    have hle : ((t.allowed ip).filter (fun τ => decide (now - τ ≤ window) && p τ)).length
        ≤ ((t.allowed ip).filter p).length :=
      filter_length_le_of_imp _ _ _ (fun x _ hx => by
        simp only [Bool.and_eq_true] at hx
        exact hx.2)
    rw [hp1] at hd
    omega

/-- The invariant is kept by isAllowed run at or after the last call, for a non-negative
window. -/
theorem limiterInv_isAllowed (limit window T now : Int) (ip0 : String) (t : LimiterTrace)
    (hw : 0 ≤ window) (hinv : LimiterInv limit window T t) (hT : T ≤ now) :
    LimiterInv limit window now (t.step (LimiterCall.isAllowed now ip0)) := by
  obtain ⟨hlim, hwin, hall⟩ := hinv
  have hcfg := isAllowed_config t.limiter now ip0
  refine ⟨hcfg.1.trans hlim, hcfg.2.trans hwin, fun ip => ?_⟩
  obtain ⟨⟨p, hp1, hp2⟩, hb, hc, hd⟩ := hall ip
  have hrecd : (t.step (LimiterCall.isAllowed now ip0)).limiter.recorded ip
      = (t.limiter.isAllowed now ip0).2.recorded ip := rfl
  by_cases hip : ip = ip0
  · subst hip
    have hvalid : t.limiter.validRequests now (t.limiter.recorded ip)
        = (t.allowed ip).filter (fun τ => decide (now - τ ≤ window) && p τ) := by
      rw [RateLimiter.validRequests, hp1, List.filter_filter, hwin]
    have hvle : ((t.allowed ip).filter (fun τ => decide (now - τ ≤ window) && p τ)).length
        ≤ ((t.allowed ip).filter p).length :=
      filter_length_le_of_imp _ _ _ (fun x _ hx => by
        simp only [Bool.and_eq_true] at hx
        exact hx.2)
    have hold : ∀ τ, (decide (now - τ ≤ window) && p τ) = false → τ + window < now := by
      intro τ hτ
      by_cases hpτ : p τ = true
      · simp only [hpτ, Bool.and_true, decide_eq_false_iff_not] at hτ
        omega
      · have := hp2 τ (by simpa using hpτ)
        omega
    by_cases hge : ((t.limiter.validRequests now (t.limiter.recorded ip)).length : Int)
        ≥ t.limiter.limit
    · have hans : (t.limiter.isAllowed now ip).1 = false := by
        rw [isAllowed_fst]
        simp [hge]
      have hallowed : (t.step (LimiterCall.isAllowed now ip)).allowed = t.allowed := by
        simp [LimiterTrace.step, hans]
      have hrec : (t.step (LimiterCall.isAllowed now ip)).limiter.recorded ip
          = (t.allowed ip).filter (fun τ => decide (now - τ ≤ window) && p τ) := by
        rw [hrecd, isAllowed_recorded, if_pos rfl, if_pos hge, hvalid]
      refine ⟨⟨_, by rw [hrec, hallowed], hold⟩, ?_, ?_, ?_⟩
      · intro τ hτ
        rw [hallowed] at hτ
        exact le_trans (hb τ hτ) hT
      · intro a
        have := hc a
        simpa [allowedWithin, hallowed] using this
      · rw [hrec]
        rw [hp1] at hd
        omega
    · have hans : (t.limiter.isAllowed now ip).1 = true := by
        rw [isAllowed_fst]
        simp [hge]
      have hallowed : (t.step (LimiterCall.isAllowed now ip)).allowed ip
          = t.allowed ip ++ [now] := by
        simp [LimiterTrace.step, hans]
      have hrec : (t.step (LimiterCall.isAllowed now ip)).limiter.recorded ip
          = (t.allowed ip).filter (fun τ => decide (now - τ ≤ window) && p τ) ++ [now] := by
        rw [hrecd, isAllowed_recorded, if_pos rfl, if_neg hge, hvalid]
      have hpnow : p now = true := by
        by_contra hne
        have := hp2 now (by simpa using hne)
        omega
      have hlt : (((t.allowed ip).filter
          (fun τ => decide (now - τ ≤ window) && p τ)).length : Int) < limit := by
        rw [hvalid, hlim] at hge
        omega
      refine ⟨⟨fun τ => decide (now - τ ≤ window) && p τ, ?_, hold⟩, ?_, ?_, ?_⟩
      · rw [hrec, hallowed, List.filter_append]
        congr 1
        have hq : decide (now - now ≤ window) = true := by
          simp only [decide_eq_true_eq]
          omega
        have hboth : (decide (now - now ≤ window) && p now) = true := by
          rw [Bool.and_eq_true]
          exact ⟨hq, hpnow⟩
        have hf : [now].filter (fun τ => decide (now - τ ≤ window) && p τ) = [now] := by
          rw [List.filter_cons_of_pos (by exact hboth)]
          rfl
        exact hf.symm
      · intro τ hτ
        rw [hallowed] at hτ
        simp only [List.mem_append, List.mem_singleton] at hτ
        rcases hτ with hτ | hτ
        · exact le_trans (hb τ hτ) hT
        · omega
      · intro a
        unfold allowedWithin
        rw [hallowed, List.filter_append, List.length_append]
        by_cases hin : a ≤ now ∧ now ≤ a + window
        · have hcount : ((t.allowed ip).filter
              (fun τ => decide (a ≤ τ ∧ τ ≤ a + window))).length
              ≤ ((t.allowed ip).filter
                  (fun τ => decide (now - τ ≤ window) && p τ)).length := by
            apply filter_length_le_of_imp
            intro x hx hxin
            simp only [decide_eq_true_eq] at hxin
            have hpx : p x = true := by
              by_contra hne
              have := hp2 x (by simpa using hne)
              omega
            have hqx : decide (now - x ≤ window) = true := by
              simp only [decide_eq_true_eq]
              omega
            show (decide (now - x ≤ window) && p x) = true
            rw [Bool.and_eq_true]
            exact ⟨hqx, hpx⟩
          have hone : ([now].filter (fun τ => decide (a ≤ τ ∧ τ ≤ a + window))).length ≤ 1 := by
            have := List.length_filter_le (fun τ => decide (a ≤ τ ∧ τ ≤ a + window)) [now]
            simpa using this
          push_cast
          omega
        · have hzero : [now].filter (fun τ => decide (a ≤ τ ∧ τ ≤ a + window)) = [] := by
            simp [hin]
          rw [hzero]
          have := hc a
          simpa [allowedWithin] using this
      · rw [hrec, List.length_append]
        simp only [List.length_singleton]
        push_cast
        omega
  · have hrec : (t.step (LimiterCall.isAllowed now ip0)).limiter.recorded ip
        = t.limiter.recorded ip := by
      rw [hrecd, isAllowed_recorded, if_neg hip]
    have hallowed : (t.step (LimiterCall.isAllowed now ip0)).allowed ip = t.allowed ip := by
      by_cases hans : (t.limiter.isAllowed now ip0).1 = true
      · simp [LimiterTrace.step, hans, hip]
      · simp [LimiterTrace.step, hans]
    refine ⟨⟨p, by rw [hrec, hallowed, hp1], ?_⟩, ?_, ?_, ?_⟩
    · intro τ hτ
      have := hp2 τ hτ
      omega
    · intro τ hτ
      rw [hallowed] at hτ
      exact le_trans (hb τ hτ) hT
    · intro a
      have := hc a
      simpa [allowedWithin, hallowed] using this
    · rw [hrec]
      exact hd
/-- The invariant is kept by one call made at or after the last one. -/
theorem limiterInv_step (limit window T : Int) (t : LimiterTrace) (c : LimiterCall)
    (hw : 0 ≤ window) (hinv : LimiterInv limit window T t) (hT : T ≤ c.time) :
    LimiterInv limit window c.time (t.step c) := by
  cases c with
  | isAllowed now ip => exact limiterInv_isAllowed limit window T now ip t hw hinv hT
  | cleanupOldRequests now => exact limiterInv_cleanup limit window T now t hinv hT

/-- The invariant is kept by a sequence of calls made at non-decreasing instants. -/
theorem limiterInv_foldl (limit window : Int) (hw : 0 ≤ window) (calls : List LimiterCall) :
    ∀ (t : LimiterTrace) (T : Int), LimiterInv limit window T t →
      (∀ c ∈ calls, T ≤ c.time) →
      List.Pairwise (fun a b => a.time ≤ b.time) calls →
      ∃ T2, LimiterInv limit window T2 (calls.foldl LimiterTrace.step t) := by
  induction calls with
  | nil => intro t T hinv _ _; exact ⟨T, hinv⟩
  | cons c rest ih =>
    intro t T hinv hT hp
    rw [List.pairwise_cons] at hp
    have hstep := limiterInv_step limit window T t c hw hinv (hT c (List.mem_cons_self _ _))
    exact ih (t.step c) c.time hstep hp.1 hp.2

/-- The invariant holds for a new limiter after calls at non-decreasing instants. -/
theorem limiterInv_run (limit window : Int) (hL : 0 ≤ limit) (hw : 0 ≤ window)
    (calls : List LimiterCall)
    (hs : List.Pairwise (fun a b => a.time ≤ b.time) calls) :
    ∃ T, LimiterInv limit window T (runLimiter limit window calls) := by
  rcases calls with _ | ⟨c, rest⟩
  · exact ⟨0, limiterInv_new limit window 0 hL⟩
  · exact limiterInv_foldl limit window hw (c :: rest) _ c.time
      (limiterInv_new limit window c.time hL)
      (by
        intro x hx
        rw [List.pairwise_cons] at hs
        rcases List.mem_cons.mp hx with h | h
        · rw [h]
        · exact hs.1 x h)
      hs

/-- Counterexample for C30: with the limit 180 and the window 60, a request of a first
client at instant 0 is followed by a request of a second client at instant 100; after
that call the list recorded for the first client still holds the instant 0, which is
older than the window at instant 100. -/
theorem other_client_list_is_stale :
    (runLimiter 180 60 twoClientCalls).limiter.recorded "10.0.0.1" = [0] ∧
    ¬ ((100 : Int) - 0 ≤ 60) := by
  decide

/-- C30 (amended): for a new limiter with a non-negative limit and window and calls made at
non-decreasing instants, every closed interval of one window holds at most `limit`
allowed calls of each client IP, and the list recorded for each IP holds at most
`limit` instants; after an isAllowed call the instants recorded for the IP of that call,
and after a cleanupOldRequests call the instants recorded for every IP, are at most one
window old at the instant of the call. -/
theorem rateLimiter_window (limit window : Int) (calls : List LimiterCall)
    (hL : 0 ≤ limit) (hw : 0 ≤ window)
    (hs : List.Pairwise (fun a b => a.time ≤ b.time) calls) :
    (∀ ip a, (allowedWithin (runLimiter limit window calls) ip a window : Int) ≤ limit) ∧
    (∀ ip, (((runLimiter limit window calls).limiter.recorded ip).length : Int) ≤ limit) ∧
    (∀ pre now ip, calls = pre ++ [LimiterCall.isAllowed now ip] →
      ∀ τ ∈ (runLimiter limit window calls).limiter.recorded ip, now - τ ≤ window) ∧
    (∀ pre now, calls = pre ++ [LimiterCall.cleanupOldRequests now] →
      ∀ ip, ∀ τ ∈ (runLimiter limit window calls).limiter.recorded ip, now - τ ≤ window) := by
  obtain ⟨T, hinv⟩ := limiterInv_run limit window hL hw calls hs
  refine ⟨fun ip a => (hinv.2.2 ip).2.2.1 a, fun ip => (hinv.2.2 ip).2.2.2, ?_, ?_⟩
  · intro pre now ip hcalls τ hτ
    subst hcalls
    have hpre : List.Pairwise (fun a b => a.time ≤ b.time) pre :=
      (List.pairwise_append.mp hs).1
    obtain ⟨T1, hinv1⟩ := limiterInv_run limit window hL hw pre hpre
    have hrun : runLimiter limit window (pre ++ [LimiterCall.isAllowed now ip])
        = (runLimiter limit window pre).step (LimiterCall.isAllowed now ip) := by
      simp [runLimiter, List.foldl_append]
    rw [hrun] at hτ
    have hrec : ((runLimiter limit window pre).step
        (LimiterCall.isAllowed now ip)).limiter.recorded ip
        = ((runLimiter limit window pre).limiter.isAllowed now ip).2.recorded ip := rfl
    rw [hrec, isAllowed_recorded, if_pos rfl] at hτ
    have hvalid : ∀ x ∈ (runLimiter limit window pre).limiter.validRequests now
        ((runLimiter limit window pre).limiter.recorded ip), now - x ≤ window := by
      intro x hx
      unfold RateLimiter.validRequests at hx
      rw [List.mem_filter] at hx
      have := hx.2
      simp only [decide_eq_true_eq] at this
      rw [hinv1.2.1] at this
      exact this
    split at hτ
    · exact hvalid τ hτ
    · simp only [List.mem_append, List.mem_singleton] at hτ
      rcases hτ with hτ | hτ
      · exact hvalid τ hτ
      · omega
  · intro pre now hcalls ip τ hτ
    subst hcalls
    have hpre : List.Pairwise (fun a b => a.time ≤ b.time) pre :=
      (List.pairwise_append.mp hs).1
    obtain ⟨T1, hinv1⟩ := limiterInv_run limit window hL hw pre hpre
    have hrun : runLimiter limit window (pre ++ [LimiterCall.cleanupOldRequests now])
        = (runLimiter limit window pre).step (LimiterCall.cleanupOldRequests now) := by
      simp [runLimiter, List.foldl_append]
    rw [hrun] at hτ
    have hrec : ((runLimiter limit window pre).step
        (LimiterCall.cleanupOldRequests now)).limiter.recorded ip
        = ((runLimiter limit window pre).limiter.cleanupOldRequests now).recorded ip := rfl
    rw [hrec, cleanup_recorded] at hτ
    unfold RateLimiter.validRequests at hτ
    rw [List.mem_filter] at hτ
    have := hτ.2
    simp only [decide_eq_true_eq] at this
    rw [hinv1.2.1] at this
    exact this

/-- Witness for C30 (amended): with the limit 2, of three requests of one client at the
instants 0, 1 and 2 at most two are allowed within the window that starts at 0. -/
theorem rateLimiter_window_witness :
    (allowedWithin (runLimiter 2 60 threeQuickCalls) "10.0.0.1" 0 60 : Int) ≤ 2 ∧
    (runLimiter 2 60 threeQuickCalls).allowed "10.0.0.1" = [0, 1] :=
  ⟨(rateLimiter_window 2 60 threeQuickCalls (by decide) (by decide)
      (by simp [threeQuickCalls, LimiterCall.time])).1 "10.0.0.1" 0,
   by decide⟩

end StarGo
